import Mathlib

/-!
The ddsnap client (`dm-ddsnap.c`): a shallow embedding.

The device-mapper target of the cluster snapshot client is embedded as pure
functions over an explicit `devinfo` state.

* Kernel intrusive lists are Lean lists written head first: `list_add`
  is `::`, `head->next` is the first element and `head->prev` the last one.
* A `struct bio *` held by a pending record is embedded by value: between
  `ddsnap_map` and the reply the record is the only owner of the bio.
* Semaphores are their counts; spin locks are not modelled (every function
  is one atomic step of a sequential interleaving).
* Effects on the outside world (block layer calls, socket writes) are
  returned as a list of `Event`s in program order.
* Machine integers are natural numbers; truncation is written where the C
  type truncates.
* Pointers that the source dereferences without a test (the socket handed
  to `outbead`, the devices) are taken to be valid; a send is recorded as
  the message handed to `outbead`, whatever the transport does with it.
-/

namespace Ddsnap

set_option maxRecDepth 8192

/-! ## Constants (`dm-ddsnap.c` lines 146-153) -/

def SECTOR_SHIFT : Nat := 9
def IS_SNAP_FLAG : Nat := 1 <<< 0
def REPORT_BIT : Nat := 1
def RECOVER_FLAG : Nat := 1 <<< 2
def FINISH_FLAG : Nat := 1 <<< 3
def READY_FLAG : Nat := 1 <<< 4
def NUM_BUCKETS : Nat := 64
def MASK_BUCKETS : Nat := NUM_BUCKETS - 1

/-! ## Data model -/

/-- Direction of a block I/O, the value of `bio_data_dir(bio)` and of the
`rw` argument of `replied_rw`. -/
inductive Rw where
  | READ
  | WRITE
  deriving DecidableEq

/-- Values of a `bio_end_io_t *`: the null pointer, the address of
`snapshot_read_end_io`, or some other completion function. -/
inductive bio_end_io_t where
  | NULL
  | snapshot_read_end_io
  | fn (addr : Nat)
  deriving DecidableEq

/-- The fields of `struct bio` that the client reads or writes.  `dir` is
`bio_data_dir(bio)`; `bi_bdev` is the identity of the block device;
`bi_private` is an untyped pointer value. -/
structure bio where
  bi_bdev : Nat
  bi_sector : Nat
  bi_size : Nat
  dir : Rw
  bi_end_io : bio_end_io_t
  bi_private : Nat
  deriving DecidableEq

/-- The record `struct pending` (lines 255-261), without its list link. -/
structure pending where
  id : Nat
  chunk : Nat
  chunks : Nat
  bio : Ddsnap.bio
  deriving DecidableEq

/-- The record `struct hook` (lines 301-309), without its list link and its
back pointer to the device.  `addr` is the address of the record, the value
stored in `bio->bi_private` while the hook is installed. -/
structure hook where
  addr : Nat
  sector : Nat
  old_end_io : bio_end_io_t
  old_private : Nat
  deriving DecidableEq

/-- The device instance `struct devinfo` (lines 155-182).  `orgdev` and
`snapdev` stand for `orgdev->bdev` and `snapdev->bdev`; a socket is `none`
when the pointer is null; `pending` is the array of `NUM_BUCKETS` bucket
lists.  The cache fields (`shared_bitmap`, `inode`) belong to code that is
compiled out and the two spin locks have no state in a sequential model. -/
structure devinfo where
  id : Nat
  flags : Nat
  chunksize_bits : Nat
  chunkshift : Nat
  snap : Int
  nextid : Nat
  orgdev : Nat
  snapdev : Nat
  sock : Option Nat
  control_socket : Option Nat
  server_in_sem : Nat
  server_out_sem : Nat
  more_work_sem : Nat
  recover_sem : Nat
  exit1_sem : Nat
  exit2_sem : Nat
  exit3_sem : Nat
  pending : List (List Ddsnap.pending)
  queries : List Ddsnap.pending
  releases : List Ddsnap.hook
  locked : List Ddsnap.hook
  dont_switch_lists : Nat
  deriving DecidableEq

/-- How a call ends: it returns a value, or it dies in `BUG()` (a failed
`assert`), or it reads past the entries of the received message, or it
sleeps in `down()` on a semaphore whose count is zero. -/
inductive Outcome (α : Type) where
  | ok (a : α)
  | BUG
  | overrun
  | blocked
  deriving DecidableEq

/-- Modelled from the spec: the message codes that the client sends; they
are declared in the header `dm-ddsnap.h`, which is not among the sources,
and only their names are used. -/
inductive Opcode where
  | QUERY_WRITE
  | QUERY_SNAPSHOT_READ
  | FINISH_SNAPSHOT_READ
  | UPLOAD_LOCK
  | FINISH_UPLOAD_LOCK
  | USECOUNT
  | CONNECT_SERVER_OK
  | IDENTIFY
  | CONNECT_SERVER_ERROR
  | NEED_SERVER
  deriving DecidableEq

/-- Modelled from the spec: the body `struct rw_request1` of the absent
header `dm-ddsnap.h`, a `rw_request {id, count, ranges}` with exactly one
`chunk_range {chunk, chunks}`. -/
structure rw_request1 where
  id : Nat
  count : Nat
  chunk : Nat
  chunks : Nat
  deriving DecidableEq

/-- What the client does to the outside world.  `outbead` is one call of
the `outbead` macro on the server socket with a `rw_request1` body,
`outbead_empty` one with the empty body; `end_io` is a call of a
completion callback with the bio as it is handed over; the
`control_writepipe` events are calls of `writepipe` on the control socket
with a message head, with the four bytes of `err`, and with raw bytes. -/
inductive Event where
  | bio_io_error (b : bio)
  | generic_make_request (b : bio)
  | kick (dev : Nat)
  | outbead (code : Opcode) (body : rw_request1)
  | outbead_empty (code : Opcode)
  | outbead_snapinfo (code : Opcode) (snap : Int) (usecnt_dev : Int) (delta : Int)
  | control_outbead_empty (code : Opcode)
  | outbead_identify (code : Opcode) (id : Nat) (snap : Int) (off : Nat) (len : Nat)
  | end_io (fn : bio_end_io_t) (b : bio) (done : Nat) (error : Int)
  | control_writepipe_head (code : Opcode) (length : Nat)
  | control_writepipe_err (err : Int)
  | control_writepipe_bytes (bytes : List Nat)
  deriving DecidableEq

/-! ## Small helpers of the source -/

/-- Source function `is_snapshot` (lines 184-187). -/
def is_snapshot (info : devinfo) : Bool :=
  decide (info.flags &&& IS_SNAP_FLAG ≠ 0)

/-- Source function `running` (lines 189-192). -/
def running (info : devinfo) : Bool :=
  decide (info.flags &&& FINISH_FLAG = 0)

/-- Source function `worker_running` (lines 194-197). -/
def worker_running (info : devinfo) : Bool :=
  decide (info.flags &&& (FINISH_FLAG ||| RECOVER_FLAG) = 0)

/-- Source function `hash_pending` (lines 294-297). -/
def hash_pending (id : Nat) : Nat :=
  id &&& MASK_BUCKETS

/-- The 32-bit value of `~(-1 << ID_BITS)` in two's complement: `-1` is
`2^32 - 1`, the shift keeps the low 32 bits, `~` complements them. -/
def id_mask (ID_BITS : Nat) : Nat :=
  (2 ^ 32 - 1) - ((2 ^ 32 - 1) <<< ID_BITS) % 2 ^ 32

/-! ## The map method -/

/-- The value of the `int` expression `1 << k` of line 923 as the
comparison with the `unsigned` `bi_size` sees it.  For `k < 31` it is the C
value `2^k`.  From 31 on the C shift is not defined; the model takes what
the 32-bit shift instruction yields, the count modulo 32 and the result
read as `unsigned`, so that `1 << 32` is 1. -/
def int_shift_one (k : Nat) : Nat :=
  (1 <<< (k % 32)) % 2 ^ 32

/-- Source function `ddsnap_map` (lines 904-956), with `CACHE` undefined.
`ID_BITS` is a constant of the header `dm-ddsnap.h`, which is not among the
sources, and so a parameter.  The result is the return value, the new
device state and the bio as the caller sees it afterwards.  The `assert`
compares `bi_size` with the 32-bit value of `1 << chunksize_bits`. -/
def ddsnap_map (ID_BITS : Nat) (info : devinfo) (b : bio) :
    Outcome (Int × devinfo × bio) :=
  if info.flags &&& READY_FLAG = 0 then
    .ok (-1, info, b)
  else
    let b := { b with bi_bdev := info.orgdev }
    if b.dir = Rw.READ ∧ is_snapshot info = false then
      .ok (1, info, b)
    else
      let chunk := b.bi_sector >>> info.chunkshift
      if ¬ (b.bi_size ≤ int_shift_one info.chunksize_bits) then
        .BUG
      else
        let id := info.nextid
        let info := { info with nextid := ((id + 1) % 2 ^ 32) &&& id_mask ID_BITS }
        let p : pending := { id := id, bio := b, chunk := chunk, chunks := 1 }
        let info := { info with queries := p :: info.queries }
        let info := { info with more_work_sem := info.more_work_sem + 1 }
        .ok (0, info, b)

/-! ## Reply completion -/

/-- Modelled from the spec: `struct chunk_range {chunk: u64, chunks: u32}`
of the absent header `dm-ddsnap.h`. -/
structure chunk_range where
  chunk : Nat
  chunks : Nat
  deriving DecidableEq

/-- Modelled from the spec: one range of a reply as it lies in the
message, the `chunk_range` and, behind it, the 64-bit physical chunk
numbers that a snapstore reply appends to the range. -/
structure range_entry where
  range : chunk_range
  physical : List Nat
  deriving DecidableEq

/-- Modelled from the spec: the body `struct rw_request {id, count,
ranges[count]}` of the absent header `dm-ddsnap.h`.  `count` is the number
the message claims, `ranges` what is really there. -/
structure rw_request where
  id : Nat
  count : Nat
  ranges : List range_entry
  deriving DecidableEq

/-- The bucket search of `replied_rw` (lines 355-362): the first record of
the bucket whose id is `id`, and the bucket after `list_del` of it. -/
def find_pending (id : Nat) : List pending → Option (pending × List pending)
  | [] => none
  | p :: rest =>
    if p.id = id then some (p, rest)
    else
      match find_pending id rest with
      | none => none
      | some (q, rest') => some (q, p :: rest')

/-- The inner `for (j = 0; j < chunks; j++)` of `replied_rw` (lines
385-390): `p2` walks the physical chunk numbers behind the range.  `none`
when the walk leaves what was received. -/
def remap_loop (snapdev shift mask : Nat) : Nat → List Nat → bio → Option bio
  | 0, _, b => some b
  | _ + 1, [], _ => none
  | j + 1, c :: p2, b =>
    let physical := ((c <<< shift) % 2 ^ 64 + (b.bi_sector &&& mask)) % 2 ^ 64
    remap_loop snapdev shift mask j p2 { b with bi_bdev := snapdev, bi_sector := physical }

/-- The `for (i = 0; i < body->count; i++)` of `replied_rw` (lines
345-416) with `n` iterations left, `i` the loop counter, `p` the ranges
not yet consumed, `ev` the effects so far.  `alloc i` is the address that
`kmem_cache_alloc(end_io_cache, ...)` returns in iteration `i`. -/
def replied_rw_loop (id : Nat) (rw : Rw) (snap failed_io : Bool) (shift mask : Nat)
    (alloc : Nat → Nat) :
    Nat → Nat → List range_entry → devinfo → List Event → Nat →
      Outcome (Int × devinfo × List Event)
  | 0, _, _, info, ev, submitted =>
    .ok (0, info,
      if submitted ≠ 0 then ev ++ [Event.kick info.orgdev, Event.kick info.snapdev] else ev)
  | n + 1, i, p, info, ev, submitted =>
    match p with
    | [] => .overrun
    | e :: p' =>
      let chunks := e.range.chunks
      if chunks ≠ 1 then .BUG
      else
        match find_pending id (info.pending.getD (hash_pending id) []) with
        | none => .ok (-1, info, ev)
        | some (pend, rest) =>
          let info := { info with pending := info.pending.set (hash_pending id) rest }
          let b := pend.bio
          if failed_io then .ok (-1, info, ev ++ [Event.bio_io_error b])
          else if chunks ≠ pend.chunks then .ok (-1, info, ev ++ [Event.bio_io_error b])
          else if snap then
            match remap_loop info.snapdev shift mask chunks e.physical b with
            | none => .overrun
            | some b =>
              replied_rw_loop id rw snap failed_io shift mask alloc n (i + 1) p' info
                (ev ++ [Event.generic_make_request b]) (submitted + 1)
          else if rw = Rw.READ then
            let h : hook :=
              { addr := alloc i, sector := b.bi_sector,
                old_end_io := b.bi_end_io, old_private := b.bi_private }
            let b := { b with bi_end_io := bio_end_io_t.snapshot_read_end_io,
                              bi_private := h.addr }
            let info := { info with locked := h :: info.locked }
            replied_rw_loop id rw snap failed_io shift mask alloc n (i + 1) p' info
              (ev ++ [Event.generic_make_request b]) (submitted + 1)
          else
            replied_rw_loop id rw snap failed_io shift mask alloc n (i + 1) p' info
              (ev ++ [Event.generic_make_request b]) (submitted + 1)

/-- Source function `replied_rw` (lines 331-423), with `CACHE` undefined.
`shift` is an `unsigned` difference and `mask` an `unsigned` value, both
kept to 32 bits.  The result is the return value, the new state and the
effects. -/
def replied_rw (info : devinfo) (body : rw_request) (rw : Rw) (snap failed_io : Bool)
    (alloc : Nat → Nat) : Outcome (Int × devinfo × List Event) :=
  let shift := (info.chunksize_bits + 2 ^ 32 - SECTOR_SHIFT) % 2 ^ 32
  let mask := ((1 <<< shift) - 1) % 2 ^ 32
  replied_rw_loop body.id rw snap failed_io shift mask alloc body.count 0 body.ranges info [] 0

/-! ## The worker -/

/-- How one pass through the body of a worker loop ends: the loop goes
round again, the loop condition was false, or the send failed and the
worker jumps to `report`. -/
inductive Next where
  | again
  | done
  | report
  deriving DecidableEq

/-- The query message for a pending record (lines 735-740). -/
def query_message (p : pending) : Event :=
  Event.outbead (if p.bio.dir = Rw.WRITE then Opcode.QUERY_WRITE else Opcode.QUERY_SNAPSHOT_READ)
    { id := p.id, count := 1, chunk := p.chunk, chunks := p.chunks }

/-- One evaluation of the loop condition and, when it holds, one pass
through the body of the query drain of `worker` (lines 724-744).  `err`
is the value that `outbead` returns for this send. -/
def worker_query_iter (info : devinfo) (err : Int) : Outcome (Next × devinfo × List Event) :=
  match info.queries.getLast? with
  | none => .ok (Next.done, info, [])
  | some p =>
    if worker_running info = false then .ok (Next.done, info, [])
    else
      let info := { info with queries := info.queries.dropLast }
      let info := { info with
        pending := info.pending.set (hash_pending p.id)
          (p :: info.pending.getD (hash_pending p.id) []) }
      if info.server_out_sem = 0 then .blocked
      else
        let info := { info with server_out_sem := info.server_out_sem - 1 }
        if err ≠ 0 then .ok (Next.report, info, [query_message p])
        else
          let info := { info with server_out_sem := info.server_out_sem + 1 }
          .ok (Next.again, info, [query_message p])

/-- The query drain of `worker` (lines 723-745) run for at most `fuel`
passes; `errs k` is what `outbead` returns for the `k`-th send.  The result
is `Next.again` only when the fuel ran out with the loop still going. -/
def worker_query_loop (errs : Nat → Int) :
    Nat → Nat → devinfo → List Event → Outcome (Next × devinfo × List Event)
  | 0, _, info, ev => .ok (Next.again, info, ev)
  | fuel + 1, k, info, ev =>
    match worker_query_iter info (errs k) with
    | .ok (Next.again, info', ev') => worker_query_loop errs fuel (k + 1) info' (ev ++ ev')
    | .ok (nx, info', ev') => .ok (nx, info', ev ++ ev')
    | .BUG => .BUG
    | .overrun => .overrun
    | .blocked => .blocked

/-- The query drain of `worker`: every pass takes one record off the query
queue, so one pass more than the length of the queue ends the loop. -/
def worker_query_drain (info : devinfo) (errs : Nat → Int) :
    Outcome (Next × devinfo × List Event) :=
  worker_query_loop errs (info.queries.length + 1) 0 info []

/-- The inner `while (!list_empty(bucket))` of `requeue_queries` (lines
694-701) on bucket `i`, whose records are the list argument. -/
def requeue_bucket (i : Nat) : List pending → devinfo → devinfo
  | [], info => info
  | entry :: rest, info =>
    requeue_bucket i rest
      { info with
        pending := info.pending.set i rest
        queries := entry :: info.queries
        more_work_sem := info.more_work_sem + 1 }

/-- The `for (i = 0; i < NUM_BUCKETS; i++)` of `requeue_queries`, with `n`
buckets left. -/
def requeue_loop : Nat → Nat → devinfo → devinfo
  | 0, _, info => info
  | n + 1, i, info => requeue_loop n (i + 1) (requeue_bucket i (info.pending.getD i []) info)

/-- Source function `requeue_queries` (lines 684-705). -/
def requeue_queries (info : devinfo) : devinfo :=
  requeue_loop NUM_BUCKETS 0 info

/-- The first loop of `upload_locks` (lines 651-656): take the last hook
off the release list and free it, until the list is empty. -/
def free_releases : Nat → List hook → List hook
  | 0, l => l
  | fuel + 1, l => if l = [] then l else free_releases fuel l.dropLast

/-- The message `upload_locks` sends for a live hook (lines 670-671); the
`id` field is not named in the initialiser and so is zero. -/
def upload_lock_message (chunkshift : Nat) (h : hook) : Event :=
  Event.outbead Opcode.UPLOAD_LOCK
    { id := 0, count := 1, chunk := h.sector >>> chunkshift, chunks := 1 }

/-- The walk over the locked list in `upload_locks` (lines 658-672): a hook
whose `old_end_io` is null is deleted and freed, a live one is reported.
The result is the locked list afterwards and the messages. -/
def upload_walk (chunkshift : Nat) : List hook → List hook × List Event
  | [] => ([], [])
  | h :: rest =>
    let r := upload_walk chunkshift rest
    if h.old_end_io = bio_end_io_t.NULL then r
    else (h :: r.1, upload_lock_message chunkshift h :: r.2)

/-- The last sweep of `upload_locks` (lines 675-679): hooks whose
`old_end_io` is null are moved to the head of the release list.  The result
is the locked list and the release list afterwards. -/
def sweep_locked : List hook → List hook → List hook × List hook
  | [], releases => ([], releases)
  | h :: rest, releases =>
    if h.old_end_io = bio_end_io_t.NULL then sweep_locked rest (h :: releases)
    else
      let r := sweep_locked rest releases
      (h :: r.1, r.2)

/-- Source function `upload_locks` (lines 643-682), run with no completion in between.
The values `outbead` returns are not looked at by the source. -/
def upload_locks (info : devinfo) : devinfo × List Event :=
  let info := { info with dont_switch_lists := 1 }
  let info := { info with releases := free_releases info.releases.length info.releases }
  let w := upload_walk info.chunkshift info.locked
  let info := { info with locked := w.1 }
  let ev := w.2 ++ [Event.outbead_empty Opcode.FINISH_UPLOAD_LOCK]
  let s := sweep_locked info.locked info.releases
  let info := { info with locked := s.1, releases := s.2 }
  let info := { info with dont_switch_lists := 0 }
  (info, ev)

/-- The first critical section of `upload_locks` (lines 649-657): the
flag is set and the release list is emptied, every hook on it freed. -/
def upload_begin (info : devinfo) : devinfo :=
  let info := { info with dont_switch_lists := 1 }
  { info with releases := free_releases info.releases.length info.releases }

/-- One pass through the body of the walk over the locked list in
`upload_locks` (lines 658-672) with `todo + 1` hooks still to visit.  Hooks
that `replied_rw` adds while the walk is under way go to the head of the
list, behind the cursor, so the hook visited is the one `todo + 1` places
before the end of the list. -/
def upload_visit (info : devinfo) (todo : Nat) : devinfo × List Event :=
  if info.locked.length < todo + 1 then (info, [])
  else
    let i := info.locked.length - (todo + 1)
    match info.locked.get? i with
    | none => (info, [])
    | some h =>
      if h.old_end_io = bio_end_io_t.NULL then
        ({ info with locked := info.locked.eraseIdx i }, [])
      else (info, [upload_lock_message info.chunkshift h])

/-- The walk of `upload_locks` run from a cursor with `todo` hooks left to
its end with nothing else in between. -/
def upload_visits : Nat → devinfo → List Event → devinfo × List Event
  | 0, info, ev => (info, ev)
  | todo + 1, info, ev =>
    let r := upload_visit info todo
    upload_visits todo r.1 (ev ++ r.2)

/-- The end of `upload_locks` (lines 673-681): the closing message, then
in one critical section the sweep of the hooks whose `old_end_io` is null
to the release list and the clearing of the flag. -/
def upload_end (info : devinfo) : devinfo × List Event :=
  let s := sweep_locked info.locked info.releases
  let info := { info with locked := s.1, releases := s.2 }
  ({ info with dont_switch_lists := 0 }, [Event.outbead_empty Opcode.FINISH_UPLOAD_LOCK])

/-! ## The end-of-I/O hook and the release drain -/

/-- The hook that a `struct hook *` with value `addr` points to, when it is
on the list: the first hook with that address, and the list after
`list_del` of it. -/
def find_hook (addr : Nat) : List hook → Option (hook × List hook)
  | [] => none
  | h :: rest =>
    if h.addr = addr then some (h, rest)
    else
      match find_hook addr rest with
      | none => none
      | some (g, rest') => some (g, h :: rest')

/-- The assignment `hook->old_end_io = NULL` through a pointer with value
`addr`, for a hook that stays where it is on the list. -/
def null_hook (addr : Nat) : List hook → List hook
  | [] => []
  | h :: rest =>
    if h.addr = addr then { h with old_end_io := bio_end_io_t.NULL } :: rest
    else h :: null_hook addr rest

/-- The body of `snapshot_read_end_io` (lines 313-326) for a hook `h` found
on `list`, the rest of that list being `rest`: the result is the state and
the bio before the original callback is called. -/
def end_io_hook (info : devinfo) (b : bio) (h : hook) (on_locked : Bool)
    (rest : List hook) : devinfo × bio :=
  let b := { b with bi_end_io := h.old_end_io, bi_private := h.old_private }
  let h' : hook := { h with old_end_io := bio_end_io_t.NULL }
  let info :=
    if info.dont_switch_lists = 0 then
      if on_locked then { info with locked := rest, releases := h' :: info.releases }
      else { info with releases := h' :: rest }
    else
      if on_locked then { info with locked := null_hook h.addr info.locked }
      else { info with releases := null_hook h.addr info.releases }
  let info := { info with more_work_sem := info.more_work_sem + 1 }
  (info, b)

/-- Source function `snapshot_read_end_io` (lines 311-327).  The hook is
found through `bio->bi_private`; `done` and `error` are handed on to the
original callback and `ret` is what that callback returns.  The result is
the return value, the new state, the bio and the call of the original
callback; it is `none` when `bi_private` is not the address of a hook of
the device, and when the restored callback is null or
`snapshot_read_end_io` itself (calls that the model does not follow). -/
def snapshot_read_end_io (info : devinfo) (b : bio) (done : Nat) (error : Int) (ret : Int) :
    Option (Int × devinfo × bio × List Event) :=
  let found : Option (hook × Bool × List hook) :=
    match find_hook b.bi_private info.locked with
    | some (h, rest) => some (h, true, rest)
    | none =>
      match find_hook b.bi_private info.releases with
      | some (h, rest) => some (h, false, rest)
      | none => none
  match found with
  | none => none
  | some (h, on_locked, rest) =>
    let r := end_io_hook info b h on_locked rest
    match r.2.bi_end_io with
    | bio_end_io_t.fn a =>
      some (ret, r.1, r.2, [Event.end_io (bio_end_io_t.fn a) r.2 done error])
    | _ => none

/-- The release message for a hook (lines 752, 759-760); the `id` field is
not named in the initialiser and so is zero. -/
def finish_message (chunkshift : Nat) (h : hook) : Event :=
  Event.outbead Opcode.FINISH_SNAPSHOT_READ
    { id := 0, count := 1, chunk := h.sector >>> chunkshift, chunks := 1 }

/-- One evaluation of the loop condition and, when it holds, one pass
through the body of the release drain of `worker` (lines 749-764).  `err`
is the value that `outbead` returns for this send. -/
def worker_release_iter (info : devinfo) (err : Int) :
    Outcome (Next × devinfo × List Event) :=
  match info.releases.getLast? with
  | none => .ok (Next.done, info, [])
  | some h =>
    if worker_running info = false then .ok (Next.done, info, [])
    else
      let msg := finish_message info.chunkshift h
      let info := { info with releases := info.releases.dropLast }
      if info.server_out_sem = 0 then .blocked
      else
        let info := { info with server_out_sem := info.server_out_sem - 1 }
        if err ≠ 0 then .ok (Next.report, info, [msg])
        else
          let info := { info with server_out_sem := info.server_out_sem + 1 }
          .ok (Next.again, info, [msg])

/-- The release drain of `worker` (lines 748-765) run for at most `fuel`
passes; `errs k` is what `outbead` returns for the `k`-th send.  The result
is `Next.again` only when the fuel ran out with the loop still going. -/
def worker_release_loop (errs : Nat → Int) :
    Nat → Nat → devinfo → List Event → Outcome (Next × devinfo × List Event)
  | 0, _, info, ev => .ok (Next.again, info, ev)
  | fuel + 1, k, info, ev =>
    match worker_release_iter info (errs k) with
    | .ok (Next.again, info', ev') => worker_release_loop errs fuel (k + 1) info' (ev ++ ev')
    | .ok (nx, info', ev') => .ok (nx, info', ev ++ ev')
    | .BUG => .BUG
    | .overrun => .overrun
    | .blocked => .blocked

/-- The release drain of `worker`: every pass takes one hook off the
release list, so one pass more than the length of the list ends the loop. -/
def worker_release_drain (info : devinfo) (errs : Nat → Int) :
    Outcome (Next × devinfo × List Event) :=
  worker_release_loop errs (info.releases.length + 1) 0 info []

/-! ## Creation and identification -/

/-- The device state that `ddsnap_create` (lines 1059-1134) sets up before
it starts the threads: `snap` is the snapshot number of the table line, the
devices and the control socket are what the lookups returned. -/
def ddsnap_create (snap : Int) (snapdev orgdev control_socket : Nat) : devinfo :=
  { id := 0
    flags := if snap ≥ 0 then IS_SNAP_FLAG else 0
    chunksize_bits := 12
    chunkshift := 12 - SECTOR_SHIFT
    snap := snap
    nextid := 0
    orgdev := orgdev
    snapdev := snapdev
    sock := none
    control_socket := some control_socket
    server_in_sem := 0
    server_out_sem := 0
    more_work_sem := 0
    recover_sem := 0
    exit1_sem := 1
    exit2_sem := 1
    exit3_sem := 1
    pending := List.replicate NUM_BUCKETS []
    queries := []
    releases := []
    locked := []
    dont_switch_lists := 0 }

/-- The `IDENTIFY_OK` case of `incoming` (lines 546-560); the results of
the two sends are only logged by the source. -/
def incoming_identify_ok (info : devinfo) (chunksize_bits : Nat) : devinfo × List Event :=
  let info := { info with flags := info.flags ||| READY_FLAG }
  let info := { info with chunksize_bits := chunksize_bits }
  let info := { info with chunkshift := (chunksize_bits + 2 ^ 32 - SECTOR_SHIFT) % 2 ^ 32 }
  let info := { info with server_out_sem := info.server_out_sem + 1 }
  (info, [Event.outbead_snapinfo Opcode.USECOUNT info.snap 0 1,
          Event.control_outbead_empty Opcode.CONNECT_SERVER_OK])

/-- The `CONNECT_SERVER` case of `control` (lines 840-869) when the
descriptor passing succeeds: `sock` is the file received, `off` and `len`
are `target->begin` and `target->len`, `err` is what the `outbead` of
`IDENTIFY` returns. -/
def control_connect_server (info : devinfo) (sock off len : Nat) (err : Int) :
    devinfo × List Event :=
  let info := { info with sock := some sock }
  let info := { info with server_in_sem := info.server_in_sem + 1 }
  let ev := [Event.outbead_identify Opcode.IDENTIFY info.id info.snap off len]
  if err < 0 then (info, ev)
  else ({ info with recover_sem := info.recover_sem + 1 }, ev)

/-- Source function `report_error` (lines 199-206): `test_and_set_bit` sets REPORT and
yields its old value. -/
def report_error (info : devinfo) : Outcome devinfo :=
  if info.flags &&& (1 <<< REPORT_BIT) ≠ 0 then .ok info
  else
    let info := { info with flags := info.flags ||| (1 <<< REPORT_BIT) }
    let info := { info with more_work_sem := info.more_work_sem + 1 }
    if info.recover_sem = 0 then .blocked
    else
      let info := { info with recover_sem := info.recover_sem - 1 }
      .ok { info with flags := info.flags ||| RECOVER_FLAG }

/-- The end of the worker's recovery (lines 792-793): RECOVER and REPORT
are cleared (`flags &= ~m` is `flags - (flags & m)`) and the recover
semaphore is released. -/
def worker_resume (info : devinfo) : devinfo :=
  let info :=
    { info with
      flags := info.flags - (info.flags &&& (RECOVER_FLAG ||| (1 <<< REPORT_BIT))) }
  { info with recover_sem := info.recover_sem + 1 }

/-! ## The ingress thread -/

/-- Modelled from the spec: the message codes that the server sends; they
are declared in the header `dm-ddsnap.h`, which is not among the sources,
and only their names are used.  `unknown` stands for every other code. -/
inductive ServerCode where
  | REPLY_ORIGIN_WRITE
  | REPLY_SNAPSHOT_WRITE
  | REPLY_SNAPSHOT_READ_ORIGIN
  | REPLY_SNAPSHOT_READ
  | IDENTIFY_OK
  | IDENTIFY_ERROR
  | REPLY_ERROR
  | unknown (code : Nat)
  deriving DecidableEq

/-- Modelled from the spec: a message as it lies in `struct messagebuf` of
the absent header `dm-ddsnap.h` after the two reads of `incoming`: the
head `{code, length}` and the body under each of the casts that `incoming`
applies to it, `struct rw_request`, `struct identify_ok {chunksize_bits}`
and `struct identify_error {err: i32, msg: char[]}`; `msg` holds the
message bytes that follow `err` in the buffer.  `length` is the unsigned
32-bit length field of the head; `incoming` copies it to the local
`int length` (line 518), where a value from `2^31` on is negative. -/
structure messagebuf where
  code : ServerCode
  length : Nat
  rw : rw_request
  chunksize_bits : Nat
  err : Int
  msg : List Nat
  deriving DecidableEq

/-- Modelled from the spec: `sizeof(struct rw_request)`, the two 32-bit
fields `id` and `count` in front of the ranges. -/
def sizeof_rw_request : Nat := 8

/-- How one pass through the loop of `incoming` ends: the loop goes on to
read the next message, the thread leaves through `out`, or the thread goes
back to `connect` after a socket error. -/
inductive Ingress where
  | continue_reading
  | thread_exits
  | reconnects
  deriving DecidableEq

/-- The label `out` of `incoming` (lines 595-598): the thread releases its
exit semaphore and returns. -/
def incoming_out (info : devinfo) : devinfo :=
  { info with exit2_sem := info.exit2_sem + 1 }

/-- The label `socket_error` of `incoming` (lines 605-612). -/
def incoming_socket_error (info : devinfo) : Outcome (Ingress × devinfo × List Event) :=
  if running info = false then .ok (Ingress.thread_exits, incoming_out info, [])
  else
    match report_error info with
    | .ok info' => .ok (Ingress.reconnects, info', [])
    | .BUG => .BUG
    | .overrun => .overrun
    | .blocked => .blocked

/-- The `IDENTIFY_ERROR` case of `incoming` (lines 562-579): the three
writes to the control socket, whose results are only logged.  A length
below the four bytes of `err` makes the source index and send outside the
message, which is `overrun` here. -/
def incoming_identify_error (m : messagebuf) : Outcome (List Event) :=
  if m.length < 4 then .overrun
  else
    let length := m.length - 4
    let err_msg := if length = 0 then [] else (m.msg.take length).set (length - 1) 0
    .ok [Event.control_writepipe_head Opcode.CONNECT_SERVER_ERROR (length + 4),
         Event.control_writepipe_err m.err,
         Event.control_writepipe_bytes err_msg]

/-- The end of the loop body of `incoming` for the reply codes (lines
590-593): the length test and the call of `replied_rw`, whose return value
is not looked at. -/
def incoming_reply (info : devinfo) (m : messagebuf) (rw : Rw) (to_snap failed_io : Bool)
    (alloc : Nat → Nat) : Outcome (Ingress × devinfo × List Event) :=
  if m.length < sizeof_rw_request then .ok (Ingress.thread_exits, incoming_out info, [])
  else
    match replied_rw info m.rw rw to_snap failed_io alloc with
    | .ok (_, info', ev) => .ok (Ingress.continue_reading, info', ev)
    | .BUG => .BUG
    | .overrun => .overrun
    | .blocked => .blocked

/-- One evaluation of the loop condition and one pass through the loop
body of `incoming` (lines 512-594) on a connected socket.  `maxbody` is an
`int` constant of the absent header, so below `2^31`; `herr` and `berr` are
what the two calls of `readpipe` return, `m` is the message they read.
The test `length > maxbody` of line 519 is a comparison of `int`s: a head
length above `maxbody` passes it when it is `2^31` or more, being negative
as an `int`, and `readpipe` is then called with that length as its
unsigned count for the buffer `message.body`, which is `overrun`. -/
def incoming_message (maxbody : Nat) (info : devinfo) (herr : Int) (m : messagebuf)
    (berr : Int) (alloc : Nat → Nat) : Outcome (Ingress × devinfo × List Event) :=
  if running info = false then .ok (Ingress.thread_exits, incoming_out info, [])
  else if herr ≠ 0 then incoming_socket_error info
  else if m.length > maxbody then
    if m.length < 2 ^ 31 then .ok (Ingress.thread_exits, incoming_out info, [])
    else .overrun
  else if berr ≠ 0 then incoming_socket_error info
  else
    match m.code with
    | ServerCode.REPLY_ORIGIN_WRITE => incoming_reply info m Rw.WRITE false false alloc
    | ServerCode.REPLY_SNAPSHOT_WRITE => incoming_reply info m Rw.WRITE true false alloc
    | ServerCode.REPLY_SNAPSHOT_READ_ORIGIN => incoming_reply info m Rw.READ false false alloc
    | ServerCode.REPLY_SNAPSHOT_READ => incoming_reply info m Rw.READ true false alloc
    | ServerCode.IDENTIFY_OK =>
      let r := incoming_identify_ok info m.chunksize_bits
      .ok (Ingress.continue_reading, r.1, r.2)
    | ServerCode.IDENTIFY_ERROR =>
      match incoming_identify_error m with
      | .ok ev => .ok (Ingress.continue_reading, info, ev)
      | .BUG => .BUG
      | .overrun => .overrun
      | .blocked => .blocked
    | ServerCode.REPLY_ERROR => incoming_reply info m Rw.READ true true alloc
    | ServerCode.unknown _ => .ok (Ingress.continue_reading, info, [])

/-! ## Traces -/

/-- One step of the device in a sequential interleaving: a
`CONNECT_SERVER` handled by `control`, an `IDENTIFY_OK` handled by
`incoming`, a call of `report_error`, a call of `ddsnap_map`, one pass of the worker's
query drain whose send returns `err`, a reply handed to `replied_rw`, a
call of `requeue_queries`, or a step of some other part of the client
that leaves the query queue, the buckets and `nextid` alone and ends in
`info'`. -/
inductive Act where
  | connect_server (sock off len : Nat) (err : Int)
  | identify_ok (chunksize_bits : Nat)
  | report_error
  | map (b : bio)
  | send (err : Int)
  | reply (body : rw_request) (rw : Rw) (snap failed_io : Bool) (alloc : Nat → Nat)
  | requeue
  | other (info' : devinfo)

/-- The state after one step, and the number of calls of `ddsnap_map`
that have queued a record (returned 0) so far.  `none` when the step does
not return. -/
def step (ID_BITS : Nat) (info : devinfo) (n : Nat) : Act → Option (devinfo × Nat)
  | .connect_server sock off len err =>
    some ((control_connect_server info sock off len err).1, n)
  | .identify_ok k => some ((incoming_identify_ok info k).1, n)
  | .report_error =>
    match report_error info with
    | .ok info' => some (info', n)
    | _ => none
  | .map b =>
    match ddsnap_map ID_BITS info b with
    | .ok (ret, info', _) => some (info', if ret = 0 then n + 1 else n)
    | _ => none
  | .send err =>
    match worker_query_iter info err with
    | .ok (_, info', _) => some (info', n)
    | _ => none
  | .reply body rw snap failed_io alloc =>
    match replied_rw info body rw snap failed_io alloc with
    | .ok (_, info', _) => some (info', n)
    | _ => none
  | .requeue => some (requeue_queries info, n)
  | .other info' =>
    if info'.queries = info.queries ∧ info'.pending = info.pending ∧
        info'.nextid = info.nextid then some (info', n)
    else none

/-- The state after a sequence of steps. -/
def run (ID_BITS : Nat) : List Act → devinfo → Nat → Option (devinfo × Nat)
  | [], info, n => some (info, n)
  | a :: acts, info, n =>
    match step ID_BITS info n a with
    | some (info', n') => run ID_BITS acts info' n'
    | none => none

/-- A state that some trace reaches from a freshly created device, with
`n` the number of `ddsnap_map` calls that queued a record on the way. -/
def Reachable (ID_BITS n : Nat) (info : devinfo) : Prop :=
  ∃ (snap : Int) (snapdev orgdev control_socket : Nat) (acts : List Act),
    run ID_BITS acts (ddsnap_create snap snapdev orgdev control_socket) 0 = some (info, n)

/-- The state at the end of a trace, or the start state when a step of it
does not return. -/
def run_state (ID_BITS : Nat) (acts : List Act) (info : devinfo) : devinfo :=
  match run ID_BITS acts info 0 with
  | some (info', _) => info'
  | none => info

/-- Every bucket holds only records that hash to it, and there are
`NUM_BUCKETS` buckets. -/
def bucket_inv (info : devinfo) : Prop :=
  info.pending.length = NUM_BUCKETS ∧
  ∀ b p, p ∈ info.pending.getD b [] → hash_pending p.id = b

/-- The buckets `l'` come from the buckets `l` by zero or more successful
bucket searches for `id`, each followed by `list_del` of the record found. -/
inductive Removed (id : Nat) : List (List pending) → List (List pending) → Prop where
  | refl (l : List (List pending)) : Removed id l l
  | step (l : List (List pending)) (p : pending) (rest : List pending)
      (l' : List (List pending))
      (hfind : find_pending id (l.getD (hash_pending id) []) = some (p, rest))
      (hrest : Removed id (l.set (hash_pending id) rest) l') : Removed id l l'

/-- The ids of all records of the device: the query queue, then the
buckets in order. -/
def all_ids (info : devinfo) : List Nat :=
  (info.queries ++ info.pending.flatten).map pending.id

/-- The number of records of a list that carry the id `i`. -/
def idc (i : Nat) (l : List pending) : Nat :=
  l.countP (fun p => p.id == i)

/-- Whether a step hands out an id that is still in use: a call of
`ddsnap_map` that queues a record while the id it assigns, `nextid`, is
carried by a record on the query queue or in a bucket. -/
def reissues (ID_BITS : Nat) (info : devinfo) : Act → Bool
  | .map b =>
    match ddsnap_map ID_BITS info b with
    | .ok (ret, _, _) => decide (ret = 0) && decide (info.nextid ∈ all_ids info)
    | _ => false
  | _ => false

/-- No step of the trace hands out an id that is still in use. -/
def run_fresh (ID_BITS : Nat) : List Act → devinfo → Nat → Bool
  | [], _, _ => true
  | a :: acts, info, n =>
    !reissues ID_BITS info a &&
      match step ID_BITS info n a with
      | some (info', n') => run_fresh ID_BITS acts info' n'
      | none => true

/-- Every id is carried by at most one record of the query queue and the
buckets together, and the buckets are well formed. -/
def unique_inv (info : devinfo) : Prop :=
  bucket_inv info ∧ ∀ i, idc i info.queries + idc i info.pending.flatten ≤ 1

/-- The invariant of the id counter while it has not wrapped: after `n`
queueing calls of `ddsnap_map` the counter is `n mod 2^ID_BITS` and every
id below `n` is carried by at most one record, every other id by none. -/
def wrap_inv (ID_BITS n : Nat) (info : devinfo) : Prop :=
  bucket_inv info ∧ info.nextid = n % 2 ^ ID_BITS ∧
  ∀ i, idc i info.queries + idc i info.pending.flatten ≤ if i < n then 1 else 0

/-- The number of `j < m` with `j mod 2^ID_BITS = 0`: how many of the
first `m` queueing calls of `ddsnap_map` on a fresh device hand out id 0. -/
def wraps (ID_BITS : Nat) : Nat → Nat
  | 0 => 0
  | m + 1 => wraps ID_BITS m + if m % 2 ^ ID_BITS = 0 then 1 else 0

/-- A step after recovery: a call of `ddsnap_map`, one pass of the
worker's query drain whose send succeeds, or a step of some other part of
the client that leaves the query queue alone and ends in `info'`. -/
inductive QAct where
  | map (b : bio)
  | send
  | other (info' : devinfo)

/-- The state after one step after recovery, with the records that
`ddsnap_map` has queued since (oldest first) and the messages the drain
has sent since (oldest first). -/
def qstep (ID_BITS : Nat) (info : devinfo) (news : List pending) (sent : List Event) :
    QAct → Option (devinfo × List pending × List Event)
  | .map b =>
    match ddsnap_map ID_BITS info b with
    | .ok (ret, info', _) =>
      some (info', if ret = 0 then news ++ info'.queries.take 1 else news, sent)
    | _ => none
  | .send =>
    match worker_query_iter info 0 with
    | .ok (Next.report, _, _) => none
    | .ok (_, info', ev) => some (info', news, sent ++ ev)
    | _ => none
  | .other info' =>
    if info'.queries = info.queries then some (info', news, sent) else none

/-- The state, the new records and the sent messages after a sequence of
steps after recovery. -/
def qrun (ID_BITS : Nat) :
    List QAct → devinfo → List pending → List Event →
      Option (devinfo × List pending × List Event)
  | [], info, news, sent => some (info, news, sent)
  | a :: acts, info, news, sent =>
    match qstep ID_BITS info news sent a with
    | some (info', news', sent') => qrun ID_BITS acts info' news' sent'
    | none => none

/-- Whether an effect is one of the two with which `replied_rw` lets go
of a record it has taken off its bucket: the bio is failed (lines 370-371,
377-378) or submitted (lines 409-415); the record is freed right there. -/
def is_completion : Event → Bool
  | .bio_io_error _ => true
  | .generic_make_request _ => true
  | _ => false

/-- The number of records that `replied_rw` has freed, read off its
effects. -/
def completions (ev : List Event) : Nat :=
  ev.countP is_completion

/-- One step of the device with a ledger of its pending records:
`created` holds the records that `ddsnap_map` has allocated and queued,
the newest first, and `freed` counts the records that `replied_rw` has
freed.  The state moves as in `step`. -/
def lstep (ID_BITS : Nat) (info : devinfo) (created : List pending) (freed : Nat) :
    Act → Option (devinfo × List pending × Nat)
  | .connect_server sock off len err =>
    some ((control_connect_server info sock off len err).1, created, freed)
  | .identify_ok k => some ((incoming_identify_ok info k).1, created, freed)
  | .report_error =>
    match report_error info with
    | .ok info' => some (info', created, freed)
    | _ => none
  | .map b =>
    match ddsnap_map ID_BITS info b with
    | .ok (ret, info', _) =>
      some (info', if ret = 0 then info'.queries.take 1 ++ created else created, freed)
    | _ => none
  | .send err =>
    match worker_query_iter info err with
    | .ok (_, info', _) => some (info', created, freed)
    | _ => none
  | .reply body rw snap failed_io alloc =>
    match replied_rw info body rw snap failed_io alloc with
    | .ok (_, info', ev) => some (info', created, freed + completions ev)
    | _ => none
  | .requeue => some (requeue_queries info, created, freed)
  | .other info' =>
    if info'.queries = info.queries ∧ info'.pending = info.pending ∧
        info'.nextid = info.nextid then some (info', created, freed)
    else none

/-- The state and the ledger after a sequence of steps. -/
def lrun (ID_BITS : Nat) :
    List Act → devinfo → List pending → Nat → Option (devinfo × List pending × Nat)
  | [], info, created, freed => some (info, created, freed)
  | a :: acts, info, created, freed =>
    match lstep ID_BITS info created freed a with
    | some (info', created', freed') => lrun ID_BITS acts info' created' freed'
    | none => none

/-- The ledger balances: the records of the query queue and the buckets,
together with as many records as were freed, are the created records, each
as often as it was created; and every created record has `chunks = 1`. -/
def ledger_inv (info : devinfo) (created : List pending) (freed : Nat) : Prop :=
  bucket_inv info ∧ (∀ p ∈ created, p.chunks = 1) ∧
  ∃ gone : List pending, gone.length = freed ∧
    (info.queries ++ info.pending.flatten ++ gone).Perm created

/-- What the hook code relies on when a reply is handed to `replied_rw`:
the addresses that the allocator returns during the call are different
from one another and from the addresses of the hooks that are on the
lists, and the I/Os waiting in the bucket of the reply have a completion
callback. -/
def reply_env (info : devinfo) (body : rw_request) (alloc : Nat → Nat) : Prop :=
  (∀ i, i < body.count → alloc i ∉ (info.locked ++ info.releases).map hook.addr) ∧
  (∀ i, i < body.count → ∀ j, j < body.count → alloc i = alloc j → i = j) ∧
  (∀ p ∈ info.pending.getD (hash_pending body.id) [], p.bio.bi_end_io ≠ bio_end_io_t.NULL)

instance instDecidableReplyEnv (info : devinfo) (body : rw_request) (alloc : Nat → Nat) :
    Decidable (reply_env info body alloc) := by
  unfold reply_env
  infer_instance

/-- One step of the hook lists in a sequential interleaving: a reply
handed to `replied_rw`, a completion in `snapshot_read_end_io`, one pass of
the worker's release drain, one of the three stages of `upload_locks`
(its first critical section, one visit of its walk, its end), or a step
of some other part of the client that leaves the two hook lists and
`dont_switch_lists` alone and ends in `info'`. -/
inductive HAct where
  | reply (body : rw_request) (rw : Rw) (snap failed_io : Bool) (alloc : Nat → Nat)
  | end_io (b : bio) (done : Nat) (error ret : Int)
  | release (err : Int)
  | upload_begin
  | upload_visit
  | upload_end
  | other (info' : devinfo)

/-- The state after one step of the hook lists.  `walk` is `none` while
the worker is not inside `upload_locks` and `some todo` while it is, with
`todo` hooks of the walk left; the release drain and `upload_locks` run in
the same thread, so the drain steps only when `walk` is `none`.  `none`
when the step does not return, does not fit `walk`, or `reply_env` fails. -/
def hstep (info : devinfo) (walk : Option Nat) : HAct → Option (devinfo × Option Nat)
  | .reply body rw snap failed_io alloc =>
    if reply_env info body alloc then
      match replied_rw info body rw snap failed_io alloc with
      | .ok (_, info', _) => some (info', walk)
      | _ => none
    else none
  | .end_io b done error ret =>
    match snapshot_read_end_io info b done error ret with
    | some (_, info', _, _) => some (info', walk)
    | none => none
  | .release err =>
    match walk with
    | some _ => none
    | none =>
      match worker_release_iter info err with
      | .ok (_, info', _) => some (info', none)
      | _ => none
  | .upload_begin =>
    match walk with
    | some _ => none
    | none => some (upload_begin info, some (upload_begin info).locked.length)
  | .upload_visit =>
    match walk with
    | some (todo + 1) => some ((upload_visit info todo).1, some todo)
    | _ => none
  | .upload_end =>
    match walk with
    | some 0 => some ((upload_end info).1, none)
    | _ => none
  | .other info' =>
    if info'.locked = info.locked ∧ info'.releases = info.releases ∧
        info'.dont_switch_lists = info.dont_switch_lists then some (info', walk)
    else none

/-- The state after a sequence of steps of the hook lists. -/
def hrun : List HAct → devinfo → Option Nat → Option (devinfo × Option Nat)
  | [], info, walk => some (info, walk)
  | a :: acts, info, walk =>
    match hstep info walk a with
    | some (info', walk') => hrun acts info' walk'
    | none => none

/-- The invariant of the hook lists: no address occurs twice on the two
lists together; every hook on the release list has a null `old_end_io`;
outside an upload cycle no hook on the locked list has; the flag
`dont_switch_lists` is 0 outside `upload_locks` and 1 inside; and the
cursor of the walk is on the list. -/
def hook_inv (info : devinfo) (walk : Option Nat) : Prop :=
  ((info.locked ++ info.releases).map hook.addr).Nodup ∧
  (∀ h ∈ info.releases, h.old_end_io = bio_end_io_t.NULL) ∧
  (info.dont_switch_lists = 0 → ∀ h ∈ info.locked, h.old_end_io ≠ bio_end_io_t.NULL) ∧
  (walk = none → info.dont_switch_lists = 0) ∧
  (∀ todo, walk = some todo → info.dont_switch_lists = 1 ∧ todo ≤ info.locked.length)

/-- A step seen from the id counter: a call of `ddsnap_map`, or a step of
some other part of the client, which leaves `nextid` alone and ends in
`info'` (no other function of the source writes `nextid`). -/
inductive IAct where
  | map (b : bio)
  | other (info' : devinfo)

/-- The state after one step, with the ids that the query-generating calls
of `ddsnap_map` (those that return 0) have assigned so far, the oldest
first.  The id assigned is read off the record that the call has put at
the head of the query queue. -/
def istep (ID_BITS : Nat) (info : devinfo) (ids : List Nat) :
    IAct → Option (devinfo × List Nat)
  | .map b =>
    match ddsnap_map ID_BITS info b with
    | .ok (ret, info', _) =>
      some (info', if ret = 0 then ids ++ (info'.queries.take 1).map pending.id else ids)
    | _ => none
  | .other info' =>
    if info'.nextid = info.nextid then some (info', ids) else none

/-- The state and the assigned ids after a sequence of steps. -/
def irun (ID_BITS : Nat) : List IAct → devinfo → List Nat → Option (devinfo × List Nat)
  | [], info, ids => some (info, ids)
  | a :: acts, info, ids =>
    match istep ID_BITS info ids a with
    | some (info', ids') => irun ID_BITS acts info' ids'
    | none => none

/-! ## Example inputs -/

/-- The start of every example trace: the agent hands over the server
socket 7 for a target of 1024 sectors, the server answers `IDENTIFY_OK`
with 4 KiB chunks. -/
def connect_trace : List Act :=
  [Act.connect_server 7 0 1024 0, Act.identify_ok 12]

/-- A snapshot-role device (snapshot 0) that is connected and identified:
origin device 1, snapshot store 2, control socket 3, server socket 7. -/
def snap_ready : devinfo :=
  run_state 16 connect_trace (ddsnap_create 0 2 1 3)

/-- An origin-role device (snapshot number -1) that is connected and
identified. -/
def org_ready : devinfo :=
  run_state 16 connect_trace (ddsnap_create (-1) 2 1 3)

/-- A 4 KiB write at sector 24 directed at the virtual device 9. -/
def write_at_24 : bio :=
  { bi_bdev := 9, bi_sector := 24, bi_size := 4096, dir := Rw.WRITE,
    bi_end_io := bio_end_io_t.fn 1, bi_private := 0 }

/-- A 4 KiB read at sector 8 directed at the virtual device 9. -/
def read_at_8 : bio :=
  { bi_bdev := 9, bi_sector := 8, bi_size := 4096, dir := Rw.READ,
    bi_end_io := bio_end_io_t.fn 1, bi_private := 0 }

/-- The state component of an outcome that carries one, else `dflt`. -/
def state_of {α β : Type} (o : Outcome (α × devinfo × β)) (dflt : devinfo) : devinfo :=
  match o with
  | .ok (_, info, _) => info
  | _ => dflt

/-- The ready snapshot device with the write at sector 24 in flight: it was
mapped (id 0, chunk 3) and its query was sent by the worker. -/
def snap_inflight : devinfo :=
  let mapped := state_of (ddsnap_map 16 snap_ready write_at_24) snap_ready
  state_of (worker_query_iter mapped 0) mapped

/-- The reply `REPLY_SNAPSHOT_WRITE {id = 0, ranges = [{chunk = 3, 1}],
physicals = [0x1000]}`. -/
def reply_0x1000 : rw_request :=
  { id := 0, count := 1,
    ranges := [{ range := { chunk := 3, chunks := 1 }, physical := [0x1000] }] }

/-- A 4 KiB write at the given sector directed at the virtual device 9. -/
def write_at (sector : Nat) : bio :=
  { bi_bdev := 9, bi_sector := sector, bi_size := 4096, dir := Rw.WRITE,
    bi_end_io := bio_end_io_t.fn 1, bi_private := 0 }

/-- A 4 KiB read at the given sector directed at the virtual device 9. -/
def read_at (sector : Nat) : bio :=
  { bi_bdev := 9, bi_sector := sector, bi_size := 4096, dir := Rw.READ,
    bi_end_io := bio_end_io_t.fn 1, bi_private := 0 }

/-- With `ID_BITS = 2`: connection and identification, then five writes (chunks 0 to 4)
mapped one after another, then five passes of the worker's query drain, no
reply having arrived. -/
def wrap_trace : List Act :=
  [Act.connect_server 7 0 1024 0, Act.identify_ok 12,
   Act.map (write_at 0), Act.map (write_at 8), Act.map (write_at 16),
   Act.map (write_at 24), Act.map (write_at 32),
   Act.send 0, Act.send 0, Act.send 0, Act.send 0, Act.send 0]

/-- A single-range reply to the query `id`, for an origin destination. -/
def reply_origin (id chunk : Nat) : rw_request :=
  { id := id, count := 1,
    ranges := [{ range := { chunk := chunk, chunks := 1 }, physical := [] }] }

/-- The ready snapshot device with two locked reads: reads of chunks 5 and
6 were mapped, queried and answered by `REPLY_SNAPSHOT_READ_ORIGIN`; the
hooks were allocated at addresses 100 and 200. -/
def two_locked : devinfo :=
  run_state 16
    [Act.map (read_at 40), Act.map (read_at 48), Act.send 0, Act.send 0,
     Act.reply (reply_origin 0 5) Rw.READ false false (fun _ => 100),
     Act.reply (reply_origin 1 6) Rw.READ false false (fun _ => 200)]
    snap_ready

/-- The ready snapshot device with seven queries outstanding: seven writes
(chunks 0 to 6) were mapped and their queries sent. -/
def seven_outstanding : devinfo :=
  run_state 16
    ((List.range 7).map (fun j => Act.map (write_at (8 * j))) ++
      List.replicate 7 (Act.send 0))
    snap_ready


/-- The trace that leads from creation to `seven_outstanding`. -/
def seven_trace : List Act :=
  connect_trace ++
    ((List.range 7).map (fun j => Act.map (write_at (8 * j))) ++
      List.replicate 7 (Act.send 0))

/-- After recovery with seven queries outstanding: a new write (chunk 7)
is mapped, then the worker's query drain makes seven passes. -/
def recovery_trace : List QAct :=
  QAct.map (write_at 56) :: List.replicate 7 QAct.send

/-- The state, the new records and the sent messages at the end of
`recovery_trace`. -/
def recovery_result : devinfo × List pending × List Event :=
  (qrun 16 recovery_trace (requeue_queries seven_outstanding) [] []).getD
    (seven_outstanding, [], [])

/-- Recovery start with seven queries outstanding: `incoming` has seen a
socket error and called `report_error`, so REPORT and RECOVER are set; the
seven records (ids 0 to 6) are in the buckets and the query queue is
empty. -/
def recovery_start : devinfo :=
  run_state 16 [Act.report_error] seven_outstanding

/-- After recovery start and before the worker has reached
`requeue_queries`, a write of chunk 7 is mapped: READY is still set, so it
is queued with id 7. -/
def late_mapped : devinfo :=
  state_of (ddsnap_map 16 recovery_start (write_at 56)) recovery_start

/-- The worker has then run `requeue_queries` and ended its recovery. -/
def late_recovered : devinfo :=
  worker_resume (requeue_queries late_mapped)

/-- With `ID_BITS = 2`: connection and identification; eight writes are
mapped, each queried and answered by `REPLY_ORIGIN_WRITE` before the next
is mapped (ids 0, 1, 2, 3, 0, 1, 2, 3); then two more writes are mapped
and left on the query queue (ids 0 and 1). -/
def answered_trace : List Act :=
  connect_trace ++
    ((List.range 8).map (fun j =>
      [Act.map (write_at (8 * j)), Act.send 0,
       Act.reply (reply_origin (j % 4) j) Rw.WRITE false false (fun _ => 0)])).flatten ++
    [Act.map (write_at 64), Act.map (write_at 72)]

/-- The state at the end of `answered_trace`. -/
def answered_state : devinfo :=
  run_state 2 answered_trace (ddsnap_create 0 2 1 3)

/-- The state at the end of `wrap_trace`. -/
def wrap_state : devinfo :=
  run_state 2 wrap_trace (ddsnap_create 0 2 1 3)

/-- The ready snapshot device with a read of chunk 5 in flight: it was
mapped (id 0) and its query was sent. -/
def read_inflight : devinfo :=
  run_state 16 [Act.map (read_at 40), Act.send 0] snap_ready

/-- The device after the read of chunk 5 was answered from the origin:
the hook is allocated at address 100 and the read is at the block layer. -/
def read_hooked : devinfo :=
  state_of (replied_rw read_inflight (reply_origin 0 5) Rw.READ false false (fun _ => 100))
    read_inflight

/-- The read of chunk 5 as the block layer holds it while hooked. -/
def hooked_read : bio :=
  { bi_bdev := 1, bi_sector := 40, bi_size := 4096, dir := Rw.READ,
    bi_end_io := bio_end_io_t.snapshot_read_end_io, bi_private := 100 }

/-- The device after the hooked read of chunk 5 has completed. -/
def read_completed : devinfo :=
  match snapshot_read_end_io read_hooked hooked_read 4096 0 0 with
  | some (_, info, _, _) => info
  | none => read_hooked

/-- From creation: connection and identification; a write of chunk 0, a
read of chunk 5 and a write of chunk 2 are mapped; two queries are sent;
the write of chunk 0 is answered by `REPLY_ORIGIN_WRITE`; then
`requeue_queries` runs. -/
def ledger_trace : List Act :=
  connect_trace ++
    [Act.map (write_at 0), Act.map (read_at 40), Act.map (write_at 16),
     Act.send 0, Act.send 0,
     Act.reply (reply_origin 0 0) Rw.WRITE false false (fun _ => 0),
     Act.requeue]

/-- The state and the ledger at the end of `ledger_trace`. -/
def ledger_result : devinfo × List pending × Nat :=
  (lrun 16 ledger_trace (ddsnap_create 0 2 1 3) [] 0).getD (ddsnap_create 0 2 1 3, [], 0)

/-- The ready snapshot device with reads of chunks 5 and 6 in flight: they
were mapped (ids 0 and 1) and their queries sent. -/
def two_inflight : devinfo :=
  run_state 16 [Act.map (read_at 40), Act.map (read_at 48), Act.send 0, Act.send 0]
    snap_ready

/-- The read of chunk 6 as the block layer holds it while hooked. -/
def hooked_read_48 : bio :=
  { bi_bdev := 1, bi_sector := 48, bi_size := 4096, dir := Rw.READ,
    bi_end_io := bio_end_io_t.snapshot_read_end_io, bi_private := 200 }

/-- From creation to two reads in flight; both are answered from the
origin (hooks at addresses 100 and 200); `upload_locks` begins and visits
the hook at 200; the read of chunk 6 completes. -/
def upload_trace : List HAct :=
  [HAct.other two_inflight,
   HAct.reply (reply_origin 0 5) Rw.READ false false (fun _ => 100),
   HAct.reply (reply_origin 1 6) Rw.READ false false (fun _ => 200),
   HAct.upload_begin, HAct.upload_visit,
   HAct.end_io hooked_read_48 4096 0 0]

/-- The state in the middle of the upload cycle, at the end of
`upload_trace`. -/
def upload_middle : devinfo × Option Nat :=
  (hrun upload_trace (ddsnap_create 0 2 1 3) none).getD (ddsnap_create 0 2 1 3, none)

/-- The state after the upload cycle of `upload_trace` has been finished:
the second visit and the end of `upload_locks`. -/
def upload_done : devinfo × Option Nat :=
  (hrun (upload_trace ++ [HAct.upload_visit, HAct.upload_end]) (ddsnap_create 0 2 1 3)
    none).getD (ddsnap_create 0 2 1 3, none)

/-- The ready snapshot device with the id counter at 3. -/
def counter_start : devinfo :=
  { snap_ready with nextid := 3 }

/-- With `ID_BITS = 2`: five writes are mapped; after the second the
worker and the server have dealt with the two records (a step that leaves
the counter, then at 1, alone). -/
def counter_trace : List IAct :=
  [IAct.map (write_at 0), IAct.map (write_at 8),
   IAct.other { snap_ready with nextid := 1 },
   IAct.map (write_at 16), IAct.map (write_at 24), IAct.map (write_at 32)]

/-- The state and the assigned ids at the end of `counter_trace`. -/
def counter_result : devinfo × List Nat :=
  (irun 2 counter_trace counter_start []).getD (counter_start, [])

/-- A message head that announces 5000 body bytes, with code `code`. -/
def oversize_message (code : ServerCode) : messagebuf :=
  { code := code, length := 5000, rw := { id := 0, count := 0, ranges := [] },
    chunksize_bits := 0, err := 0, msg := [] }

/-- A `REPLY_ORIGIN_WRITE` whose body has only four bytes. -/
def short_reply : messagebuf :=
  { code := ServerCode.REPLY_ORIGIN_WRITE, length := 4,
    rw := { id := 0, count := 0, ranges := [] }, chunksize_bits := 0, err := 0, msg := [] }

/-- A message with the unknown code 999 and an empty body. -/
def unknown_message : messagebuf :=
  { code := ServerCode.unknown 999, length := 0,
    rw := { id := 0, count := 0, ranges := [] }, chunksize_bits := 0, err := 0, msg := [] }

/-- An `IDENTIFY_ERROR` of length 6: `err = 5` and the two message bytes
`'A'`, `'B'`. -/
def identify_error_AB : messagebuf :=
  { code := ServerCode.IDENTIFY_ERROR, length := 6,
    rw := { id := 0, count := 0, ranges := [] }, chunksize_bits := 0, err := 5,
    msg := [65, 66] }

/-! ## Arithmetic of the source's bit operations -/

theorem id_mask_eq (n : Nat) (h : n ≤ 32) : id_mask n = 2 ^ n - 1 := by
  unfold id_mask
  interval_cases n <;> rfl

theorem next_id_eq (n id : Nat) (h : n ≤ 32) :
    ((id + 1) % 2 ^ 32) &&& id_mask n = (id + 1) % 2 ^ n := by
  rw [id_mask_eq n h, Nat.and_pow_two_sub_one_eq_mod]
  exact Nat.mod_mod_of_dvd _ (Nat.pow_dvd_pow 2 h)

theorem hash_pending_eq (id : Nat) : hash_pending id = id % 64 := by
  unfold hash_pending MASK_BUCKETS NUM_BUCKETS
  exact Nat.and_pow_two_sub_one_eq_mod id 6

theorem hash_pending_lt (id : Nat) : hash_pending id < 64 := by
  rw [hash_pending_eq]; exact Nat.mod_lt _ (by decide)

theorem or_mod_two_pow_of_lt (x b n : Nat) (hb : b < 2 ^ n) :
    (x ||| b) % 2 ^ n = (x % 2 ^ n) ||| b := by
  apply Nat.eq_of_testBit_eq
  intro i
  simp only [Nat.testBit_mod_two_pow, Nat.testBit_or]
  by_cases hi : i < n
  · simp [hi]
  · have hbi : b.testBit i = false := by
      apply Nat.testBit_lt_two_pow
      exact lt_of_lt_of_le hb (Nat.pow_le_pow_right (by decide) (not_lt.mp hi))
    simp [hi, hbi]

/-- Adding the offset inside the chunk to the shifted chunk number, in
64-bit arithmetic, is the same as or-ing it in. -/
theorem remap_sector_eq (c s sh : Nat) (hsh : sh ≤ 64) :
    ((c <<< sh) % 2 ^ 64 + (s &&& ((1 <<< sh) - 1))) % 2 ^ 64 =
      ((c <<< sh) ||| (s &&& ((1 <<< sh) - 1))) % 2 ^ 64 := by
  rw [Nat.one_shiftLeft, Nat.and_pow_two_sub_one_eq_mod]
  have hb : s % 2 ^ sh < 2 ^ sh := Nat.mod_lt _ (Nat.two_pow_pos sh)
  have hb64 : s % 2 ^ sh < 2 ^ 64 := lt_of_lt_of_le hb (Nat.pow_le_pow_right (by decide) hsh)
  have h64 : 2 ^ 64 = 2 ^ sh * 2 ^ (64 - sh) := by
    rw [← pow_add]; congr 1; omega
  have ha : (c <<< sh) % 2 ^ 64 = 2 ^ sh * (c % 2 ^ (64 - sh)) := by
    rw [Nat.shiftLeft_eq, Nat.mul_comm c, h64, Nat.mul_mod_mul_left]
  rw [or_mod_two_pow_of_lt _ _ _ hb64, ha, Nat.mul_add_lt_is_or hb]
  apply Nat.mod_eq_of_lt
  apply Nat.or_lt_two_pow _ hb64
  rw [← ha]
  exact Nat.mod_lt _ (Nat.two_pow_pos 64)

/-- The `unsigned` values `shift` and `mask` of `replied_rw` for a chunk
size of at least one sector and below 2^41 bytes. -/
theorem shift_mask_eq (k : Nat) (h9 : 9 ≤ k) (h41 : k < 41) :
    (k + 2 ^ 32 - SECTOR_SHIFT) % 2 ^ 32 = k - 9 ∧
    ((1 <<< (k - 9)) - 1) % 2 ^ 32 = (1 <<< (k - 9)) - 1 := by
  unfold SECTOR_SHIFT
  interval_cases k <;> exact ⟨rfl, rfl⟩

/-! ## The bucket search -/

theorem find_pending_append (id : Nat) (p : pending) (pre post : List pending)
    (hpre : ∀ q ∈ pre, q.id ≠ id) (hp : p.id = id) :
    find_pending id (pre ++ p :: post) = some (p, pre ++ post) := by
  induction pre with
  | nil => simp [find_pending, hp]
  | cons q pre ih =>
    have hq : q.id ≠ id := hpre q (List.mem_cons_self _ _)
    have ih' := ih (fun r hr => hpre r (List.mem_cons_of_mem _ hr))
    simp [find_pending, hq, ih']

theorem find_pending_some (id : Nat) (l : List pending) (p : pending) (rest : List pending)
    (h : find_pending id l = some (p, rest)) :
    ∃ pre post, l = pre ++ p :: post ∧ rest = pre ++ post ∧ p.id = id ∧
      ∀ q ∈ pre, q.id ≠ id := by
  induction l generalizing rest with
  | nil => simp [find_pending] at h
  | cons a l ih =>
    unfold find_pending at h
    by_cases ha : a.id = id
    · rw [if_pos ha] at h
      simp only [Option.some.injEq, Prod.mk.injEq] at h
      obtain ⟨rfl, rfl⟩ := h
      exact ⟨[], l, rfl, rfl, ha, by simp⟩
    · rw [if_neg ha] at h
      cases hrec : find_pending id l with
      | none => rw [hrec] at h; simp at h
      | some r =>
        obtain ⟨q, rest'⟩ := r
        rw [hrec] at h
        simp only [Option.some.injEq, Prod.mk.injEq] at h
        obtain ⟨rfl, rfl⟩ := h
        obtain ⟨pre, post, hl, hr, hid, hpre⟩ := ih rest' hrec
        refine ⟨a :: pre, post, by rw [hl]; rfl, by rw [hr]; rfl, hid, ?_⟩
        intro x hx
        rcases List.mem_cons.mp hx with rfl | hx
        · exact ha
        · exact hpre x hx

theorem find_pending_none (id : Nat) (l : List pending) :
    find_pending id l = none ↔ ∀ q ∈ l, q.id ≠ id := by
  induction l with
  | nil => simp [find_pending]
  | cons a l ih =>
    unfold find_pending
    by_cases ha : a.id = id
    · simp [ha]
    · rw [if_neg ha]
      cases hrec : find_pending id l with
      | none =>
        have := ih.mp hrec
        simp only [true_iff]
        intro q hq
        rcases List.mem_cons.mp hq with rfl | hq
        · exact ha
        · exact this q hq
      | some r =>
        have hne : ¬ ∀ q ∈ l, q.id ≠ id := fun hall => by
          rw [ih.mpr hall] at hrec; cases hrec
        constructor
        · intro h; cases h
        · intro hall
          exact absurd (fun q hq => hall q (List.mem_cons_of_mem _ hq)) hne

/-- Every record with the id is found when it is in the bucket. -/
theorem find_pending_of_mem (id : Nat) (l : List pending) (q : pending)
    (hq : q ∈ l) (hid : q.id = id) :
    ∃ p pre post, l = pre ++ p :: post ∧ p.id = id ∧ (∀ r ∈ pre, r.id ≠ id) ∧
      find_pending id l = some (p, pre ++ post) := by
  cases hf : find_pending id l with
  | none => exact absurd hid ((find_pending_none id l).mp hf q hq)
  | some r =>
    obtain ⟨p, rest⟩ := r
    obtain ⟨pre, post, hl, hr, hp, hpre⟩ := find_pending_some id l p rest hf
    exact ⟨p, pre, post, hl, hp, hpre, by rw [hr]⟩

/-! ## Buckets -/

theorem getD_set (l : List (List pending)) (i j : Nat) (x : List pending) :
    (l.set i x).getD j [] = if i = j ∧ i < l.length then x else l.getD j [] := by
  simp only [List.getD_eq_getElem?_getD, List.getElem?_set]
  by_cases hij : i = j
  · subst hij
    by_cases hi : i < l.length
    · simp [hi]
    · simp [hi, List.getElem?_eq_none (not_lt.mp hi)]
  · simp [hij]

theorem bucket_inv_set (info : devinfo) (i : Nat) (x : List pending)
    (hinv : bucket_inv info) (hx : ∀ p ∈ x, hash_pending p.id = i) :
    bucket_inv { info with pending := info.pending.set i x } := by
  obtain ⟨hlen, hb⟩ := hinv
  refine ⟨by simpa using hlen, ?_⟩
  intro b p hp
  simp only [getD_set] at hp
  split_ifs at hp with h
  · rw [← h.1]; exact hx p hp
  · exact hb b p hp

theorem removed_bucket_ok (id : Nat) (l l' : List (List pending)) (h : Removed id l l')
    (hlen : l.length = NUM_BUCKETS)
    (hb : ∀ b p, p ∈ l.getD b [] → hash_pending p.id = b) :
    l'.length = NUM_BUCKETS ∧ ∀ b p, p ∈ l'.getD b [] → hash_pending p.id = b := by
  induction h with
  | refl l => exact ⟨hlen, hb⟩
  | step l p rest l' hfind _ ih =>
    obtain ⟨pre, post, hl, hr, _, _⟩ := find_pending_some id _ p rest hfind
    apply ih (by simpa using hlen)
    intro b q hq
    simp only [getD_set] at hq
    split_ifs at hq with h
    · rw [← h.1]
      apply hb
      rw [hl]
      rw [hr] at hq
      rcases List.mem_append.mp hq with hq | hq
      · exact List.mem_append_left _ hq
      · exact List.mem_append_right _ (List.mem_cons_of_mem _ hq)
    · exact hb b q hq

/-! ## What the model's functions leave alone -/

theorem replied_rw_loop_frame (id : Nat) (rw : Rw) (snap failed_io : Bool) (shift mask : Nat)
    (alloc : Nat → Nat) (n : Nat) :
    ∀ (i : Nat) (p : List range_entry) (info : devinfo) (ev : List Event) (sub : Nat)
      (r : Int × devinfo × List Event),
      replied_rw_loop id rw snap failed_io shift mask alloc n i p info ev sub = Outcome.ok r →
      Removed id info.pending r.2.1.pending ∧ r.2.1.queries = info.queries ∧
        r.2.1.nextid = info.nextid := by
  induction n with
  | zero =>
    intro i p info ev sub r h
    simp only [replied_rw_loop, Outcome.ok.injEq] at h
    subst h
    exact ⟨Removed.refl _, rfl, rfl⟩
  | succ n ih =>
    intro i p info ev sub r h
    cases p with
    | nil => simp [replied_rw_loop] at h
    | cons e p' =>
      cases hf : find_pending id (info.pending.getD (hash_pending id) []) with
      | none =>
        simp only [replied_rw_loop, hf] at h
        split_ifs at h
        simp only [Outcome.ok.injEq] at h
        subst h
        exact ⟨Removed.refl _, rfl, rfl⟩
      | some found =>
        obtain ⟨pend, rest⟩ := found
        have one : ∀ (l' : List (List pending)),
            Removed id (info.pending.set (hash_pending id) rest) l' →
            Removed id info.pending l' :=
          fun _ hr => Removed.step _ pend rest _ hf hr
        cases hrm : remap_loop info.snapdev shift mask e.range.chunks e.physical pend.bio with
        | none =>
          simp only [replied_rw_loop, hf, hrm] at h
          split_ifs at h
          all_goals first
            | (simp only [Outcome.ok.injEq] at h
               subst h
               exact ⟨one _ (Removed.refl _), rfl, rfl⟩)
            | (obtain ⟨h1, h2, h3⟩ := ih _ _ _ _ _ _ h
               exact ⟨one _ h1, h2, h3⟩)
        | some b' =>
          simp only [replied_rw_loop, hf, hrm] at h
          split_ifs at h
          all_goals first
            | (simp only [Outcome.ok.injEq] at h
               subst h
               exact ⟨one _ (Removed.refl _), rfl, rfl⟩)
            | (obtain ⟨h1, h2, h3⟩ := ih _ _ _ _ _ _ h
               exact ⟨one _ h1, h2, h3⟩)

theorem replied_rw_frame (info : devinfo) (body : rw_request) (rw : Rw) (snap failed_io : Bool)
    (alloc : Nat → Nat) (r : Int × devinfo × List Event)
    (h : replied_rw info body rw snap failed_io alloc = Outcome.ok r) :
    Removed body.id info.pending r.2.1.pending ∧ r.2.1.queries = info.queries ∧
      r.2.1.nextid = info.nextid :=
  replied_rw_loop_frame _ _ _ _ _ _ _ _ _ _ _ _ _ _ h

theorem requeue_bucket_eq (i : Nat) (l : List pending) (info : devinfo) :
    requeue_bucket i l info =
      { info with
        pending := if l = [] then info.pending else info.pending.set i []
        queries := l.reverse ++ info.queries
        more_work_sem := info.more_work_sem + l.length } := by
  induction l generalizing info with
  | nil => simp [requeue_bucket]
  | cons a l ih =>
    rw [requeue_bucket, ih]
    by_cases hl : l = []
    · subst hl; simp
    · simp [hl, List.set_set]
      omega

theorem requeue_loop_eq (todo : List (List pending)) :
    ∀ (done : List (List pending)) (info : devinfo), info.pending = done ++ todo →
      requeue_loop todo.length done.length info =
        { info with
          pending := done ++ List.replicate todo.length []
          queries := todo.flatten.reverse ++ info.queries
          more_work_sem := info.more_work_sem + todo.flatten.length } := by
  induction todo with
  | nil =>
    intro done info h
    simp [requeue_loop, ← h]
  | cons b todo ih =>
    intro done info h
    have hget : info.pending.getD done.length [] = b := by
      rw [h, List.getD_eq_getElem?_getD, List.getElem?_append_right (Nat.le_refl _)]
      simp
    have hset : info.pending.set done.length [] = done ++ [] :: todo := by
      rw [h]; simp
    have hpend : (if b = [] then info.pending else info.pending.set done.length []) =
        (done ++ [[]]) ++ todo := by
      by_cases hb : b = []
      · rw [if_pos hb, h, hb]; simp
      · rw [if_neg hb, hset]; simp
    rw [List.length_cons, requeue_loop, hget, requeue_bucket_eq, hpend]
    have := ih (done ++ [[]])
      { info with
        pending := (done ++ [[]]) ++ todo
        queries := b.reverse ++ info.queries
        more_work_sem := info.more_work_sem + b.length } rfl
    simp only [List.length_append, List.length_singleton] at this
    rw [this]
    simp [List.replicate_succ, Nat.add_assoc]

/-- What `requeue_queries` does to a device with `NUM_BUCKETS` buckets:
the buckets are emptied, their records go to the head of the query queue
(so that the first record of bucket 0 is the deepest of them), and the
worker is signalled once for each. -/
theorem requeue_queries_eq (info : devinfo) (hlen : info.pending.length = NUM_BUCKETS) :
    requeue_queries info =
      { info with
        pending := List.replicate NUM_BUCKETS []
        queries := info.pending.flatten.reverse ++ info.queries
        more_work_sem := info.more_work_sem + info.pending.flatten.length } := by
  have := requeue_loop_eq info.pending [] info rfl
  rw [hlen] at this
  simpa [requeue_queries] using this

/-- The results of one pass of the worker's query drain. -/
theorem worker_query_iter_cases (info : devinfo) (err : Int) (nx : Next) (info' : devinfo)
    (ev : List Event) (h : worker_query_iter info err = Outcome.ok (nx, info', ev)) :
    (nx = Next.done ∧ info' = info ∧ ev = [] ∧
      (info.queries = [] ∨ worker_running info = false)) ∨
    (∃ qs p, info.queries = qs ++ [p] ∧ worker_running info = true ∧
      0 < info.server_out_sem ∧
      ev = [query_message p] ∧
      ((nx = Next.again ∧ err = 0 ∧
        info' = { info with
          queries := qs
          pending := info.pending.set (hash_pending p.id)
            (p :: info.pending.getD (hash_pending p.id) []) }) ∨
       (nx = Next.report ∧ err ≠ 0 ∧
        info' = { info with
          queries := qs
          pending := info.pending.set (hash_pending p.id)
            (p :: info.pending.getD (hash_pending p.id) [])
          server_out_sem := info.server_out_sem - 1 }))) := by
  unfold worker_query_iter at h
  cases hq : info.queries.getLast? with
  | none =>
    rw [hq] at h
    simp only [Outcome.ok.injEq, Prod.mk.injEq] at h
    obtain ⟨h1, h2, h3⟩ := h
    exact Or.inl ⟨h1.symm, h2.symm, h3.symm, Or.inl (List.getLast?_eq_none_iff.mp hq)⟩
  | some p =>
    rw [hq] at h
    simp only at h
    obtain ⟨qs, hqs⟩ := List.getLast?_eq_some_iff.mp hq
    have hdrop : info.queries.dropLast = qs := by rw [hqs]; simp
    by_cases hrun : worker_running info = false
    · rw [if_pos hrun] at h
      simp only [Outcome.ok.injEq, Prod.mk.injEq] at h
      obtain ⟨h1, h2, h3⟩ := h
      exact Or.inl ⟨h1.symm, h2.symm, h3.symm, Or.inr hrun⟩
    · rw [if_neg hrun] at h
      have hrun' : worker_running info = true := by simpa using hrun
      by_cases hsem : info.server_out_sem = 0
      · rw [if_pos hsem] at h; cases h
      · rw [if_neg hsem] at h
        have hpos : 0 < info.server_out_sem := Nat.pos_of_ne_zero hsem
        refine Or.inr ⟨qs, p, hqs, hrun', hpos, ?_⟩
        by_cases herr : err ≠ 0
        · rw [if_pos herr] at h
          simp only [Outcome.ok.injEq, Prod.mk.injEq] at h
          obtain ⟨h1, h2, h3⟩ := h
          refine ⟨h3.symm, Or.inr ⟨h1.symm, herr, ?_⟩⟩
          rw [← h2, hdrop]
        · rw [if_neg herr] at h
          simp only [Outcome.ok.injEq, Prod.mk.injEq] at h
          obtain ⟨h1, h2, h3⟩ := h
          refine ⟨h3.symm, Or.inl ⟨h1.symm, not_not.mp herr, ?_⟩⟩
          rw [← h2, hdrop]
          have : info.server_out_sem - 1 + 1 = info.server_out_sem := by omega
          simp [this]

/-- The results of `ddsnap_map`. -/
theorem ddsnap_map_cases (ID_BITS : Nat) (info : devinfo) (b : bio) (ret : Int)
    (info' : devinfo) (b' : bio) (hid : ID_BITS ≤ 32)
    (h : ddsnap_map ID_BITS info b = Outcome.ok (ret, info', b')) :
    (ret ≠ 0 ∧ info' = info) ∨
    (ret = 0 ∧ info.flags &&& READY_FLAG ≠ 0 ∧
      info' = { info with
        nextid := (info.nextid + 1) % 2 ^ ID_BITS
        queries :=
          { id := info.nextid, chunk := b.bi_sector >>> info.chunkshift, chunks := 1,
            bio := { b with bi_bdev := info.orgdev } } :: info.queries
        more_work_sem := info.more_work_sem + 1 }) := by
  unfold ddsnap_map at h
  by_cases hready : info.flags &&& READY_FLAG = 0
  · rw [if_pos hready] at h
    simp only [Outcome.ok.injEq, Prod.mk.injEq] at h
    exact Or.inl ⟨by rw [← h.1]; decide, h.2.1.symm⟩
  · rw [if_neg hready] at h
    simp only at h
    split_ifs at h with h1 h2
    · simp only [Outcome.ok.injEq, Prod.mk.injEq] at h
      exact Or.inl ⟨by rw [← h.1]; decide, h.2.1.symm⟩
    · simp only [Outcome.ok.injEq, Prod.mk.injEq] at h
      refine Or.inr ⟨h.1.symm, hready, ?_⟩
      rw [← h.2.1, next_id_eq ID_BITS info.nextid hid]

theorem ddsnap_map_pending (ID_BITS : Nat) (info : devinfo) (b : bio) (ret : Int)
    (info' : devinfo) (b' : bio)
    (h : ddsnap_map ID_BITS info b = Outcome.ok (ret, info', b')) :
    info'.pending = info.pending := by
  unfold ddsnap_map at h
  by_cases hready : info.flags &&& READY_FLAG = 0
  · rw [if_pos hready] at h
    simp only [Outcome.ok.injEq, Prod.mk.injEq] at h
    rw [← h.2.1]
  · rw [if_neg hready] at h
    simp only at h
    split_ifs at h with h1 h2
    · simp only [Outcome.ok.injEq, Prod.mk.injEq] at h
      rw [← h.2.1]
    · simp only [Outcome.ok.injEq, Prod.mk.injEq] at h
      rw [← h.2.1]

theorem report_error_frame (info info' : devinfo) (h : report_error info = Outcome.ok info') :
    info'.pending = info.pending ∧ info'.queries = info.queries ∧
      info'.nextid = info.nextid := by
  unfold report_error at h
  by_cases h1 : info.flags &&& (1 <<< REPORT_BIT) ≠ 0
  · rw [if_pos h1] at h
    simp only [Outcome.ok.injEq] at h
    rw [← h]; exact ⟨rfl, rfl, rfl⟩
  · rw [if_neg h1] at h
    simp only at h
    by_cases h2 : info.recover_sem = 0
    · rw [if_pos h2] at h; cases h
    · rw [if_neg h2] at h
      simp only [Outcome.ok.injEq] at h
      rw [← h]; exact ⟨rfl, rfl, rfl⟩

theorem control_connect_server_frame (info : devinfo) (sock off len : Nat) (err : Int) :
    (control_connect_server info sock off len err).1.pending = info.pending ∧
    (control_connect_server info sock off len err).1.queries = info.queries ∧
    (control_connect_server info sock off len err).1.nextid = info.nextid := by
  unfold control_connect_server
  split_ifs <;> exact ⟨rfl, rfl, rfl⟩

/-! ## The bucket invariant along traces -/

theorem bucket_inv_create (snap : Int) (snapdev orgdev control_socket : Nat) :
    bucket_inv (ddsnap_create snap snapdev orgdev control_socket) := by
  refine ⟨by simp [ddsnap_create], ?_⟩
  intro b p hp
  simp only [ddsnap_create, List.getD_eq_getElem?_getD] at hp
  by_cases hb : b < NUM_BUCKETS
  · simp [hb] at hp
  · rw [List.getElem?_eq_none (by simpa using hb)] at hp
    simp at hp

theorem bucket_inv_of_pending_eq (info info' : devinfo) (h : info'.pending = info.pending)
    (hinv : bucket_inv info) : bucket_inv info' := by
  unfold bucket_inv at *
  rw [h]; exact hinv

theorem step_bucket_inv (ID_BITS : Nat) (info : devinfo) (n : Nat)
    (a : Act) (info' : devinfo) (n' : Nat)
    (h : step ID_BITS info n a = some (info', n')) (hinv : bucket_inv info) :
    bucket_inv info' := by
  cases a with
  | connect_server sock off len err =>
    simp only [step, Option.some.injEq, Prod.mk.injEq] at h
    exact bucket_inv_of_pending_eq info info'
      (by rw [← h.1]; exact (control_connect_server_frame info sock off len err).1) hinv
  | report_error =>
    simp only [step] at h
    cases hm : report_error info with
    | ok info1 =>
      rw [hm] at h
      simp only [Option.some.injEq, Prod.mk.injEq] at h
      exact bucket_inv_of_pending_eq info info'
        (by rw [← h.1]; exact (report_error_frame info info1 hm).1) hinv
    | BUG => rw [hm] at h; cases h
    | overrun => rw [hm] at h; cases h
    | blocked => rw [hm] at h; cases h
  | identify_ok k =>
    simp only [step, Option.some.injEq, Prod.mk.injEq] at h
    exact bucket_inv_of_pending_eq info info' (by rw [← h.1]; rfl) hinv
  | map b =>
    simp only [step] at h
    cases hm : ddsnap_map ID_BITS info b with
    | ok r =>
      obtain ⟨ret, info1, b1⟩ := r
      rw [hm] at h
      simp only [Option.some.injEq, Prod.mk.injEq] at h
      exact bucket_inv_of_pending_eq info info'
        (by rw [← h.1]; exact ddsnap_map_pending ID_BITS info b ret info1 b1 hm) hinv
    | BUG => rw [hm] at h; cases h
    | overrun => rw [hm] at h; cases h
    | blocked => rw [hm] at h; cases h
  | send err =>
    simp only [step] at h
    cases hm : worker_query_iter info err with
    | ok r =>
      obtain ⟨nx, info1, ev⟩ := r
      rw [hm] at h
      simp only [Option.some.injEq, Prod.mk.injEq] at h
      have key : ∀ p : pending, bucket_inv
          { info with
            pending := info.pending.set (hash_pending p.id)
              (p :: info.pending.getD (hash_pending p.id) []) } := by
        intro p
        apply bucket_inv_set info _ _ hinv
        intro q hq
        rcases List.mem_cons.mp hq with rfl | hq
        · rfl
        · exact hinv.2 _ q hq
      rcases worker_query_iter_cases info err nx info1 ev hm with
        ⟨_, he, _⟩ | ⟨qs, p, _, _, _, _, ⟨_, _, he⟩ | ⟨_, _, he⟩⟩
      · rw [← h.1, he]; exact hinv
      · exact bucket_inv_of_pending_eq _ info' (by rw [← h.1, he]) (key p)
      · exact bucket_inv_of_pending_eq _ info' (by rw [← h.1, he]) (key p)
    | BUG => rw [hm] at h; cases h
    | overrun => rw [hm] at h; cases h
    | blocked => rw [hm] at h; cases h
  | reply body rw snap failed_io alloc =>
    simp only [step] at h
    cases hm : replied_rw info body rw snap failed_io alloc with
    | ok r =>
      obtain ⟨ret, info1, ev⟩ := r
      rw [hm] at h
      simp only [Option.some.injEq, Prod.mk.injEq] at h
      obtain ⟨hrem, _, _⟩ := replied_rw_frame info body rw snap failed_io alloc _ hm
      rw [← h.1]
      exact removed_bucket_ok body.id _ _ hrem hinv.1 hinv.2
    | BUG => rw [hm] at h; cases h
    | overrun => rw [hm] at h; cases h
    | blocked => rw [hm] at h; cases h
  | requeue =>
    simp only [step, Option.some.injEq, Prod.mk.injEq] at h
    rw [← h.1, requeue_queries_eq info hinv.1]
    refine ⟨by simp, ?_⟩
    intro b p hp
    simp only [List.getD_eq_getElem?_getD] at hp
    by_cases hb : b < NUM_BUCKETS
    · simp [hb] at hp
    · rw [List.getElem?_eq_none (by simpa using hb)] at hp
      simp at hp
  | other info1 =>
    simp only [step] at h
    split_ifs at h with hc
    simp only [Option.some.injEq, Prod.mk.injEq] at h
    rw [← h.1]
    exact bucket_inv_of_pending_eq info info1 hc.2.1 hinv

theorem run_bucket_inv (ID_BITS : Nat) (acts : List Act) :
    ∀ (info : devinfo) (n : Nat) (info' : devinfo) (n' : Nat),
      run ID_BITS acts info n = some (info', n') → bucket_inv info → bucket_inv info' := by
  induction acts with
  | nil =>
    intro info n info' n' h hinv
    simp only [run, Option.some.injEq, Prod.mk.injEq] at h
    rw [← h.1]; exact hinv
  | cons a acts ih =>
    intro info n info' n' h hinv
    simp only [run] at h
    cases hs : step ID_BITS info n a with
    | none => rw [hs] at h; cases h
    | some r =>
      obtain ⟨info1, n1⟩ := r
      rw [hs] at h
      exact ih info1 n1 info' n' h (step_bucket_inv ID_BITS info n a info1 n1 hs hinv)

/-- In every reachable state there are `NUM_BUCKETS` buckets and every
record in bucket `b` hashes to `b`. -/
theorem reachable_bucket_inv (ID_BITS n : Nat) (info : devinfo)
    (h : Reachable ID_BITS n info) : bucket_inv info := by
  obtain ⟨snap, snapdev, orgdev, cs, acts, hrun⟩ := h
  exact run_bucket_inv ID_BITS acts _ _ _ _ hrun (bucket_inv_create snap snapdev orgdev cs)

/-- A record with the id in some bucket is in the bucket the id hashes to. -/
theorem mem_hash_bucket (info : devinfo) (hinv : bucket_inv info) (id : Nat)
    (h : ∃ b, b < NUM_BUCKETS ∧ ∃ p ∈ info.pending.getD b [], p.id = id) :
    ∃ p ∈ info.pending.getD (hash_pending id) [], p.id = id := by
  obtain ⟨b, _, p, hp, hpid⟩ := h
  have := hinv.2 b p hp
  rw [hpid] at this
  rw [this]
  exact ⟨p, hp, hpid⟩

/-! ## The map method: claims C1 to C4 -/

/-- The worker's query drain, when every send succeeds, the egress permit
is there and the worker is running, sends the queued records from the tail
of the queue to its head and ends with the queue empty. -/
theorem worker_query_loop_drains (fuel : Nat) :
    ∀ (k : Nat) (info : devinfo) (ev : List Event),
      info.queries.length < fuel → worker_running info = true → 0 < info.server_out_sem →
      ∃ info', worker_query_loop (fun _ => 0) fuel k info ev =
          Outcome.ok (Next.done, info', ev ++ info.queries.reverse.map query_message) ∧
        info'.queries = [] := by
  induction fuel with
  | zero => intro k info ev h; exact absurd h (Nat.not_lt_zero _)
  | succ fuel ih =>
    intro k info ev hlen hrun hsem
    rcases List.eq_nil_or_concat info.queries with hq | ⟨qs, p, hq⟩
    · refine ⟨info, ?_, hq⟩
      simp [worker_query_loop, worker_query_iter, hq]
    · have hlast : info.queries.getLast? = some p := by rw [hq]; simp
      have hdrop : info.queries.dropLast = qs := by rw [hq]; simp
      have hne : info.server_out_sem ≠ 0 := Nat.pos_iff_ne_zero.mp hsem
      have hsem' : info.server_out_sem - 1 + 1 = info.server_out_sem := by omega
      have hiter : worker_query_iter info 0 =
          Outcome.ok (Next.again,
            { info with
              queries := qs
              pending := info.pending.set (hash_pending p.id)
                (p :: info.pending.getD (hash_pending p.id) []) },
            [query_message p]) := by
        simp only [worker_query_iter, hlast, hrun, hdrop]
        simp [hne, hsem']
      obtain ⟨info', hloop, hq'⟩ := ih (k + 1)
        { info with
          queries := qs
          pending := info.pending.set (hash_pending p.id)
            (p :: info.pending.getD (hash_pending p.id) []) }
        (ev ++ [query_message p])
        (by
          have : info.queries.length = qs.length + 1 := by rw [hq]; simp
          simp only; omega)
        (by simpa [worker_running] using hrun) hsem
      refine ⟨info', ?_, hq'⟩
      rw [worker_query_loop, hiter]
      simp only
      rw [hloop, hq]
      simp

theorem int_shift_one_eq (k : Nat) (hk : k < 31) : int_shift_one k = 1 <<< k := by
  unfold int_shift_one
  rw [Nat.mod_eq_of_lt (by omega : k < 32), Nat.one_shiftLeft]
  exact Nat.mod_eq_of_lt (Nat.pow_lt_pow_right (by decide) (by omega))

/-- The size assertion of `ddsnap_map` holds for an I/O of at most
`1 << chunksize_bits` bytes when the shift is in the range of an `int`. -/
theorem size_assert_of_le (k size : Nat) (hk : k < 31) (hsize : size ≤ 1 <<< k) :
    size ≤ int_shift_one k := by
  rw [int_shift_one_eq k hk]
  exact hsize

/-- The queueing path of `ddsnap_map`, written out. -/
theorem ddsnap_map_query_eq (ID_BITS : Nat) (info : devinfo) (b : bio)
    (hid : ID_BITS ≤ 32)
    (hready : info.flags &&& READY_FLAG ≠ 0)
    (hquery : b.dir = Rw.WRITE ∨ info.flags &&& IS_SNAP_FLAG ≠ 0)
    (hsize : b.bi_size ≤ int_shift_one info.chunksize_bits) :
    ddsnap_map ID_BITS info b =
      Outcome.ok (0,
        { info with
          nextid := (info.nextid + 1) % 2 ^ ID_BITS
          queries :=
            { id := info.nextid, chunk := b.bi_sector >>> info.chunkshift, chunks := 1,
              bio := { b with bi_bdev := info.orgdev } } :: info.queries
          more_work_sem := info.more_work_sem + 1 },
        { b with bi_bdev := info.orgdev }) := by
  have hnot : ¬ (b.dir = Rw.READ ∧ is_snapshot info = false) := by
    rintro ⟨hr, hs⟩
    rcases hquery with hw | hsnap
    · rw [hr] at hw; cases hw
    · simp [is_snapshot] at hs; exact hsnap hs
  unfold ddsnap_map
  rw [if_neg hready]
  simp only []
  rw [if_neg hnot, if_neg (not_not.mpr hsize), next_id_eq ID_BITS info.nextid hid]

/-- C1. With READY set and `chunksize_bits < 31` (the range in which the
`int` shift of the size assertion is defined), an I/O that is not an
origin-role read and has at most `1 << chunksize_bits` bytes is queued: `ddsnap_map` returns 0, the record
`{id = old nextid, chunk = sector >> chunkshift, chunks = 1, bio}` is put
at the head of the query queue, `nextid` becomes `(old nextid + 1) mod
2^ID_BITS`, `more_work_sem` goes up by one, and nothing else changes (the
buckets are the old ones).  The bio of the record is the I/O with its
device set to the origin. -/
theorem ddsnap_map_queues (ID_BITS : Nat) (info : devinfo) (b : bio)
    (hid : ID_BITS ≤ 32)
    (hready : info.flags &&& READY_FLAG ≠ 0)
    (hquery : b.dir = Rw.WRITE ∨ info.flags &&& IS_SNAP_FLAG ≠ 0)
    (hbits : info.chunksize_bits < 31)
    (hsize : b.bi_size ≤ 1 <<< info.chunksize_bits) :
    ddsnap_map ID_BITS info b =
      Outcome.ok (0,
        { info with
          nextid := (info.nextid + 1) % 2 ^ ID_BITS
          queries :=
            { id := info.nextid, chunk := b.bi_sector >>> info.chunkshift, chunks := 1,
              bio := { b with bi_bdev := info.orgdev } } :: info.queries
          more_work_sem := info.more_work_sem + 1 },
        { b with bi_bdev := info.orgdev }) ∧
    ∀ r, ddsnap_map ID_BITS info b = Outcome.ok r → r.2.1.pending = info.pending := by
  have hmain := ddsnap_map_query_eq ID_BITS info b hid hready hquery
    (size_assert_of_le _ _ hbits hsize)
  refine ⟨hmain, ?_⟩
  intro r hr
  rw [hmain] at hr
  cases hr
  rfl

/-- Witness of C1: the 4 KiB write at sector 24 on the ready snapshot
device is queued with id 0 and chunk 3. -/
theorem ddsnap_map_queues_witness :
    ddsnap_map 16 snap_ready write_at_24 =
      Outcome.ok (0,
        { snap_ready with
          nextid := 1
          queries := [{ id := 0, chunk := 3, chunks := 1,
                        bio := { write_at_24 with bi_bdev := 1 } }]
          more_work_sem := 1 },
        { write_at_24 with bi_bdev := 1 }) :=
  (ddsnap_map_queues 16 snap_ready write_at_24 (by decide) (by decide)
    (Or.inl rfl) (by decide) (by decide)).1

/-- C2. On an origin-role device with READY set a read is handed back:
`ddsnap_map` returns 1, the I/O's device is the origin device, its sector
and every other field are the old ones, and the device state (query queue,
buckets, `nextid`, `more_work_sem`) is unchanged. -/
theorem ddsnap_map_origin_read (ID_BITS : Nat) (info : devinfo) (b : bio)
    (hready : info.flags &&& READY_FLAG ≠ 0)
    (horigin : info.flags &&& IS_SNAP_FLAG = 0)
    (hread : b.dir = Rw.READ) :
    ddsnap_map ID_BITS info b = Outcome.ok (1, info, { b with bi_bdev := info.orgdev }) := by
  have hs : is_snapshot info = false := by simp [is_snapshot, horigin]
  unfold ddsnap_map
  rw [if_neg hready]
  simp only []
  rw [if_pos ⟨hread, hs⟩]

/-- Witness of C2: the 4 KiB read at sector 8 on the ready origin device. -/
theorem ddsnap_map_origin_read_witness :
    ddsnap_map 16 org_ready read_at_8 =
      Outcome.ok (1, org_ready,
        { bi_bdev := 1, bi_sector := 8, bi_size := 4096, dir := Rw.READ,
          bi_end_io := bio_end_io_t.fn 1, bi_private := 0 }) :=
  ddsnap_map_origin_read 16 org_ready read_at_8 (by decide) (by decide) rfl

/-- C3. While READY is not set `ddsnap_map` returns -1 for every I/O and
changes neither the device state nor the I/O. -/
theorem ddsnap_map_not_ready (ID_BITS : Nat) (info : devinfo) (b : bio)
    (hready : info.flags &&& READY_FLAG = 0) :
    ddsnap_map ID_BITS info b = Outcome.ok (-1, info, b) := by
  unfold ddsnap_map
  rw [if_pos hready]

/-- Witness of C3: a write on a freshly created snapshot device. -/
theorem ddsnap_map_not_ready_witness :
    ddsnap_map 16 (ddsnap_create 0 2 1 3) write_at_24 =
      Outcome.ok (-1, ddsnap_create 0 2 1 3, write_at_24) :=
  ddsnap_map_not_ready 16 (ddsnap_create 0 2 1 3) write_at_24 (by decide)

/-- C5. For a chunk size of `k` bits with `9 ≤ k < 41`, a single-range
snapstore reply (write or read) whose id is that of a pending record `p`
in its bucket makes `replied_rw` take the record out of the bucket and
submit its I/O once, with the snapshot store as device and with sector
`(c << (k-9)) | (s & ((1 << (k-9)) - 1))` in 64-bit arithmetic, where `s`
is the I/O's sector and `c` the physical chunk of the reply; it returns 0
and kicks both devices.  When `c << (k-9)` fits in 64 bits the sector is
that value without truncation. -/
theorem replied_rw_snapstore_sector (info : devinfo) (rw : Rw) (alloc : Nat → Nat)
    (p : pending) (pre post : List pending) (chunk c : Nat)
    (h9 : 9 ≤ info.chunksize_bits) (h41 : info.chunksize_bits < 41)
    (hbucket : info.pending.getD (hash_pending p.id) [] = pre ++ p :: post)
    (hfirst : ∀ q ∈ pre, q.id ≠ p.id)
    (hchunks : p.chunks = 1) :
    replied_rw info
        { id := p.id, count := 1,
          ranges := [{ range := { chunk := chunk, chunks := 1 }, physical := [c] }] }
        rw true false alloc =
      Outcome.ok (0,
        { info with pending := info.pending.set (hash_pending p.id) (pre ++ post) },
        [Event.generic_make_request
           { p.bio with
             bi_bdev := info.snapdev
             bi_sector :=
               ((c <<< (info.chunksize_bits - 9)) |||
                 (p.bio.bi_sector &&& ((1 <<< (info.chunksize_bits - 9)) - 1))) % 2 ^ 64 },
         Event.kick info.orgdev, Event.kick info.snapdev]) ∧
    (c <<< (info.chunksize_bits - 9) < 2 ^ 64 →
      ((c <<< (info.chunksize_bits - 9)) |||
          (p.bio.bi_sector &&& ((1 <<< (info.chunksize_bits - 9)) - 1))) % 2 ^ 64 =
        (c <<< (info.chunksize_bits - 9)) |||
          (p.bio.bi_sector &&& ((1 <<< (info.chunksize_bits - 9)) - 1))) := by
  obtain ⟨hshift, hmask⟩ := shift_mask_eq info.chunksize_bits h9 h41
  have hsh : info.chunksize_bits - 9 ≤ 64 := by omega
  constructor
  · unfold replied_rw
    simp only [hshift, hmask]
    simp only [replied_rw_loop, hbucket, find_pending_append p.id p pre post hfirst rfl,
      hchunks, remap_loop, remap_sector_eq c p.bio.bi_sector _ hsh]
    simp
  · intro hc
    apply Nat.mod_eq_of_lt
    apply Nat.or_lt_two_pow hc
    rw [Nat.one_shiftLeft, Nat.and_pow_two_sub_one_eq_mod]
    exact lt_of_lt_of_le (Nat.mod_lt _ (Nat.two_pow_pos _))
      (Nat.pow_le_pow_right (by decide) hsh)

/-- Witness of C5: `k = 12`, the write at sector 24 in flight with id 0,
physical chunk `0x1000`: the I/O goes to the snapshot store (device 2) at
sector 32768. -/
theorem replied_rw_snapstore_sector_witness :
    replied_rw snap_inflight reply_0x1000 Rw.WRITE true false (fun _ => 0) =
      Outcome.ok (0,
        { snap_inflight with pending := snap_inflight.pending.set 0 [] },
        [Event.generic_make_request
           { write_at_24 with bi_bdev := 2, bi_sector := 32768 },
         Event.kick 1, Event.kick 2]) :=
  (replied_rw_snapstore_sector snap_inflight Rw.WRITE (fun _ => 0)
    { id := 0, chunk := 3, chunks := 1, bio := { write_at_24 with bi_bdev := 1 } }
    [] [] 3 0x1000 (by decide) (by decide) (by decide) (by simp) rfl).1

/-! ## Replies and the pending table: claims C7 and C8 -/

theorem seven_outstanding_reachable : Reachable 16 7 seven_outstanding :=
  ⟨0, 2, 1, 3, seven_trace, by decide⟩

/-- C7. In a reachable state, a single-range `REPLY_ERROR` whose id `Q` is
that of a record in some bucket is matched to the first such record `p` of
bucket `Q mod 64`: `replied_rw` fails `p`'s I/O, returns -1 and leaves a
state that differs from the old one only in that `p` is gone from that
bucket.  The query queue, the other records, the other buckets, the locked
and the release list are the old ones; the only effect is the failed I/O
(nothing is submitted, no hook is made). -/
theorem replied_rw_error (ID_BITS n : Nat) (info : devinfo)
    (hreach : Reachable ID_BITS n info) (Q chunk : Nat) (physical : List Nat) (rw : Rw)
    (snap : Bool) (alloc : Nat → Nat)
    (hQ : ∃ b, b < NUM_BUCKETS ∧ ∃ p ∈ info.pending.getD b [], p.id = Q) :
    ∃ p pre post,
      info.pending.getD (hash_pending Q) [] = pre ++ p :: post ∧ p.id = Q ∧
      (∀ q ∈ pre, q.id ≠ Q) ∧
      replied_rw info
          { id := Q, count := 1,
            ranges := [{ range := { chunk := chunk, chunks := 1 }, physical := physical }] }
          rw snap true alloc =
        Outcome.ok (-1,
          { info with pending := info.pending.set (hash_pending Q) (pre ++ post) },
          [Event.bio_io_error p.bio]) ∧
      (∀ b, b ≠ hash_pending Q →
        (info.pending.set (hash_pending Q) (pre ++ post)).getD b [] = info.pending.getD b []) := by
  have hinv := reachable_bucket_inv ID_BITS n info hreach
  obtain ⟨q, hq, hqid⟩ := mem_hash_bucket info hinv Q hQ
  obtain ⟨p, pre, post, hl, hp, hpre, hfind⟩ := find_pending_of_mem Q _ q hq hqid
  refine ⟨p, pre, post, hl, hp, hpre, ?_, ?_⟩
  · unfold replied_rw
    simp only [replied_rw_loop, hfind]
    simp
  · intro b hb
    rw [getD_set]
    rw [if_neg]
    intro h
    exact hb h.1.symm

/-- Witness of C7: with seven queries outstanding, `REPLY_ERROR` for id 3
fails the write at sector 24 and empties bucket 3. -/
theorem replied_rw_error_witness :
    ∃ p pre post,
      seven_outstanding.pending.getD (hash_pending 3) [] = pre ++ p :: post ∧ p.id = 3 ∧
      (∀ q ∈ pre, q.id ≠ 3) ∧
      replied_rw seven_outstanding
          { id := 3, count := 1,
            ranges := [{ range := { chunk := 3, chunks := 1 }, physical := [] }] }
          Rw.READ true true (fun _ => 0) =
        Outcome.ok (-1,
          { seven_outstanding with
            pending := seven_outstanding.pending.set (hash_pending 3) (pre ++ post) },
          [Event.bio_io_error p.bio]) ∧
      (∀ b, b ≠ hash_pending 3 →
        (seven_outstanding.pending.set (hash_pending 3) (pre ++ post)).getD b [] =
          seven_outstanding.pending.getD b []) :=
  replied_rw_error 16 7 seven_outstanding seven_outstanding_reachable
    3 3 [] Rw.READ true (fun _ => 0)
    ⟨3, by decide, { id := 3, chunk := 3, chunks := 1, bio := { write_at 24 with bi_bdev := 1 } },
      by decide, rfl⟩

/-- C8. In a reachable state every record in bucket `b` has `id mod 64 =
b`, so the search of bucket `id mod 64` that `replied_rw` makes for a
single-range reply finds a record exactly when some bucket holds a record
with that id; and when no bucket does, `replied_rw` returns -1 with the
state unchanged and without any effect. -/
theorem replied_rw_lookup (ID_BITS n : Nat) (info : devinfo)
    (hreach : Reachable ID_BITS n info) (id chunk : Nat) (physical : List Nat) (rw : Rw)
    (snap failed_io : Bool) (alloc : Nat → Nat) :
    (∀ b p, p ∈ info.pending.getD b [] → p.id % 64 = b) ∧
    ((∃ b, b < NUM_BUCKETS ∧ ∃ p ∈ info.pending.getD b [], p.id = id) ↔
      (find_pending id (info.pending.getD (hash_pending id) [])).isSome = true) ∧
    ((¬ ∃ b, b < NUM_BUCKETS ∧ ∃ p ∈ info.pending.getD b [], p.id = id) →
      replied_rw info
          { id := id, count := 1,
            ranges := [{ range := { chunk := chunk, chunks := 1 }, physical := physical }] }
          rw snap failed_io alloc =
        Outcome.ok (-1, info, [])) := by
  have hinv := reachable_bucket_inv ID_BITS n info hreach
  have hiff : (∃ b, b < NUM_BUCKETS ∧ ∃ p ∈ info.pending.getD b [], p.id = id) ↔
      (find_pending id (info.pending.getD (hash_pending id) [])).isSome = true := by
    constructor
    · intro h
      obtain ⟨q, hq, hqid⟩ := mem_hash_bucket info hinv id h
      obtain ⟨p, pre, post, _, _, _, hfind⟩ := find_pending_of_mem id _ q hq hqid
      rw [hfind]; rfl
    · intro h
      cases hf : find_pending id (info.pending.getD (hash_pending id) []) with
      | none => rw [hf] at h; cases h
      | some r =>
        obtain ⟨p, rest⟩ := r
        obtain ⟨pre, post, hl, _, hp, _⟩ := find_pending_some id _ p rest hf
        exact ⟨hash_pending id, hash_pending_lt id, p, by rw [hl]; simp, hp⟩
  refine ⟨?_, hiff, ?_⟩
  · intro b p hp
    rw [← hash_pending_eq]
    exact hinv.2 b p hp
  · intro hno
    have hnone : find_pending id (info.pending.getD (hash_pending id) []) = none := by
      cases hf : find_pending id (info.pending.getD (hash_pending id) []) with
      | none => rfl
      | some r => exact absurd (hiff.mpr (by rw [hf]; rfl)) hno
    unfold replied_rw
    simp only [replied_rw_loop, hnone]
    simp

/-- Witness of C8: with the queries 0 to 6 outstanding, a reply for id 9
matches nothing. -/
theorem replied_rw_lookup_witness :
    (∀ b p, p ∈ seven_outstanding.pending.getD b [] → p.id % 64 = b) ∧
    ((∃ b, b < NUM_BUCKETS ∧ ∃ p ∈ seven_outstanding.pending.getD b [], p.id = 9) ↔
      (find_pending 9 (seven_outstanding.pending.getD (hash_pending 9) [])).isSome = true) ∧
    ((¬ ∃ b, b < NUM_BUCKETS ∧ ∃ p ∈ seven_outstanding.pending.getD b [], p.id = 9) →
      replied_rw seven_outstanding
          { id := 9, count := 1,
            ranges := [{ range := { chunk := 0, chunks := 1 }, physical := [] }] }
          Rw.WRITE false false (fun _ => 0) =
        Outcome.ok (-1, seven_outstanding, [])) :=
  replied_rw_lookup 16 7 seven_outstanding seven_outstanding_reachable
    9 0 [] Rw.WRITE false false (fun _ => 0)

/-! ## Identifier uniqueness: claim C6 -/

theorem all_ids_count (info : devinfo) (i : Nat) :
    (all_ids info).count i = idc i info.queries + idc i info.pending.flatten := by
  unfold all_ids idc
  rw [List.count_eq_countP, List.countP_map, List.countP_append]
  rfl

theorem idc_flatten_set (i : Nat) (l : List (List pending)) :
    ∀ (b : Nat) (x : List pending), b < l.length →
      idc i (l.set b x).flatten + idc i (l.getD b []) = idc i l.flatten + idc i x := by
  induction l with
  | nil => intro b x hb; exact absurd hb (Nat.not_lt_zero _)
  | cons a l ih =>
    intro b x hb
    cases b with
    | zero =>
      simp only [List.set_cons_zero, List.flatten_cons, idc, List.countP_append,
        List.getD_cons_zero]
      omega
    | succ b =>
      have := ih b x (by simpa using hb)
      simp only [List.set_cons_succ, List.flatten_cons, idc, List.countP_append,
        List.getD_cons_succ] at this ⊢
      omega

theorem removed_idc_le (id i : Nat) (l l' : List (List pending)) (h : Removed id l l') :
    idc i l'.flatten ≤ idc i l.flatten := by
  induction h with
  | refl l => exact Nat.le_refl _
  | step l p rest l' hfind _ ih =>
    obtain ⟨pre, post, hl, hr, _, _⟩ := find_pending_some id _ p rest hfind
    refine Nat.le_trans ih ?_
    by_cases hb : hash_pending id < l.length
    · have := idc_flatten_set i l (hash_pending id) rest hb
      rw [hl, hr] at this
      simp only [idc, List.countP_append, List.countP_cons] at this
      rw [hr]
      simp only [idc, List.countP_append]
      omega
    · rw [List.set_eq_of_length_le (not_lt.mp hb)]

theorem step_wrap_inv (ID_BITS : Nat) (hid : ID_BITS ≤ 32) (info : devinfo) (n : Nat)
    (a : Act) (info' : devinfo) (n' : Nat)
    (h : step ID_BITS info n a = some (info', n')) (hinv : wrap_inv ID_BITS n info)
    (hn : n' ≤ 2 ^ ID_BITS) : wrap_inv ID_BITS n' info' := by
  have hb := step_bucket_inv ID_BITS info n a info' n' h hinv.1
  refine ⟨hb, ?_⟩
  obtain ⟨hbi, hnext, hcnt⟩ := hinv
  cases a with
  | connect_server sock off len err =>
    simp only [step, Option.some.injEq, Prod.mk.injEq] at h
    obtain ⟨h1, h2⟩ := h
    subst h1 h2
    obtain ⟨e1, e2, e3⟩ := control_connect_server_frame info sock off len err
    rw [e1, e2, e3]
    exact ⟨hnext, hcnt⟩
  | report_error =>
    simp only [step] at h
    cases hm : report_error info with
    | ok info1 =>
      rw [hm] at h
      simp only [Option.some.injEq, Prod.mk.injEq] at h
      obtain ⟨h1, h2⟩ := h
      subst h1 h2
      obtain ⟨e1, e2, e3⟩ := report_error_frame info info1 hm
      rw [e1, e2, e3]
      exact ⟨hnext, hcnt⟩
    | BUG => rw [hm] at h; cases h
    | overrun => rw [hm] at h; cases h
    | blocked => rw [hm] at h; cases h
  | identify_ok k =>
    simp only [step, Option.some.injEq, Prod.mk.injEq] at h
    obtain ⟨h1, h2⟩ := h
    subst h1 h2
    exact ⟨hnext, hcnt⟩
  | map b =>
    simp only [step] at h
    cases hm : ddsnap_map ID_BITS info b with
    | ok r =>
      obtain ⟨ret, info1, b1⟩ := r
      rw [hm] at h
      simp only [Option.some.injEq, Prod.mk.injEq] at h
      obtain ⟨h1, h2⟩ := h
      subst h1
      rcases ddsnap_map_cases ID_BITS info b ret info1 b1 hid hm with ⟨hr, he⟩ | ⟨hr, _, he⟩
      · rw [if_neg hr] at h2
        subst h2 he
        exact ⟨hnext, hcnt⟩
      · rw [if_pos hr] at h2
        subst h2
        have hlt : n < 2 ^ ID_BITS := hn
        have hnid : info.nextid = n := by rw [hnext, Nat.mod_eq_of_lt hlt]
        rw [he]
        refine ⟨by simp only; rw [hnid], ?_⟩
        intro i
        have := hcnt i
        simp only [idc, List.countP_cons, beq_iff_eq] at this ⊢
        rw [hnid]
        rcases Nat.lt_trichotomy i n with hi | hi | hi
        · rw [if_pos hi] at this
          rw [if_pos (by omega : i < n + 1), if_neg (by omega : ¬ n = i)]
          omega
        · subst hi
          rw [if_neg (Nat.lt_irrefl _)] at this
          rw [if_pos (Nat.lt_succ_self _), if_pos rfl]
          omega
        · rw [if_neg (by omega : ¬ i < n)] at this
          rw [if_neg (by omega : ¬ i < n + 1), if_neg (by omega : ¬ n = i)]
          omega
    | BUG => rw [hm] at h; cases h
    | overrun => rw [hm] at h; cases h
    | blocked => rw [hm] at h; cases h
  | send err =>
    simp only [step] at h
    cases hm : worker_query_iter info err with
    | ok r =>
      obtain ⟨nx, info1, ev⟩ := r
      rw [hm] at h
      simp only [Option.some.injEq, Prod.mk.injEq] at h
      obtain ⟨h1, h2⟩ := h
      subst h1 h2
      have key : ∀ (qs : List pending) (p : pending), info.queries = qs ++ [p] →
          ∀ i, idc i qs + idc i (info.pending.set (hash_pending p.id)
            (p :: info.pending.getD (hash_pending p.id) [])).flatten ≤
              if i < n then 1 else 0 := by
        intro qs p hqs i
        have h1 := hcnt i
        have h2 := idc_flatten_set i info.pending (hash_pending p.id)
          (p :: info.pending.getD (hash_pending p.id) [])
          (by rw [hbi.1]; exact hash_pending_lt _)
        rw [hqs] at h1
        simp only [idc, List.countP_append, List.countP_cons, List.countP_nil] at h1 h2 ⊢
        omega
      rcases worker_query_iter_cases info err nx info1 ev hm with
        ⟨_, he, _⟩ | ⟨qs, p, hqs, _, _, _, ⟨_, _, he⟩ | ⟨_, _, he⟩⟩
      · subst he; exact ⟨hnext, hcnt⟩
      · rw [he]; exact ⟨hnext, key qs p hqs⟩
      · rw [he]; exact ⟨hnext, key qs p hqs⟩
    | BUG => rw [hm] at h; cases h
    | overrun => rw [hm] at h; cases h
    | blocked => rw [hm] at h; cases h
  | reply body rw snap failed_io alloc =>
    simp only [step] at h
    cases hm : replied_rw info body rw snap failed_io alloc with
    | ok r =>
      obtain ⟨ret, info1, ev⟩ := r
      rw [hm] at h
      simp only [Option.some.injEq, Prod.mk.injEq] at h
      obtain ⟨h1, h2⟩ := h
      subst h1 h2
      obtain ⟨hrem, hq, hnx⟩ := replied_rw_frame info body rw snap failed_io alloc _ hm
      simp only at hrem hq hnx
      refine ⟨by rw [hnx]; exact hnext, ?_⟩
      intro i
      have h1 := removed_idc_le body.id i _ _ hrem
      have h2 := hcnt i
      rw [hq]
      omega
    | BUG => rw [hm] at h; cases h
    | overrun => rw [hm] at h; cases h
    | blocked => rw [hm] at h; cases h
  | requeue =>
    simp only [step, Option.some.injEq, Prod.mk.injEq] at h
    obtain ⟨h1, h2⟩ := h
    subst h1 h2
    rw [requeue_queries_eq info hbi.1]
    refine ⟨hnext, ?_⟩
    intro i
    have := hcnt i
    have hnil : (List.replicate NUM_BUCKETS ([] : List pending)).flatten = [] := by decide
    simp only [hnil, idc, List.countP_append, List.countP_reverse, List.countP_nil] at this ⊢
    omega
  | other info1 =>
    simp only [step] at h
    split_ifs at h with hc
    simp only [Option.some.injEq, Prod.mk.injEq] at h
    obtain ⟨h1, h2⟩ := h
    subst h1 h2
    rw [hc.1, hc.2.1, hc.2.2]
    exact ⟨hnext, hcnt⟩

theorem step_count_mono (ID_BITS : Nat) (info : devinfo) (n : Nat) (a : Act)
    (info' : devinfo) (n' : Nat) (h : step ID_BITS info n a = some (info', n')) : n ≤ n' := by
  cases a with
  | map b =>
    simp only [step] at h
    cases hm : ddsnap_map ID_BITS info b with
    | ok r =>
      rw [hm] at h
      simp only [Option.some.injEq, Prod.mk.injEq] at h
      rw [← h.2]
      split_ifs <;> omega
    | BUG => rw [hm] at h; cases h
    | overrun => rw [hm] at h; cases h
    | blocked => rw [hm] at h; cases h
  | identify_ok k =>
    simp only [step, Option.some.injEq, Prod.mk.injEq] at h
    omega
  | connect_server sock off len err =>
    simp only [step, Option.some.injEq, Prod.mk.injEq] at h
    omega
  | report_error =>
    simp only [step] at h
    cases hm : report_error info with
    | ok r =>
      rw [hm] at h
      simp only [Option.some.injEq, Prod.mk.injEq] at h
      omega
    | BUG => rw [hm] at h; cases h
    | overrun => rw [hm] at h; cases h
    | blocked => rw [hm] at h; cases h
  | send err =>
    simp only [step] at h
    cases hm : worker_query_iter info err with
    | ok r =>
      rw [hm] at h
      simp only [Option.some.injEq, Prod.mk.injEq] at h
      omega
    | BUG => rw [hm] at h; cases h
    | overrun => rw [hm] at h; cases h
    | blocked => rw [hm] at h; cases h
  | reply body rw snap failed_io alloc =>
    simp only [step] at h
    cases hm : replied_rw info body rw snap failed_io alloc with
    | ok r =>
      rw [hm] at h
      simp only [Option.some.injEq, Prod.mk.injEq] at h
      omega
    | BUG => rw [hm] at h; cases h
    | overrun => rw [hm] at h; cases h
    | blocked => rw [hm] at h; cases h
  | requeue =>
    simp only [step, Option.some.injEq, Prod.mk.injEq] at h
    omega
  | other info1 =>
    simp only [step] at h
    split_ifs at h with hc
    simp only [Option.some.injEq, Prod.mk.injEq] at h
    omega

theorem run_count_mono (ID_BITS : Nat) (acts : List Act) :
    ∀ (info : devinfo) (n : Nat) (info' : devinfo) (n' : Nat),
      run ID_BITS acts info n = some (info', n') → n ≤ n' := by
  induction acts with
  | nil =>
    intro info n info' n' h
    simp only [run, Option.some.injEq, Prod.mk.injEq] at h
    omega
  | cons a acts ih =>
    intro info n info' n' h
    simp only [run] at h
    cases hs : step ID_BITS info n a with
    | none => rw [hs] at h; cases h
    | some r =>
      obtain ⟨info1, n1⟩ := r
      rw [hs] at h
      exact Nat.le_trans (step_count_mono ID_BITS info n a info1 n1 hs) (ih info1 n1 info' n' h)

theorem run_wrap_inv (ID_BITS : Nat) (hid : ID_BITS ≤ 32) (acts : List Act) :
    ∀ (info : devinfo) (n : Nat) (info' : devinfo) (n' : Nat),
      run ID_BITS acts info n = some (info', n') → wrap_inv ID_BITS n info →
      n' ≤ 2 ^ ID_BITS → wrap_inv ID_BITS n' info' := by
  induction acts with
  | nil =>
    intro info n info' n' h hinv _
    simp only [run, Option.some.injEq, Prod.mk.injEq] at h
    rw [← h.1, ← h.2]; exact hinv
  | cons a acts ih =>
    intro info n info' n' h hinv hn
    simp only [run] at h
    cases hs : step ID_BITS info n a with
    | none => rw [hs] at h; cases h
    | some r =>
      obtain ⟨info1, n1⟩ := r
      rw [hs] at h
      have hmono := run_count_mono ID_BITS acts info1 n1 info' n' h
      exact ih info1 n1 info' n' h
        (step_wrap_inv ID_BITS hid info n a info1 n1 hs hinv (Nat.le_trans hmono hn)) hn

theorem wrap_inv_create (ID_BITS : Nat) (snap : Int) (snapdev orgdev control_socket : Nat) :
    wrap_inv ID_BITS 0 (ddsnap_create snap snapdev orgdev control_socket) := by
  refine ⟨bucket_inv_create snap snapdev orgdev control_socket, ?_, ?_⟩
  · simp [ddsnap_create]
  · intro i
    have hnil : (List.replicate NUM_BUCKETS ([] : List pending)).flatten = [] := by decide
    simp [ddsnap_create, idc, hnil]

theorem run_append (ID_BITS : Nat) (l1 l2 : List Act) :
    ∀ (info : devinfo) (n : Nat) (info1 : devinfo) (n1 : Nat),
      run ID_BITS l1 info n = some (info1, n1) →
      run ID_BITS (l1 ++ l2) info n = run ID_BITS l2 info1 n1 := by
  induction l1 with
  | nil =>
    intro info n info1 n1 h
    simp only [run, Option.some.injEq, Prod.mk.injEq] at h
    rw [← h.1, ← h.2]; rfl
  | cons a l1 ih =>
    intro info n info1 n1 h
    simp only [run, List.cons_append] at h ⊢
    cases hs : step ID_BITS info n a with
    | none => rw [hs] at h; cases h
    | some r =>
      obtain ⟨info2, n2⟩ := r
      rw [hs] at h
      simp only at h ⊢
      exact ih info2 n2 info1 n1 h

theorem wraps_mono (ID_BITS m d : Nat) : wraps ID_BITS m ≤ wraps ID_BITS (m + d) := by
  induction d with
  | zero => exact Nat.le_refl _
  | succ d ih =>
    rw [← Nat.add_assoc, wraps]
    omega

theorem wraps_after_wrap (ID_BITS : Nat) : 2 ≤ wraps ID_BITS (2 ^ ID_BITS + 1) := by
  have h1 : wraps ID_BITS 1 = 1 := by simp [wraps]
  have h2 : wraps ID_BITS 1 ≤ wraps ID_BITS (1 + (2 ^ ID_BITS - 1)) := wraps_mono ID_BITS 1 _
  have hpos : 0 < 2 ^ ID_BITS := Nat.two_pow_pos ID_BITS
  have h3 : 1 + (2 ^ ID_BITS - 1) = 2 ^ ID_BITS := by omega
  rw [h3] at h2
  rw [wraps, Nat.mod_self, if_pos rfl]
  omega

/-- Repeated queueing calls of `ddsnap_map`: the counter advances modulo
`2^ID_BITS` and id 0 is handed out once per wrap. -/
theorem run_maps (ID_BITS : Nat) (hid : ID_BITS ≤ 32) (b : bio) (m : Nat) :
    ∀ (info : devinfo) (n : Nat),
      info.flags &&& READY_FLAG ≠ 0 →
      (b.dir = Rw.WRITE ∨ info.flags &&& IS_SNAP_FLAG ≠ 0) →
      b.bi_size ≤ int_shift_one info.chunksize_bits →
      info.nextid = n % 2 ^ ID_BITS →
      ∃ info', run ID_BITS (List.replicate m (Act.map b)) info n = some (info', n + m) ∧
        idc 0 info'.queries + wraps ID_BITS n = idc 0 info.queries + wraps ID_BITS (n + m) ∧
        info'.pending = info.pending ∧ info'.flags = info.flags ∧
        info'.server_out_sem = info.server_out_sem ∧
        info'.queries.length = info.queries.length + m := by
  induction m with
  | zero =>
    intro info n _ _ _ _
    exact ⟨info, rfl, rfl, rfl, rfl, rfl, rfl⟩
  | succ m ih =>
    intro info n hready hquery hsize hnext
    have hmap := ddsnap_map_query_eq ID_BITS info b hid hready hquery hsize
    obtain ⟨info', hrun, hcnt, hp, hf, hs, hl⟩ := ih
      { info with
        nextid := (info.nextid + 1) % 2 ^ ID_BITS
        queries :=
          { id := info.nextid, chunk := b.bi_sector >>> info.chunkshift, chunks := 1,
            bio := { b with bi_bdev := info.orgdev } } :: info.queries
        more_work_sem := info.more_work_sem + 1 }
      (n + 1) hready hquery hsize
      (by simp only; rw [hnext, Nat.add_mod, Nat.mod_mod, ← Nat.add_mod])
    refine ⟨info', ?_, ?_, hp, hf, hs, ?_⟩
    · rw [List.replicate_succ, run]
      simp only [step, hmap, if_true]
      rw [hrun]
      congr 2
      omega
    · have hw : wraps ID_BITS (n + 1) =
          wraps ID_BITS n + if n % 2 ^ ID_BITS = 0 then 1 else 0 := rfl
      have e : n + 1 + m = n + (m + 1) := by omega
      rw [e] at hcnt
      simp only [idc, List.countP_cons, beq_iff_eq] at hcnt ⊢
      rw [hnext] at hcnt
      omega
    · rw [hl]
      simp only [List.length_cons]
      omega

theorem worker_query_iter_again (info : devinfo) (qs : List pending) (p : pending)
    (hq : info.queries = qs ++ [p]) (hrun : worker_running info = true)
    (hsem : 0 < info.server_out_sem) :
    worker_query_iter info 0 =
      Outcome.ok (Next.again,
        { info with
          queries := qs
          pending := info.pending.set (hash_pending p.id)
            (p :: info.pending.getD (hash_pending p.id) []) },
        [query_message p]) := by
  have hlast : info.queries.getLast? = some p := by rw [hq]; simp
  have hdrop : info.queries.dropLast = qs := by rw [hq]; simp
  have hne : info.server_out_sem ≠ 0 := Nat.pos_iff_ne_zero.mp hsem
  have hsem' : info.server_out_sem - 1 + 1 = info.server_out_sem := by omega
  simp only [worker_query_iter, hlast, hrun, hdrop]
  simp [hne, hsem']

/-- Repeated passes of the query drain move the whole query queue into the
buckets. -/
theorem run_sends (ID_BITS : Nat) (m : Nat) :
    ∀ (info : devinfo) (n : Nat),
      info.queries.length = m → worker_running info = true → 0 < info.server_out_sem →
      bucket_inv info →
      ∃ info', run ID_BITS (List.replicate m (Act.send 0)) info n = some (info', n) ∧
        ∀ i, idc i info'.pending.flatten = idc i info.pending.flatten + idc i info.queries := by
  induction m with
  | zero =>
    intro info n hlen _ _ _
    have : info.queries = [] := List.length_eq_zero.mp hlen
    exact ⟨info, rfl, fun i => by simp [this, idc]⟩
  | succ m ih =>
    intro info n hlen hrun hsem hinv
    rcases List.eq_nil_or_concat info.queries with hq | ⟨qs, p, hq⟩
    · rw [hq] at hlen; cases hlen
    · rw [List.concat_eq_append] at hq
      have hiter := worker_query_iter_again info qs p hq hrun hsem
      have hlen' : qs.length = m := by
        have : info.queries.length = qs.length + 1 := by rw [hq]; simp
        omega
      have hinv' : bucket_inv
          { info with
            queries := qs
            pending := info.pending.set (hash_pending p.id)
              (p :: info.pending.getD (hash_pending p.id) []) } := by
        apply bucket_inv_of_pending_eq
          { info with
            pending := info.pending.set (hash_pending p.id)
              (p :: info.pending.getD (hash_pending p.id) []) } _ rfl
        apply bucket_inv_set info _ _ hinv
        intro q hq'
        rcases List.mem_cons.mp hq' with rfl | hq'
        · rfl
        · exact hinv.2 _ q hq'
      obtain ⟨info', hr, hc⟩ := ih
        { info with
          queries := qs
          pending := info.pending.set (hash_pending p.id)
            (p :: info.pending.getD (hash_pending p.id) []) }
        n hlen' (by simpa [worker_running] using hrun) hsem hinv'
      refine ⟨info', ?_, ?_⟩
      · rw [List.replicate_succ, run]
        simp only [step, hiter]
        exact hr
      · intro i
        have h1 := hc i
        have h2 := idc_flatten_set i info.pending (hash_pending p.id)
          (p :: info.pending.getD (hash_pending p.id) [])
          (by rw [hinv.1]; exact hash_pending_lt _)
        simp only at h1
        rw [hq]
        simp only [idc, List.countP_append, List.countP_cons, List.countP_nil] at h1 h2 ⊢
        omega

/-- For every width of the id counter, `2^ID_BITS + 1` writes mapped one
after another on a ready snapshot device and then queried, with no reply
arrived, leave two records with id 0 in the buckets. -/
theorem id_wrap_collision (ID_BITS : Nat) (hid : ID_BITS ≤ 32) :
    ∃ info, Reachable ID_BITS (2 ^ ID_BITS + 1) info ∧
      ¬ (info.pending.flatten.map pending.id).Nodup := by
  have hready : snap_ready.flags &&& READY_FLAG ≠ 0 := by decide
  obtain ⟨infoA, hrunA, hcnt, hp, hf, hs, hl⟩ :=
    run_maps ID_BITS hid (write_at 0) (2 ^ ID_BITS + 1) snap_ready 0 hready
      (Or.inl rfl) (by decide)
      (by have h0 : snap_ready.nextid = 0 := by decide
          rw [h0, Nat.zero_mod])
  have hinvA : bucket_inv infoA :=
    bucket_inv_of_pending_eq snap_ready infoA hp
      (bucket_inv_of_pending_eq (ddsnap_create 0 2 1 3) snap_ready (by decide)
        (bucket_inv_create 0 2 1 3))
  have hrunning : worker_running infoA = true := by
    unfold worker_running; rw [hf]; decide
  obtain ⟨infoB, hrunB, hc⟩ :=
    run_sends ID_BITS (2 ^ ID_BITS + 1) infoA (0 + (2 ^ ID_BITS + 1))
      (by have h0 : snap_ready.queries.length = 0 := by decide
          rw [hl, h0]; omega)
      hrunning (by rw [hs]; decide) hinvA
  refine ⟨infoB, ⟨0, 2, 1, 3,
    Act.connect_server 7 0 1024 0 :: Act.identify_ok 12 ::
      (List.replicate (2 ^ ID_BITS + 1) (Act.map (write_at 0)) ++
        List.replicate (2 ^ ID_BITS + 1) (Act.send 0)), ?_⟩, ?_⟩
  · rw [run]
    simp only [step]
    rw [run]
    simp only [step]
    show run ID_BITS (_ ++ _) snap_ready 0 = _
    rw [run_append ID_BITS _ _ _ _ _ _ hrunA, hrunB]
    simp
  · intro hnd
    have h0 := hc 0
    have hq0 : idc 0 snap_ready.queries = 0 := by decide
    have hp0 : idc 0 infoA.pending.flatten = 0 := by rw [hp]; decide
    have hw := wraps_after_wrap ID_BITS
    have hw0 : wraps ID_BITS 0 = 0 := rfl
    simp only [hq0, hw0, Nat.zero_add, Nat.add_zero] at hcnt
    have hcount : (infoB.pending.flatten.map pending.id).count 0 = idc 0 infoB.pending.flatten := by
      rw [List.count_eq_countP, List.countP_map]; rfl
    have := List.nodup_iff_count_le_one.mp hnd 0
    omega

/-- C6, counterexample.  With `ID_BITS = 2`, five writes are mapped one
after another and their queries sent, no reply having arrived: the fifth
record gets id 0 like the first, and both lie in bucket 0.  The same
happens for every width of the id counter after `2^ID_BITS + 1` maps. -/
theorem id_wrap_counterexample :
    (run 2 wrap_trace (ddsnap_create 0 2 1 3) 0 = some (wrap_state, 5) ∧
      wrap_state.pending.getD 0 [] =
        [{ id := 0, chunk := 4, chunks := 1, bio := { write_at 32 with bi_bdev := 1 } },
         { id := 0, chunk := 0, chunks := 1, bio := { write_at 0 with bi_bdev := 1 } }] ∧
      ¬ (wrap_state.pending.flatten.map pending.id).Nodup) ∧
    (∀ ID_BITS, ID_BITS ≤ 32 →
      ∃ info, Reachable ID_BITS (2 ^ ID_BITS + 1) info ∧
        ¬ (info.pending.flatten.map pending.id).Nodup) :=
  ⟨by decide, id_wrap_collision⟩

/-- Uniqueness before the first wrap: in every state reached from a
freshly created device by a trace in which at most `2^ID_BITS` calls of
`ddsnap_map` have queued a record, no two records of the query queue and
the buckets together have the same id; in particular no two records in
the buckets do. -/
theorem id_unique_until_wrap (ID_BITS n : Nat) (hid : ID_BITS ≤ 32) (info : devinfo)
    (hreach : Reachable ID_BITS n info) (hn : n ≤ 2 ^ ID_BITS) :
    (all_ids info).Nodup ∧ (info.pending.flatten.map pending.id).Nodup := by
  obtain ⟨snap, snapdev, orgdev, cs, acts, hrun⟩ := hreach
  have hinv := run_wrap_inv ID_BITS hid acts _ _ _ _ hrun
    (wrap_inv_create ID_BITS snap snapdev orgdev cs) hn
  have hall : (all_ids info).Nodup := by
    rw [List.nodup_iff_count_le_one]
    intro i
    rw [all_ids_count]
    have := hinv.2.2 i
    split_ifs at this <;> omega
  refine ⟨hall, ?_⟩
  unfold all_ids at hall
  rw [List.map_append] at hall
  exact (List.nodup_append.mp hall).2.1

/-- An instance of uniqueness before the first wrap: seven queries
outstanding with `ID_BITS = 16`. -/
theorem id_unique_until_wrap_witness :
    (all_ids seven_outstanding).Nodup ∧
    (seven_outstanding.pending.flatten.map pending.id).Nodup :=
  id_unique_until_wrap 16 7 (by decide) seven_outstanding
    seven_outstanding_reachable (by decide)

theorem step_unique_inv (ID_BITS : Nat) (hid : ID_BITS ≤ 32) (info : devinfo) (n : Nat)
    (a : Act) (info' : devinfo) (n' : Nat)
    (h : step ID_BITS info n a = some (info', n'))
    (hre : reissues ID_BITS info a = false)
    (hinv : unique_inv info) : unique_inv info' := by
  have hb := step_bucket_inv ID_BITS info n a info' n' h hinv.1
  refine ⟨hb, ?_⟩
  obtain ⟨hbi, hcnt⟩ := hinv
  cases a with
  | connect_server sock off len err =>
    simp only [step, Option.some.injEq, Prod.mk.injEq] at h
    obtain ⟨h1, h2⟩ := h
    subst h1 h2
    obtain ⟨e1, e2, _⟩ := control_connect_server_frame info sock off len err
    rw [e1, e2]
    exact hcnt
  | report_error =>
    simp only [step] at h
    cases hm : report_error info with
    | ok info1 =>
      rw [hm] at h
      simp only [Option.some.injEq, Prod.mk.injEq] at h
      obtain ⟨h1, h2⟩ := h
      subst h1 h2
      obtain ⟨e1, e2, _⟩ := report_error_frame info info1 hm
      rw [e1, e2]
      exact hcnt
    | _ => rw [hm] at h; cases h
  | identify_ok k =>
    simp only [step, Option.some.injEq, Prod.mk.injEq] at h
    obtain ⟨h1, h2⟩ := h
    subst h1 h2
    exact hcnt
  | map b =>
    simp only [step] at h
    cases hm : ddsnap_map ID_BITS info b with
    | ok r =>
      obtain ⟨ret, info1, b1⟩ := r
      rw [hm] at h
      simp only [Option.some.injEq, Prod.mk.injEq] at h
      obtain ⟨h1, _⟩ := h
      subst h1
      rcases ddsnap_map_cases ID_BITS info b ret info1 b1 hid hm with ⟨_, he⟩ | ⟨hr, _, he⟩
      · subst he
        exact hcnt
      · simp only [reissues, hm, hr, decide_True, Bool.true_and, decide_eq_false_iff_not]
          at hre
        have hzero : idc info.nextid info.queries + idc info.nextid info.pending.flatten = 0 := by
          rw [← all_ids_count]
          exact List.count_eq_zero.mpr hre
        rw [he]
        intro i
        have := hcnt i
        simp only [idc, List.countP_cons, beq_iff_eq] at this hzero ⊢
        by_cases hi : info.nextid = i
        · subst hi
          rw [if_pos rfl]
          omega
        · rw [if_neg hi]
          omega
    | _ => rw [hm] at h; cases h
  | send err =>
    simp only [step] at h
    cases hm : worker_query_iter info err with
    | ok r =>
      obtain ⟨nx, info1, ev⟩ := r
      rw [hm] at h
      simp only [Option.some.injEq, Prod.mk.injEq] at h
      obtain ⟨h1, h2⟩ := h
      subst h1 h2
      have key : ∀ (qs : List pending) (p : pending), info.queries = qs ++ [p] →
          ∀ i, idc i qs + idc i (info.pending.set (hash_pending p.id)
            (p :: info.pending.getD (hash_pending p.id) [])).flatten ≤ 1 := by
        intro qs p hqs i
        have h1 := hcnt i
        have h2 := idc_flatten_set i info.pending (hash_pending p.id)
          (p :: info.pending.getD (hash_pending p.id) [])
          (by rw [hbi.1]; exact hash_pending_lt _)
        rw [hqs] at h1
        simp only [idc, List.countP_append, List.countP_cons, List.countP_nil] at h1 h2 ⊢
        omega
      rcases worker_query_iter_cases info err nx info1 ev hm with
        ⟨_, he, _⟩ | ⟨qs, p, hqs, _, _, _, ⟨_, _, he⟩ | ⟨_, _, he⟩⟩
      · subst he; exact hcnt
      · rw [he]; exact key qs p hqs
      · rw [he]; exact key qs p hqs
    | _ => rw [hm] at h; cases h
  | reply body rw snap failed_io alloc =>
    simp only [step] at h
    cases hm : replied_rw info body rw snap failed_io alloc with
    | ok r =>
      obtain ⟨ret, info1, ev⟩ := r
      rw [hm] at h
      simp only [Option.some.injEq, Prod.mk.injEq] at h
      obtain ⟨h1, h2⟩ := h
      subst h1 h2
      obtain ⟨hrem, hq, _⟩ := replied_rw_frame info body rw snap failed_io alloc _ hm
      simp only at hrem hq
      intro i
      have h1 := removed_idc_le body.id i _ _ hrem
      have h2 := hcnt i
      rw [hq]
      omega
    | _ => rw [hm] at h; cases h
  | requeue =>
    simp only [step, Option.some.injEq, Prod.mk.injEq] at h
    obtain ⟨h1, h2⟩ := h
    subst h1 h2
    rw [requeue_queries_eq info hbi.1]
    intro i
    have := hcnt i
    have hnil : (List.replicate NUM_BUCKETS ([] : List pending)).flatten = [] := by decide
    simp only [hnil, idc, List.countP_append, List.countP_reverse, List.countP_nil] at this ⊢
    omega
  | other info1 =>
    simp only [step] at h
    split_ifs at h with hc
    simp only [Option.some.injEq, Prod.mk.injEq] at h
    obtain ⟨h1, h2⟩ := h
    subst h1 h2
    rw [hc.1, hc.2.1]
    exact hcnt

theorem run_unique_inv (ID_BITS : Nat) (hid : ID_BITS ≤ 32) (acts : List Act) :
    ∀ (info : devinfo) (n : Nat) (info' : devinfo) (n' : Nat),
      run ID_BITS acts info n = some (info', n') → run_fresh ID_BITS acts info n = true →
      unique_inv info → unique_inv info' := by
  induction acts with
  | nil =>
    intro info n info' n' h _ hinv
    simp only [run, Option.some.injEq, Prod.mk.injEq] at h
    rw [← h.1]; exact hinv
  | cons a acts ih =>
    intro info n info' n' h hf hinv
    simp only [run] at h
    cases hs : step ID_BITS info n a with
    | none => rw [hs] at h; cases h
    | some r =>
      obtain ⟨info1, n1⟩ := r
      rw [hs] at h
      simp only [run_fresh, hs, Bool.and_eq_true, Bool.not_eq_true'] at hf
      exact ih info1 n1 info' n' h hf.2
        (step_unique_inv ID_BITS hid info n a info1 n1 hs hf.1 hinv)

theorem unique_inv_create (snap : Int) (snapdev orgdev control_socket : Nat) :
    unique_inv (ddsnap_create snap snapdev orgdev control_socket) := by
  refine ⟨bucket_inv_create snap snapdev orgdev control_socket, ?_⟩
  intro i
  have hnil : (List.replicate NUM_BUCKETS ([] : List pending)).flatten = [] := by decide
  simp [ddsnap_create, idc, hnil]

/-- C6, amended.  In every state reached from a freshly created device by
a trace of connection steps, `ddsnap_map` calls, worker query passes,
replies and `requeue_queries` in which no call of `ddsnap_map` is assigned
an id that a record on the query queue or in a bucket still carries, no
two records of the query queue and the buckets together have the same id.
Every trace with at most `2^ID_BITS` queueing calls of `ddsnap_map` is of
that kind.  `ddsnap_map` does not check: a queueing call whose id is still
carried by a record leaves two records with that id. -/
theorem id_unique_unless_reissued (ID_BITS n : Nat) (hid : ID_BITS ≤ 32) (snap : Int)
    (snapdev orgdev control_socket : Nat) (acts : List Act) (info : devinfo)
    (hrun : run ID_BITS acts (ddsnap_create snap snapdev orgdev control_socket) 0 =
      some (info, n)) :
    ((run_fresh ID_BITS acts (ddsnap_create snap snapdev orgdev control_socket) 0 = true ∨
        n ≤ 2 ^ ID_BITS) →
      (all_ids info).Nodup ∧ (info.pending.flatten.map pending.id).Nodup) ∧
    (∀ (b : bio) (info' : devinfo) (b' : bio),
      ddsnap_map ID_BITS info b = Outcome.ok (0, info', b') →
      info.nextid ∈ all_ids info → ¬ (all_ids info').Nodup) := by
  constructor
  · intro hcase
    have hcnt : ∀ i, idc i info.queries + idc i info.pending.flatten ≤ 1 := by
      rcases hcase with hf | hn
      · exact (run_unique_inv ID_BITS hid acts _ _ _ _ hrun hf
          (unique_inv_create snap snapdev orgdev control_socket)).2
      · have hinv := run_wrap_inv ID_BITS hid acts _ _ _ _ hrun
          (wrap_inv_create ID_BITS snap snapdev orgdev control_socket) hn
        intro i
        have := hinv.2.2 i
        split_ifs at this <;> omega
    have hall : (all_ids info).Nodup := by
      rw [List.nodup_iff_count_le_one]
      intro i
      rw [all_ids_count]
      exact hcnt i
    refine ⟨hall, ?_⟩
    unfold all_ids at hall
    rw [List.map_append] at hall
    exact (List.nodup_append.mp hall).2.1
  · intro b info' b' hm hmem hnd
    rcases ddsnap_map_cases ID_BITS info b 0 info' b' hid hm with ⟨hne, _⟩ | ⟨_, _, he⟩
    · exact hne rfl
    · rw [he] at hnd
      simp only [all_ids, List.cons_append, List.map_cons, List.nodup_cons] at hnd
      exact hnd.1 hmem

/-- Witness of C6 amended: with `ID_BITS = 2`, eight writes each answered
before the next is mapped and two more left on the queue: ten queueing
calls, more than `2^ID_BITS`, no id handed out while in use, and the ids
of the two records left are different. -/
theorem id_unique_unless_reissued_witness :
    run 2 answered_trace (ddsnap_create 0 2 1 3) 0 = some (answered_state, 10) ∧
    run_fresh 2 answered_trace (ddsnap_create 0 2 1 3) 0 = true ∧
    all_ids answered_state = [1, 0] ∧
    (all_ids answered_state).Nodup ∧
    (answered_state.pending.flatten.map pending.id).Nodup :=
  ⟨by decide, by decide, by decide,
    ((id_unique_unless_reissued 2 10 (by decide) 0 2 1 3 answered_trace answered_state
      (by decide)).1 (Or.inl (by decide))).1,
    ((id_unique_unless_reissued 2 10 (by decide) 0 2 1 3 answered_trace answered_state
      (by decide)).1 (Or.inl (by decide))).2⟩

/-! ## Recovery ordering: claim C10 -/

theorem ddsnap_map_queries (ID_BITS : Nat) (info : devinfo) (b : bio) (ret : Int)
    (info' : devinfo) (b' : bio)
    (h : ddsnap_map ID_BITS info b = Outcome.ok (ret, info', b')) :
    (ret ≠ 0 ∧ info'.queries = info.queries) ∨
    (ret = 0 ∧ ∃ p, info'.queries = p :: info.queries) := by
  unfold ddsnap_map at h
  by_cases hready : info.flags &&& READY_FLAG = 0
  · rw [if_pos hready] at h
    simp only [Outcome.ok.injEq, Prod.mk.injEq] at h
    exact Or.inl ⟨by rw [← h.1]; decide, by rw [← h.2.1]⟩
  · rw [if_neg hready] at h
    simp only at h
    split_ifs at h with h1 h2
    · simp only [Outcome.ok.injEq, Prod.mk.injEq] at h
      exact Or.inl ⟨by rw [← h.1]; decide, by rw [← h.2.1]⟩
    · simp only [Outcome.ok.injEq, Prod.mk.injEq] at h
      exact Or.inr ⟨h.1.symm, _, by rw [← h.2.1]⟩

theorem qstep_order (ID_BITS : Nat) (base : List pending) (info : devinfo)
    (news : List pending) (sent : List Event) (a : QAct)
    (info' : devinfo) (news' : List pending) (sent' : List Event)
    (h : qstep ID_BITS info news sent a = some (info', news', sent'))
    (hinv : sent ++ info.queries.reverse.map query_message =
      (base ++ news).map query_message) :
    sent' ++ info'.queries.reverse.map query_message =
      (base ++ news').map query_message := by
  cases a with
  | map b =>
    simp only [qstep] at h
    cases hm : ddsnap_map ID_BITS info b with
    | ok r =>
      obtain ⟨ret, info1, b1⟩ := r
      rw [hm] at h
      simp only [Option.some.injEq, Prod.mk.injEq] at h
      obtain ⟨h1, h2, h3⟩ := h
      subst h1 h3
      rcases ddsnap_map_queries ID_BITS info b ret info1 b1 hm with ⟨hr, hq⟩ | ⟨hr, p, hq⟩
      · rw [if_neg hr] at h2
        rw [← h2, hq]; exact hinv
      · rw [if_pos hr] at h2
        rw [← h2, hq]
        simp only [List.reverse_cons, List.map_append, List.take_succ_cons, List.take_zero,
          List.map_cons, List.map_nil, ← List.append_assoc]
        rw [hinv]
        simp
    | BUG => rw [hm] at h; cases h
    | overrun => rw [hm] at h; cases h
    | blocked => rw [hm] at h; cases h
  | send =>
    simp only [qstep] at h
    cases hm : worker_query_iter info 0 with
    | ok r =>
      obtain ⟨nx, info1, ev⟩ := r
      rw [hm] at h
      rcases worker_query_iter_cases info 0 nx info1 ev hm with
        ⟨hnx, he, hev, _⟩ | ⟨qs, p, hqs, _, _, hev, ⟨hnx, _, he⟩ | ⟨_, herr, _⟩⟩
      · subst hnx
        simp only [Option.some.injEq, Prod.mk.injEq] at h
        obtain ⟨h1, h2, h3⟩ := h
        rw [← h1, ← h2, ← h3, he, hev]
        simpa using hinv
      · subst hnx
        simp only [Option.some.injEq, Prod.mk.injEq] at h
        obtain ⟨h1, h2, h3⟩ := h
        rw [← h1, ← h2, ← h3, he, hev]
        rw [hqs] at hinv
        simpa using hinv
      · exact absurd rfl herr
    | BUG => rw [hm] at h; cases h
    | overrun => rw [hm] at h; cases h
    | blocked => rw [hm] at h; cases h
  | other info1 =>
    simp only [qstep] at h
    split_ifs at h with hc
    simp only [Option.some.injEq, Prod.mk.injEq] at h
    obtain ⟨h1, h2, h3⟩ := h
    rw [← h1, ← h2, ← h3, hc]
    exact hinv

theorem qrun_order (ID_BITS : Nat) (base : List pending) (acts : List QAct) :
    ∀ (info : devinfo) (news : List pending) (sent : List Event)
      (info' : devinfo) (news' : List pending) (sent' : List Event),
      qrun ID_BITS acts info news sent = some (info', news', sent') →
      sent ++ info.queries.reverse.map query_message = (base ++ news).map query_message →
      sent' ++ info'.queries.reverse.map query_message =
        (base ++ news').map query_message := by
  induction acts with
  | nil =>
    intro info news sent info' news' sent' h hinv
    simp only [qrun, Option.some.injEq, Prod.mk.injEq] at h
    obtain ⟨h1, h2, h3⟩ := h
    rw [← h1, ← h2, ← h3]; exact hinv
  | cons a acts ih =>
    intro info news sent info' news' sent' h hinv
    simp only [qrun] at h
    cases hs : qstep ID_BITS info news sent a with
    | none => rw [hs] at h; cases h
    | some r =>
      obtain ⟨info1, news1, sent1⟩ := r
      rw [hs] at h
      exact ih info1 news1 sent1 info' news' sent' h
        (qstep_order ID_BITS base info news sent a info1 news1 sent1 hs hinv)

/-- C10, counterexample.  Seven queries (ids 0 to 6) are outstanding when
the socket error is reported; before the worker reaches `requeue_queries`
a write is mapped and queued with id 7; `requeue_queries` puts the seven
bucket records behind it, and the drain after recovery sends the query of
the record mapped after recovery start first, before the seven
retransmits. -/
theorem recovery_order_counterexample :
    recovery_start.flags &&& RECOVER_FLAG ≠ 0 ∧
    recovery_start.queries = [] ∧
    recovery_start.pending.flatten.map pending.id = [0, 1, 2, 3, 4, 5, 6] ∧
    ddsnap_map 16 recovery_start (write_at 56) =
      Outcome.ok (0, late_mapped, { write_at 56 with bi_bdev := 1 }) ∧
    late_mapped.queries.map pending.id = [7] ∧
    (requeue_queries late_mapped).queries.map pending.id = [6, 5, 4, 3, 2, 1, 0, 7] ∧
    worker_running late_recovered = true ∧
    ∃ info', worker_query_drain late_recovered (fun _ => 0) =
      Outcome.ok (Next.done, info',
        Event.outbead Opcode.QUERY_WRITE { id := 7, count := 1, chunk := 7, chunks := 1 } ::
          (List.range 7).map (fun j => Event.outbead Opcode.QUERY_WRITE
            { id := j, count := 1, chunk := j, chunks := 1 })) :=
  ⟨by decide, by decide, by decide, by decide, by decide, by decide, by decide,
    (state_of (worker_query_drain late_recovered (fun _ => 0)) late_recovered), by decide⟩

/-- C10, amended.  After `requeue_queries` has run on a state with `NUM_BUCKETS`
buckets, in every interleaving of `ddsnap_map` calls, passes of the
worker's query drain whose sends succeed, and steps of other parts of the
client, the messages sent so far followed by the messages of the records
still queued (tail first) are at every moment the queries of: the records
that were still queued at recovery start, then every record that was in a
bucket at recovery start (bucket 0 first, each bucket head first), then
the records queued by `ddsnap_map` since, in map order, one `QUERY_*` for
each.  So every record from a bucket is sent once, after the records that
were already queued when `requeue_queries` ran (those mapped between the
error report and `requeue_queries` among them) and before any record
mapped after `requeue_queries`; and from any such moment the drain, with the egress
permit there and the worker running, returns having sent all that is
queued. -/
theorem recovery_order (ID_BITS : Nat) (info0 : devinfo)
    (hlen : info0.pending.length = NUM_BUCKETS) (acts : List QAct)
    (info : devinfo) (news : List pending) (sent : List Event)
    (hrun : qrun ID_BITS acts (requeue_queries info0) [] [] = some (info, news, sent)) :
    sent ++ info.queries.reverse.map query_message =
        info0.queries.reverse.map query_message ++
          info0.pending.flatten.map query_message ++ news.map query_message ∧
    (worker_running info = true → 0 < info.server_out_sem →
      ∃ info', worker_query_drain info (fun _ => 0) =
          Outcome.ok (Next.done, info', info.queries.reverse.map query_message) ∧
        info'.queries = []) := by
  constructor
  · have h := qrun_order ID_BITS (info0.queries.reverse ++ info0.pending.flatten) acts
      (requeue_queries info0) [] [] info news sent hrun
      (by rw [requeue_queries_eq info0 hlen]; simp)
    rw [h]; simp
  · intro hr hs
    obtain ⟨info', h1, h2⟩ :=
      worker_query_loop_drains (info.queries.length + 1) 0 info [] (Nat.lt_succ_self _) hr hs
    exact ⟨info', by simpa [worker_query_drain] using h1, h2⟩

/-- Witness of C10 amended: seven queries (ids 0 to 6) outstanding at recovery
start, one write mapped after `requeue_queries`, then seven passes of the
drain: exactly the seven old queries have been sent, in order, and the new
one is still queued. -/
theorem recovery_order_witness :
    (recovery_result.2.2 ++ recovery_result.1.queries.reverse.map query_message =
        seven_outstanding.queries.reverse.map query_message ++
          seven_outstanding.pending.flatten.map query_message ++
          recovery_result.2.1.map query_message ∧
      (worker_running recovery_result.1 = true → 0 < recovery_result.1.server_out_sem →
        ∃ info', worker_query_drain recovery_result.1 (fun _ => 0) =
            Outcome.ok (Next.done, info',
              recovery_result.1.queries.reverse.map query_message) ∧
          info'.queries = [])) ∧
    recovery_result.2.2 =
      (List.range 7).map (fun j => Event.outbead Opcode.QUERY_WRITE
        { id := j, count := 1, chunk := j, chunks := 1 }) ∧
    recovery_result.1.queries.map pending.id = [7] :=
  ⟨recovery_order 16 seven_outstanding (by decide) recovery_trace
      recovery_result.1 recovery_result.2.1 recovery_result.2.2 (by decide),
    by decide, by decide⟩

/-! ## Lock upload: claim C9 -/

theorem free_releases_eq_nil (l : List hook) (fuel : Nat) (h : l.length ≤ fuel) :
    free_releases fuel l = [] := by
  induction fuel generalizing l with
  | zero =>
    have : l = [] := List.length_eq_zero.mp (Nat.le_zero.mp h)
    simp [free_releases, this]
  | succ fuel ih =>
    unfold free_releases
    by_cases hl : l = []
    · simp [hl]
    · rw [if_neg hl]
      apply ih
      rw [List.length_dropLast]
      omega

theorem upload_walk_eq (chunkshift : Nat) (l : List hook) :
    upload_walk chunkshift l =
      (l.filter (fun h => decide (h.old_end_io ≠ bio_end_io_t.NULL)),
       (l.filter (fun h => decide (h.old_end_io ≠ bio_end_io_t.NULL))).map
         (upload_lock_message chunkshift)) := by
  induction l with
  | nil => rfl
  | cons h rest ih =>
    unfold upload_walk
    by_cases hn : h.old_end_io = bio_end_io_t.NULL
    · simp [hn, ih]
    · simp [hn, ih]

/-- C9. `upload_locks`, run with no completion in between, emits one
`UPLOAD_LOCK` for each hook of the locked list whose captured callback is
not null, in list order, each with `count = 1` and the range
`{chunk = hook.sector >> chunkshift, chunks = 1}`, then one
`FINISH_UPLOAD_LOCK`, and nothing else: with `L` live hooks that is `L + 1`
messages.  Hooks whose captured callback is null contribute no message.
The role of the device is not looked at (the caller tests it). -/
theorem upload_locks_messages (info : devinfo) :
    (upload_locks info).2 =
      (info.locked.filter (fun h => decide (h.old_end_io ≠ bio_end_io_t.NULL))).map
        (fun h => Event.outbead Opcode.UPLOAD_LOCK
          { id := 0, count := 1, chunk := h.sector >>> info.chunkshift, chunks := 1 }) ++
        [Event.outbead_empty Opcode.FINISH_UPLOAD_LOCK] ∧
    (upload_locks info).2.length =
      (info.locked.filter (fun h => decide (h.old_end_io ≠ bio_end_io_t.NULL))).length + 1 := by
  have h : (upload_locks info).2 =
      (info.locked.filter (fun h => decide (h.old_end_io ≠ bio_end_io_t.NULL))).map
        (fun h => Event.outbead Opcode.UPLOAD_LOCK
          { id := 0, count := 1, chunk := h.sector >>> info.chunkshift, chunks := 1 }) ++
        [Event.outbead_empty Opcode.FINISH_UPLOAD_LOCK] := by
    simp only [upload_locks, upload_walk_eq]
    rfl
  refine ⟨h, ?_⟩
  rw [h]
  simp

/-- Witness of C9: two locked reads (chunks 6 and 5, in list order) give
`UPLOAD_LOCK`, `UPLOAD_LOCK`, `FINISH_UPLOAD_LOCK`. -/
theorem upload_locks_messages_witness :
    (upload_locks two_locked).2 =
      [Event.outbead Opcode.UPLOAD_LOCK { id := 0, count := 1, chunk := 6, chunks := 1 },
       Event.outbead Opcode.UPLOAD_LOCK { id := 0, count := 1, chunk := 5, chunks := 1 },
       Event.outbead_empty Opcode.FINISH_UPLOAD_LOCK] :=
  (upload_locks_messages two_locked).1

/-! ## Requeue: claim C19 -/

/-- C19. On a device with `NUM_BUCKETS` buckets holding `n` records in
all, `requeue_queries` empties every bucket, puts those `n` records, each
as it was, in front of the old contents of the query queue, and adds `n`
to `more_work_sem`; every other field (`nextid`, the flags, the locked and
the release list among them) is the old one. -/
theorem requeue_queries_moves_all (info : devinfo)
    (hlen : info.pending.length = NUM_BUCKETS) :
    requeue_queries info =
      { info with
        pending := List.replicate NUM_BUCKETS []
        queries := info.pending.flatten.reverse ++ info.queries
        more_work_sem := info.more_work_sem + info.pending.flatten.length } ∧
    (∀ b, (requeue_queries info).pending.getD b [] = []) ∧
    (requeue_queries info).queries.Perm (info.queries ++ info.pending.flatten) ∧
    (requeue_queries info).nextid = info.nextid ∧
    (requeue_queries info).flags = info.flags ∧
    (requeue_queries info).locked = info.locked ∧
    (requeue_queries info).releases = info.releases := by
  have h := requeue_queries_eq info hlen
  refine ⟨h, ?_, ?_, ?_, ?_, ?_, ?_⟩
  · intro b
    rw [h]
    simp only [List.getD_eq_getElem?_getD]
    by_cases hb : b < NUM_BUCKETS
    · simp [hb]
    · rw [List.getElem?_eq_none (by simpa using hb)]
      rfl
  · rw [h]
    simp only
    exact (List.perm_append_comm).trans
      (List.Perm.append_left _ (List.reverse_perm _))
  · rw [h]
  · rw [h]
  · rw [h]
  · rw [h]

/-- Witness of C19: seven records in the buckets, an empty query queue. -/
theorem requeue_queries_moves_all_witness :
    requeue_queries seven_outstanding =
      { seven_outstanding with
        pending := List.replicate NUM_BUCKETS []
        queries := seven_outstanding.pending.flatten.reverse ++ seven_outstanding.queries
        more_work_sem :=
          seven_outstanding.more_work_sem + seven_outstanding.pending.flatten.length } ∧
    seven_outstanding.pending.flatten.length = 7 :=
  ⟨(requeue_queries_moves_all seven_outstanding (by decide)).1, by decide⟩

/-! ## The error reporter: claim C20 -/

theorem and_or_right (x y z : Nat) : (x ||| y) &&& z = (x &&& z) ||| (y &&& z) := by
  apply Nat.eq_of_testBit_eq
  intro i
  simp only [Nat.testBit_and, Nat.testBit_or]
  cases x.testBit i <;> cases y.testBit i <;> cases z.testBit i <;> rfl

theorem or_ne_zero_of_right (x y : Nat) (hy : y ≠ 0) : x ||| y ≠ 0 := by
  intro h
  apply hy
  apply Nat.eq_of_testBit_eq
  intro i
  have := congrArg (fun n => Nat.testBit n i) h
  simp only [Nat.testBit_or, Nat.zero_testBit, Bool.or_eq_false_iff] at this
  rw [this.2, Nat.zero_testBit]

/-- The flags after `report_error` has set REPORT and RECOVER. -/
theorem report_flags (f : Nat) :
    (f ||| (1 <<< REPORT_BIT) ||| RECOVER_FLAG) &&& (1 <<< REPORT_BIT) ≠ 0 ∧
    (f ||| (1 <<< REPORT_BIT) ||| RECOVER_FLAG) &&& RECOVER_FLAG ≠ 0 ∧
    (f ||| (1 <<< REPORT_BIT) ||| RECOVER_FLAG) &&& IS_SNAP_FLAG = f &&& IS_SNAP_FLAG ∧
    (f ||| (1 <<< REPORT_BIT) ||| RECOVER_FLAG) &&& FINISH_FLAG = f &&& FINISH_FLAG ∧
    (f ||| (1 <<< REPORT_BIT) ||| RECOVER_FLAG) &&& READY_FLAG = f &&& READY_FLAG := by
  have e1 : (1 <<< REPORT_BIT) = 2 := rfl
  have e2 : RECOVER_FLAG = 4 := rfl
  have e3 : IS_SNAP_FLAG = 1 := rfl
  have e4 : FINISH_FLAG = 8 := rfl
  have e5 : READY_FLAG = 16 := rfl
  rw [e1, e2, e3, e4, e5]
  refine ⟨?_, ?_, ?_, ?_, ?_⟩
  · rw [and_or_right, and_or_right]
    have : (4 : Nat) &&& 2 = 0 := rfl
    rw [this, Nat.or_zero]
    exact or_ne_zero_of_right _ _ (by decide)
  · rw [and_or_right]
    exact or_ne_zero_of_right _ _ (by decide)
  · rw [and_or_right, and_or_right]
    have h1 : (2 : Nat) &&& 1 = 0 := rfl
    have h2 : (4 : Nat) &&& 1 = 0 := rfl
    rw [h1, h2, Nat.or_zero, Nat.or_zero]
  · rw [and_or_right, and_or_right]
    have h1 : (2 : Nat) &&& 8 = 0 := rfl
    have h2 : (4 : Nat) &&& 8 = 0 := rfl
    rw [h1, h2, Nat.or_zero, Nat.or_zero]
  · rw [and_or_right, and_or_right]
    have h1 : (2 : Nat) &&& 16 = 0 := rfl
    have h2 : (4 : Nat) &&& 16 = 0 := rfl
    rw [h1, h2, Nat.or_zero, Nat.or_zero]

/-- C20. `report_error` is idempotent.  With REPORT already set it returns
with the state unchanged.  With REPORT unset and a permit on `recover_sem`
it returns with REPORT and RECOVER set, `more_work_sem` one higher,
`recover_sem` one lower and nothing else changed (IS_SNAP, FINISH and READY
are as before).  Whenever a call returns, a second call right after it
returns the same state. -/
theorem report_error_idempotent (info : devinfo) :
    (info.flags &&& (1 <<< REPORT_BIT) ≠ 0 → report_error info = Outcome.ok info) ∧
    (info.flags &&& (1 <<< REPORT_BIT) = 0 → 0 < info.recover_sem →
      report_error info =
        Outcome.ok
          { info with
            flags := info.flags ||| (1 <<< REPORT_BIT) ||| RECOVER_FLAG
            more_work_sem := info.more_work_sem + 1
            recover_sem := info.recover_sem - 1 } ∧
      (info.flags ||| (1 <<< REPORT_BIT) ||| RECOVER_FLAG) &&& (1 <<< REPORT_BIT) ≠ 0 ∧
      (info.flags ||| (1 <<< REPORT_BIT) ||| RECOVER_FLAG) &&& RECOVER_FLAG ≠ 0 ∧
      (info.flags ||| (1 <<< REPORT_BIT) ||| RECOVER_FLAG) &&& IS_SNAP_FLAG =
        info.flags &&& IS_SNAP_FLAG ∧
      (info.flags ||| (1 <<< REPORT_BIT) ||| RECOVER_FLAG) &&& FINISH_FLAG =
        info.flags &&& FINISH_FLAG ∧
      (info.flags ||| (1 <<< REPORT_BIT) ||| RECOVER_FLAG) &&& READY_FLAG =
        info.flags &&& READY_FLAG) ∧
    (∀ info', report_error info = Outcome.ok info' →
      report_error info' = Outcome.ok info') := by
  have hset : info.flags &&& (1 <<< REPORT_BIT) ≠ 0 → report_error info = Outcome.ok info := by
    intro h
    unfold report_error
    rw [if_pos h]
  have hunset : info.flags &&& (1 <<< REPORT_BIT) = 0 → 0 < info.recover_sem →
      report_error info =
        Outcome.ok
          { info with
            flags := info.flags ||| (1 <<< REPORT_BIT) ||| RECOVER_FLAG
            more_work_sem := info.more_work_sem + 1
            recover_sem := info.recover_sem - 1 } := by
    intro h hsem
    unfold report_error
    rw [if_neg (not_not.mpr h)]
    simp only
    rw [if_neg (Nat.pos_iff_ne_zero.mp hsem)]
  refine ⟨hset, ?_, ?_⟩
  · intro h hsem
    exact ⟨hunset h hsem, report_flags info.flags⟩
  · intro info' hcall
    by_cases h : info.flags &&& (1 <<< REPORT_BIT) = 0
    · by_cases hsem : info.recover_sem = 0
      · unfold report_error at hcall
        rw [if_neg (not_not.mpr h)] at hcall
        simp only at hcall
        rw [if_pos hsem] at hcall
        cases hcall
      · rw [hunset h (Nat.pos_of_ne_zero hsem)] at hcall
        simp only [Outcome.ok.injEq] at hcall
        subst hcall
        unfold report_error
        rw [if_pos (report_flags info.flags).1]
    · rw [hset h] at hcall
      simp only [Outcome.ok.injEq] at hcall
      subst hcall
      exact hset h

/-- Witness of C20: the first report on the ready snapshot device sets
REPORT and RECOVER (flags 17 become 23), a second one changes nothing. -/
theorem report_error_idempotent_witness :
    report_error snap_ready =
      Outcome.ok { snap_ready with flags := 23, more_work_sem := 1, recover_sem := 0 } ∧
    report_error { snap_ready with flags := 23, more_work_sem := 1, recover_sem := 0 } =
      Outcome.ok { snap_ready with flags := 23, more_work_sem := 1, recover_sem := 0 } :=
  ⟨((report_error_idempotent snap_ready).2.1 (by decide) (by decide)).1,
   (report_error_idempotent snap_ready).2.2 _
     ((report_error_idempotent snap_ready).2.1 (by decide) (by decide)).1⟩

/-! ## The query drain: claim C18 -/

/-- The hook-installing path of `replied_rw`, written out. -/
theorem replied_rw_hook_eq (info : devinfo) (alloc : Nat → Nat)
    (p : pending) (pre post : List pending) (chunk : Nat) (physical : List Nat)
    (hbucket : info.pending.getD (hash_pending p.id) [] = pre ++ p :: post)
    (hfirst : ∀ q ∈ pre, q.id ≠ p.id)
    (hchunks : p.chunks = 1) :
    replied_rw info
        { id := p.id, count := 1,
          ranges := [{ range := { chunk := chunk, chunks := 1 }, physical := physical }] }
        Rw.READ false false alloc =
      Outcome.ok (0,
        { info with
          pending := info.pending.set (hash_pending p.id) (pre ++ post)
          locked :=
            { addr := alloc 0, sector := p.bio.bi_sector,
              old_end_io := p.bio.bi_end_io, old_private := p.bio.bi_private } ::
              info.locked },
        [Event.generic_make_request
           { p.bio with
             bi_end_io := bio_end_io_t.snapshot_read_end_io
             bi_private := alloc 0 },
         Event.kick info.orgdev, Event.kick info.snapdev]) := by
  unfold replied_rw
  simp only [replied_rw_loop, hbucket, find_pending_append p.id p pre post hfirst rfl,
    hchunks]
  simp

/-- C16. A single-range `REPLY_SNAPSHOT_READ_ORIGIN` (read, origin) whose
id is that of a pending record `p` in its bucket makes `replied_rw` take
`p` out of the bucket, put one new hook at the head of the locked list
with the I/O's sector, callback and context, set the I/O's callback to
`snapshot_read_end_io` and its context to the hook, and submit the I/O
once, device and sector untouched; it returns 0 and kicks both devices.
The release list and everything else are the old ones. -/
theorem replied_rw_read_origin (info : devinfo) (alloc : Nat → Nat)
    (p : pending) (pre post : List pending) (chunk : Nat) (physical : List Nat)
    (hbucket : info.pending.getD (hash_pending p.id) [] = pre ++ p :: post)
    (hfirst : ∀ q ∈ pre, q.id ≠ p.id)
    (hchunks : p.chunks = 1) :
    replied_rw info
        { id := p.id, count := 1,
          ranges := [{ range := { chunk := chunk, chunks := 1 }, physical := physical }] }
        Rw.READ false false alloc =
      Outcome.ok (0,
        { info with
          pending := info.pending.set (hash_pending p.id) (pre ++ post)
          locked :=
            { addr := alloc 0, sector := p.bio.bi_sector,
              old_end_io := p.bio.bi_end_io, old_private := p.bio.bi_private } ::
              info.locked },
        [Event.generic_make_request
           { p.bio with
             bi_end_io := bio_end_io_t.snapshot_read_end_io
             bi_private := alloc 0 },
         Event.kick info.orgdev, Event.kick info.snapdev]) :=
  replied_rw_hook_eq info alloc p pre post chunk physical hbucket hfirst hchunks

/-- Witness of C16: the read of chunk 5 (sector 40) in flight with id 0 is
answered from the origin; the hook is allocated at address 100. -/
theorem replied_rw_read_origin_witness :
    replied_rw read_inflight (reply_origin 0 5) Rw.READ false false (fun _ => 100) =
      Outcome.ok (0,
        { read_inflight with
          pending := read_inflight.pending.set 0 []
          locked := [{ addr := 100, sector := 40, old_end_io := bio_end_io_t.fn 1,
                       old_private := 0 }] },
        [Event.generic_make_request
           { bi_bdev := 1, bi_sector := 40, bi_size := 4096, dir := Rw.READ,
             bi_end_io := bio_end_io_t.snapshot_read_end_io, bi_private := 100 },
         Event.kick 1, Event.kick 2]) :=
  replied_rw_read_origin read_inflight (fun _ => 100)
    { id := 0, chunk := 5, chunks := 1, bio := { read_at 40 with bi_bdev := 1 } }
    [] [] 5 [] (by decide) (by simp) rfl

/-! ## Completion of a hooked read: claim C17 -/

theorem find_hook_append (addr : Nat) (h : hook) (pre post : List hook)
    (hpre : ∀ g ∈ pre, g.addr ≠ addr) (hh : h.addr = addr) :
    find_hook addr (pre ++ h :: post) = some (h, pre ++ post) := by
  induction pre with
  | nil => simp [find_hook, hh]
  | cons g pre ih =>
    have hg : g.addr ≠ addr := hpre g (List.mem_cons_self _ _)
    have ih' := ih (fun r hr => hpre r (List.mem_cons_of_mem _ hr))
    simp [find_hook, hg, ih']

theorem null_hook_append (addr : Nat) (h : hook) (pre post : List hook)
    (hpre : ∀ g ∈ pre, g.addr ≠ addr) (hh : h.addr = addr) :
    null_hook addr (pre ++ h :: post) =
      pre ++ { h with old_end_io := bio_end_io_t.NULL } :: post := by
  induction pre with
  | nil => simp [null_hook, hh]
  | cons g pre ih =>
    have hg : g.addr ≠ addr := hpre g (List.mem_cons_self _ _)
    have ih' := ih (fun r hr => hpre r (List.mem_cons_of_mem _ hr))
    simp [null_hook, hg, ih']

/-- The completion of a hooked read whose hook is on the locked list,
written out for both values of `dont_switch_lists`. -/
theorem snapshot_read_end_io_eq (info : devinfo) (b : bio) (done : Nat)
    (error ret : Int) (h : hook) (pre post : List hook) (a : Nat)
    (hlocked : info.locked = pre ++ h :: post)
    (hfirst : ∀ g ∈ pre, g.addr ≠ h.addr)
    (hpriv : b.bi_private = h.addr)
    (hcb : h.old_end_io = bio_end_io_t.fn a) :
    snapshot_read_end_io info b done error ret =
      some (ret,
        if info.dont_switch_lists = 0 then
          { info with
            locked := pre ++ post
            releases := { h with old_end_io := bio_end_io_t.NULL } :: info.releases
            more_work_sem := info.more_work_sem + 1 }
        else
          { info with
            locked := pre ++ { h with old_end_io := bio_end_io_t.NULL } :: post
            more_work_sem := info.more_work_sem + 1 },
        { b with bi_end_io := h.old_end_io, bi_private := h.old_private },
        [Event.end_io (bio_end_io_t.fn a)
          { b with bi_end_io := h.old_end_io, bi_private := h.old_private } done error]) := by
  have hfind : find_hook b.bi_private info.locked = some (h, pre ++ post) := by
    rw [hlocked, hpriv]
    exact find_hook_append h.addr h pre post hfirst rfl
  have hnull : null_hook h.addr info.locked =
      pre ++ { h with old_end_io := bio_end_io_t.NULL } :: post := by
    rw [hlocked]
    exact null_hook_append h.addr h pre post hfirst rfl
  by_cases hflag : info.dont_switch_lists = 0
  · simp only [snapshot_read_end_io, hfind, end_io_hook, hflag, hcb, if_true]
  · simp only [snapshot_read_end_io, hfind, end_io_hook, hflag, hcb, hnull, if_false, if_true]

/-- C17. For an I/O whose context points to a hook `h` on the locked list
with a captured callback `fn a`, `snapshot_read_end_io` gives the I/O its
captured callback and context back, calls that callback and returns what
it returns, and raises `more_work_sem` by one.  If `dont_switch_lists` is 0
the hook, its captured callback now null, goes from the locked list to the
head of the release list; otherwise it stays in its place on the locked
list, its captured callback now null.  The other hooks stay where they
are and nothing else changes. -/
theorem snapshot_read_end_io_moves (info : devinfo) (b : bio) (done : Nat)
    (error ret : Int) (h : hook) (pre post : List hook) (a : Nat)
    (hlocked : info.locked = pre ++ h :: post)
    (hfirst : ∀ g ∈ pre, g.addr ≠ h.addr)
    (hpriv : b.bi_private = h.addr)
    (hcb : h.old_end_io = bio_end_io_t.fn a) :
    (info.dont_switch_lists = 0 →
      snapshot_read_end_io info b done error ret =
        some (ret,
          { info with
            locked := pre ++ post
            releases := { h with old_end_io := bio_end_io_t.NULL } :: info.releases
            more_work_sem := info.more_work_sem + 1 },
          { b with bi_end_io := h.old_end_io, bi_private := h.old_private },
          [Event.end_io (bio_end_io_t.fn a)
            { b with bi_end_io := h.old_end_io, bi_private := h.old_private } done error])) ∧
    (info.dont_switch_lists ≠ 0 →
      snapshot_read_end_io info b done error ret =
        some (ret,
          { info with
            locked := pre ++ { h with old_end_io := bio_end_io_t.NULL } :: post
            more_work_sem := info.more_work_sem + 1 },
          { b with bi_end_io := h.old_end_io, bi_private := h.old_private },
          [Event.end_io (bio_end_io_t.fn a)
            { b with bi_end_io := h.old_end_io, bi_private := h.old_private } done error])) := by
  have heq := snapshot_read_end_io_eq info b done error ret h pre post a
    hlocked hfirst hpriv hcb
  constructor
  · intro hflag
    rw [heq, if_pos hflag]
  · intro hflag
    rw [heq, if_neg hflag]

/-- Witness of C17: the hooked read of chunk 5 completes while no upload
is in progress; the hook at address 100 moves to the release list. -/
theorem snapshot_read_end_io_moves_witness :
    snapshot_read_end_io read_hooked hooked_read 4096 0 7 =
      some (7,
        { read_hooked with
          locked := []
          releases := [{ addr := 100, sector := 40, old_end_io := bio_end_io_t.NULL,
                         old_private := 0 }]
          more_work_sem := read_hooked.more_work_sem + 1 },
        { hooked_read with bi_end_io := bio_end_io_t.fn 1, bi_private := 0 },
        [Event.end_io (bio_end_io_t.fn 1)
          { hooked_read with bi_end_io := bio_end_io_t.fn 1, bi_private := 0 } 4096 0]) :=
  (snapshot_read_end_io_moves read_hooked hooked_read 4096 0 7
    { addr := 100, sector := 40, old_end_io := bio_end_io_t.fn 1, old_private := 0 }
    [] [] 1 (by decide) (by simp) rfl rfl).1 (by decide)

/-- A second instance of C17, with an upload in progress
(`dont_switch_lists` is 1): the hook stays on the locked list with its
captured callback null. -/
theorem snapshot_read_end_io_stays :
    snapshot_read_end_io { read_hooked with dont_switch_lists := 1 } hooked_read 4096 0 7 =
      some (7,
        { read_hooked with
          dont_switch_lists := 1
          locked := [{ addr := 100, sector := 40, old_end_io := bio_end_io_t.NULL,
                       old_private := 0 }]
          more_work_sem := read_hooked.more_work_sem + 1 },
        { hooked_read with bi_end_io := bio_end_io_t.fn 1, bi_private := 0 },
        [Event.end_io (bio_end_io_t.fn 1)
          { hooked_read with bi_end_io := bio_end_io_t.fn 1, bi_private := 0 } 4096 0]) := by
  decide

/-! ## Protocol errors on the server socket: claim C12 -/

/-- C12, counterexample.  On the ready snapshot device, with `maxbody =
4096`, a head that announces 5000 body bytes and a `REPLY_ORIGIN_WRITE`
with a body of four bytes each make the ingress thread leave through
`out`: the result is `thread_exits`, not `continue_reading`. -/
theorem incoming_protocol_error_counterexample :
    incoming_message 4096 snap_ready 0 (oversize_message (ServerCode.unknown 999)) 0
        (fun _ => 0) =
      Outcome.ok (Ingress.thread_exits, { snap_ready with exit2_sem := 2 }, []) ∧
    incoming_message 4096 snap_ready 0 short_reply 0 (fun _ => 0) =
      Outcome.ok (Ingress.thread_exits, { snap_ready with exit2_sem := 2 }, []) := by
  decide

/-- C12, amended.  With `maxbody` an `int` constant (below `2^31`), while
the device is running and the reads succeed: a message with an unknown
code is dropped and the loop goes on reading, the state unchanged; a head
whose length exceeds `maxbody` and is below `2^31`, and a `REPLY_*` message
(any of the five codes) whose body is shorter than the fixed part of
`rw_request`, make the thread leave through `out`, with nothing changed
but its exit semaphore `exit2_sem` (the pending table, the lists and the
flags are the old ones). -/
theorem incoming_protocol_error (maxbody : Nat) (info : devinfo) (m : messagebuf)
    (berr : Int) (alloc : Nat → Nat) (hrun : running info = true)
    (hmax : maxbody < 2 ^ 31) :
    (∀ c, m.code = ServerCode.unknown c → m.length ≤ maxbody → berr = 0 →
      incoming_message maxbody info 0 m berr alloc =
        Outcome.ok (Ingress.continue_reading, info, [])) ∧
    (maxbody < m.length → m.length < 2 ^ 31 →
      incoming_message maxbody info 0 m berr alloc =
        Outcome.ok (Ingress.thread_exits, { info with exit2_sem := info.exit2_sem + 1 }, [])) ∧
    (m.length ≤ maxbody → berr = 0 → m.length < sizeof_rw_request →
      (m.code = ServerCode.REPLY_ORIGIN_WRITE ∨ m.code = ServerCode.REPLY_SNAPSHOT_WRITE ∨
        m.code = ServerCode.REPLY_SNAPSHOT_READ_ORIGIN ∨
        m.code = ServerCode.REPLY_SNAPSHOT_READ ∨ m.code = ServerCode.REPLY_ERROR) →
      incoming_message maxbody info 0 m berr alloc =
        Outcome.ok (Ingress.thread_exits, { info with exit2_sem := info.exit2_sem + 1 }, [])) := by
  have hrun' : ¬ running info = false := by simp [hrun]
  have _ := hmax
  refine ⟨?_, ?_, ?_⟩
  · intro c hc hlen hb
    unfold incoming_message
    rw [if_neg hrun', if_neg (by simp), if_neg (by omega), if_neg (by simp [hb]), hc]
  · intro hlen h31
    unfold incoming_message
    rw [if_neg hrun', if_neg (by simp), if_pos hlen, if_pos h31]
    rfl
  · intro hlen hb hshort hcode
    unfold incoming_message
    rw [if_neg hrun', if_neg (by simp), if_neg (by omega), if_neg (by simp [hb])]
    rcases hcode with h | h | h | h | h <;>
      · rw [h]
        simp only [incoming_reply]
        rw [if_pos hshort]
        rfl

/-- Witness of C12 amended: on the ready snapshot device with `maxbody =
4096` the unknown code 999 is skipped. -/
theorem incoming_protocol_error_witness :
    incoming_message 4096 snap_ready 0 unknown_message 0 (fun _ => 0) =
      Outcome.ok (Ingress.continue_reading, snap_ready, []) :=
  (incoming_protocol_error 4096 snap_ready unknown_message 0 (fun _ => 0) (by decide)
    (by decide)).1 999 rfl (by decide) rfl

/-! ## Identity errors: claim C13 -/

theorem take_set_last (l : List Nat) (n : Nat) (hl : l.length = n) (hn : n ≠ 0) :
    (l.take n).set (n - 1) 0 = l.dropLast ++ [0] := by
  rw [← hl, List.take_length]
  rcases List.eq_nil_or_concat l with h | ⟨l', a, h⟩
  · rw [h] at hl; exact absurd hl.symm hn
  · rw [List.concat_eq_append] at h
    rw [h]
    simp [List.set_append]

/-- C13, counterexample.  An `IDENTIFY_ERROR` of length 6 with `err = 5`
and the message bytes `'A'`, `'B'` is passed on with the message bytes
`'A'`, `0`: the last byte is not the one received. -/
theorem incoming_identify_error_counterexample :
    incoming_message 4096 snap_ready 0 identify_error_AB 0 (fun _ => 0) =
      Outcome.ok (Ingress.continue_reading, snap_ready,
        [Event.control_writepipe_head Opcode.CONNECT_SERVER_ERROR 6,
         Event.control_writepipe_err 5,
         Event.control_writepipe_bytes [65, 0]]) ∧
    identify_error_AB.msg = [65, 66] := by
  decide

/-- C13, amended.  While the device is running and the reads succeed, an
`IDENTIFY_ERROR` of length `L` with `4 ≤ L ≤ maxbody`, whose body is `err`
followed by `L - 4` message bytes, makes the ingress thread write to the
control socket a head with code `CONNECT_SERVER_ERROR` and length `L`,
the same `err`, and the `L - 4` message bytes with the last of them
replaced by 0; the loop goes on reading and the state is unchanged.  The
bytes are the received ones when there are none or the last one is 0. -/
theorem incoming_identify_error_forward (maxbody : Nat) (info : devinfo) (m : messagebuf)
    (alloc : Nat → Nat) (hrun : running info = true)
    (hcode : m.code = ServerCode.IDENTIFY_ERROR)
    (h4 : 4 ≤ m.length) (hmax : m.length ≤ maxbody)
    (hmsg : m.msg.length = m.length - 4) :
    incoming_message maxbody info 0 m 0 alloc =
      Outcome.ok (Ingress.continue_reading, info,
        [Event.control_writepipe_head Opcode.CONNECT_SERVER_ERROR m.length,
         Event.control_writepipe_err m.err,
         Event.control_writepipe_bytes
           (if m.length = 4 then [] else m.msg.dropLast ++ [0])]) ∧
    ((m.length = 4 ∨ m.msg.getLast? = some 0) →
      (if m.length = 4 then [] else m.msg.dropLast ++ [0]) = m.msg) := by
  have hrun' : ¬ running info = false := by simp [hrun]
  constructor
  · unfold incoming_message
    rw [if_neg hrun', if_neg (by simp), if_neg (by omega), if_neg (by simp), hcode]
    simp only [incoming_identify_error]
    rw [if_neg (by omega)]
    simp only
    have hlen : m.length - 4 + 4 = m.length := by omega
    rw [hlen]
    by_cases hz : m.length = 4
    · have : m.length - 4 = 0 := by omega
      simp [hz]
    · have hne : m.length - 4 ≠ 0 := by omega
      rw [if_neg hne, if_neg hz, take_set_last m.msg (m.length - 4) hmsg hne]
  · intro h
    by_cases hz : m.length = 4
    · rw [if_pos hz]
      have : m.msg.length = 0 := by omega
      exact (List.length_eq_zero.mp this).symm
    · rw [if_neg hz]
      rcases h with h | h
      · exact absurd h hz
      · exact List.dropLast_append_getLast? 0 h

/-- Witness of C13 amended: the message of length 6 with bytes `'A'`,
`'B'`. -/
theorem incoming_identify_error_forward_witness :
    incoming_message 4096 snap_ready 0 identify_error_AB 0 (fun _ => 0) =
      Outcome.ok (Ingress.continue_reading, snap_ready,
        [Event.control_writepipe_head Opcode.CONNECT_SERVER_ERROR 6,
         Event.control_writepipe_err 5,
         Event.control_writepipe_bytes [65, 0]]) :=
  (incoming_identify_error_forward 4096 snap_ready identify_error_AB (fun _ => 0)
    (by decide) rfl (by decide) (by decide) rfl).1

/-! ## List exclusivity of pending records: claim C14 -/

theorem flatten_set_perm (l : List (List pending)) :
    ∀ (i : Nat) (y : List pending), i < l.length →
      ((l.set i y).flatten ++ l.getD i []).Perm (l.flatten ++ y) := by
  induction l with
  | nil => intro i y hi; exact absurd hi (Nat.not_lt_zero _)
  | cons a l ih =>
    intro i y hi
    cases i with
    | zero =>
      simp only [List.set_cons_zero, List.flatten_cons, List.getD_cons_zero]
      refine (List.perm_append_comm).trans ?_
      rw [List.append_assoc]
      exact List.Perm.append_left a List.perm_append_comm
    | succ i =>
      simp only [List.set_cons_succ, List.flatten_cons, List.getD_cons_succ,
        List.append_assoc]
      exact List.Perm.append_left a (ih i y (by simpa using hi))

theorem flatten_insert_perm (l : List (List pending)) (i : Nat) (p : pending)
    (hi : i < l.length) :
    (l.set i (p :: l.getD i [])).flatten.Perm (p :: l.flatten) := by
  have h := flatten_set_perm l i (p :: l.getD i []) hi
  have h2 : (l.flatten ++ p :: l.getD i []).Perm ((p :: l.flatten) ++ l.getD i []) := by
    rw [List.cons_append]
    exact List.perm_middle
  exact (List.perm_append_right_iff _).mp (h.trans h2)

theorem flatten_remove_perm (l : List (List pending)) (i : Nat) (p : pending)
    (pre post : List pending) (hi : i < l.length) (hget : l.getD i [] = pre ++ p :: post) :
    ((l.set i (pre ++ post)).flatten ++ [p]).Perm l.flatten := by
  have h := flatten_set_perm l i (pre ++ post) hi
  rw [hget] at h
  have h2 : (((l.set i (pre ++ post)).flatten ++ [p]) ++ (pre ++ post)).Perm
      ((l.set i (pre ++ post)).flatten ++ (pre ++ p :: post)) := by
    rw [List.append_assoc]
    apply List.Perm.append_left
    rw [List.singleton_append]
    exact List.perm_middle.symm
  exact (List.perm_append_right_iff _).mp (h2.trans h)

theorem completions_append_one (ev : List Event) (e : Event) :
    completions (ev ++ [e]) = completions ev + if is_completion e = true then 1 else 0 := by
  unfold completions
  rw [List.countP_append]
  simp [List.countP_cons]

theorem replied_rw_loop_ledger (id : Nat) (rw : Rw) (snap failed_io : Bool) (shift mask : Nat)
    (alloc : Nat → Nat) (n : Nat) :
    ∀ (i : Nat) (p : List range_entry) (info : devinfo) (ev : List Event) (sub : Nat)
      (r : Int × devinfo × List Event),
      replied_rw_loop id rw snap failed_io shift mask alloc n i p info ev sub = Outcome.ok r →
      hash_pending id < info.pending.length →
      ∃ gone : List pending,
        (r.2.1.pending.flatten ++ gone).Perm info.pending.flatten ∧
        completions r.2.2 = completions ev + gone.length := by
  induction n with
  | zero =>
    intro i p info ev sub r h _
    simp only [replied_rw_loop, Outcome.ok.injEq] at h
    subst h
    refine ⟨[], by simp, ?_⟩
    simp only
    split_ifs
    · simp [completions, List.countP_append, List.countP_cons, is_completion]
    · simp
  | succ n ih =>
    intro i p info ev sub r h hlen
    cases p with
    | nil => simp [replied_rw_loop] at h
    | cons e p' =>
      cases hf : find_pending id (info.pending.getD (hash_pending id) []) with
      | none =>
        simp only [replied_rw_loop, hf] at h
        split_ifs at h
        simp only [Outcome.ok.injEq] at h
        subst h
        exact ⟨[], by simp, by simp⟩
      | some found =>
        obtain ⟨pend, rest⟩ := found
        obtain ⟨pre, post, hl, hr, _, _⟩ := find_pending_some id _ pend rest hf
        have hperm1 : ((info.pending.set (hash_pending id) rest).flatten ++ [pend]).Perm
            info.pending.flatten := by
          rw [hr]
          exact flatten_remove_perm _ _ pend pre post hlen hl
        have hlen1 : hash_pending id < (info.pending.set (hash_pending id) rest).length := by
          simpa using hlen
        have last : ∀ (info1 : devinfo) (e1 : Event) (ret : Int),
            info1.pending = info.pending.set (hash_pending id) rest →
            is_completion e1 = true →
            ∃ gone : List pending,
              (info1.pending.flatten ++ gone).Perm info.pending.flatten ∧
              completions (ev ++ [e1]) = completions ev + gone.length := by
          intro info1 e1 _ hp he
          refine ⟨[pend], by rw [hp]; exact hperm1, ?_⟩
          rw [completions_append_one, if_pos he]
          rfl
        have more : ∀ (info1 : devinfo) (e1 : Event),
            (∃ gone : List pending,
              (r.2.1.pending.flatten ++ gone).Perm info1.pending.flatten ∧
              completions r.2.2 = completions (ev ++ [e1]) + gone.length) →
            info1.pending = info.pending.set (hash_pending id) rest →
            is_completion e1 = true →
            ∃ gone : List pending,
              (r.2.1.pending.flatten ++ gone).Perm info.pending.flatten ∧
              completions r.2.2 = completions ev + gone.length := by
          intro info1 e1 hrec hp he
          obtain ⟨gone, hg, hc⟩ := hrec
          refine ⟨pend :: gone, ?_, ?_⟩
          · rw [hp] at hg
            have h1 : (r.2.1.pending.flatten ++ pend :: gone).Perm
                ((r.2.1.pending.flatten ++ gone) ++ [pend]) := by
              rw [List.append_assoc]
              apply List.Perm.append_left
              exact (List.perm_append_singleton pend gone).symm
            exact h1.trans ((List.Perm.append_right [pend] hg).trans hperm1)
          · rw [hc, completions_append_one, if_pos he, List.length_cons]
            omega
        cases hrm : remap_loop info.snapdev shift mask e.range.chunks e.physical pend.bio with
        | none =>
          simp only [replied_rw_loop, hf, hrm] at h
          split_ifs at h
          all_goals first
            | (simp only [Outcome.ok.injEq] at h
               subst h
               exact last _ _ (-1) rfl rfl)
            | (exact more _ _ (ih _ _ _ _ _ _ h hlen1) rfl rfl)
        | some b' =>
          simp only [replied_rw_loop, hf, hrm] at h
          split_ifs at h
          all_goals first
            | (simp only [Outcome.ok.injEq] at h
               subst h
               exact last _ _ (-1) rfl rfl)
            | (exact more _ _ (ih _ _ _ _ _ _ h hlen1) rfl rfl)

theorem lstep_step (ID_BITS : Nat) (hid : ID_BITS ≤ 32) (info : devinfo)
    (created : List pending) (freed : Nat) (a : Act) (info' : devinfo)
    (created' : List pending) (freed' : Nat)
    (h : lstep ID_BITS info created freed a = some (info', created', freed')) :
    step ID_BITS info created.length a = some (info', created'.length) := by
  cases a with
  | connect_server sock off len err =>
    simp only [lstep, Option.some.injEq, Prod.mk.injEq] at h
    obtain ⟨h1, h2, _⟩ := h
    simp only [step, h1, h2]
  | identify_ok k =>
    simp only [lstep, Option.some.injEq, Prod.mk.injEq] at h
    obtain ⟨h1, h2, _⟩ := h
    simp only [step, h1, h2]
  | report_error =>
    cases hre : report_error info with
    | ok x =>
      simp only [lstep, hre, Option.some.injEq, Prod.mk.injEq] at h
      obtain ⟨h1, h2, _⟩ := h
      simp only [step, hre, h1, h2]
    | _ => simp [lstep, hre] at h
  | map b =>
    cases hm : ddsnap_map ID_BITS info b with
    | ok x =>
      obtain ⟨ret, info1, b1⟩ := x
      simp only [lstep, hm, Option.some.injEq, Prod.mk.injEq] at h
      obtain ⟨h1, h2, _⟩ := h
      subst h1
      simp only [step, hm, Option.some.injEq, Prod.mk.injEq, true_and]
      rcases ddsnap_map_cases ID_BITS info b ret info1 b1 hid hm with ⟨hne, _⟩ | ⟨h0, _, heq⟩
      · rw [if_neg hne] at h2 ⊢
        rw [h2]
      · rw [if_pos h0] at h2 ⊢
        rw [← h2, heq]
        simp [Nat.add_comm]
    | _ => simp [lstep, hm] at h
  | send err =>
    cases hw : worker_query_iter info err with
    | ok x =>
      obtain ⟨nx, info1, ev⟩ := x
      simp only [lstep, hw, Option.some.injEq, Prod.mk.injEq] at h
      obtain ⟨h1, h2, _⟩ := h
      simp only [step, hw, h1, h2]
    | _ => simp [lstep, hw] at h
  | reply body rw snap failed_io alloc =>
    cases hr : replied_rw info body rw snap failed_io alloc with
    | ok x =>
      obtain ⟨ret, info1, ev⟩ := x
      simp only [lstep, hr, Option.some.injEq, Prod.mk.injEq] at h
      obtain ⟨h1, h2, _⟩ := h
      simp only [step, hr, h1, h2]
    | _ => simp [lstep, hr] at h
  | requeue =>
    simp only [lstep, Option.some.injEq, Prod.mk.injEq] at h
    obtain ⟨h1, h2, _⟩ := h
    simp only [step, h1, h2]
  | other info1 =>
    simp only [lstep] at h
    split_ifs at h with hc
    simp only [Option.some.injEq, Prod.mk.injEq] at h
    obtain ⟨h1, h2, _⟩ := h
    subst h1 h2
    simp only [step, if_pos hc]

theorem ledger_inv_of_eq (info info' : devinfo) (created : List pending) (freed : Nat)
    (hb : bucket_inv info') (hq : info'.queries = info.queries)
    (hp : info'.pending = info.pending) (hinv : ledger_inv info created freed) :
    ledger_inv info' created freed := by
  refine ⟨hb, hinv.2.1, ?_⟩
  rw [hq, hp]
  exact hinv.2.2

theorem lstep_ledger (ID_BITS : Nat) (hid : ID_BITS ≤ 32) (info : devinfo)
    (created : List pending) (freed : Nat) (a : Act) (info' : devinfo)
    (created' : List pending) (freed' : Nat)
    (h : lstep ID_BITS info created freed a = some (info', created', freed'))
    (hinv : ledger_inv info created freed) : ledger_inv info' created' freed' := by
  have hb : bucket_inv info' :=
    step_bucket_inv ID_BITS info created.length a info' created'.length
      (lstep_step ID_BITS hid info created freed a info' created' freed' h) hinv.1
  have hlen : info.pending.length = NUM_BUCKETS := hinv.1.1
  obtain ⟨_, hch, gone, hgl, hperm⟩ := hinv
  have hinv : ledger_inv info created freed := ⟨‹bucket_inv info›, hch, gone, hgl, hperm⟩
  cases a with
  | connect_server sock off len err =>
    simp only [lstep, Option.some.injEq, Prod.mk.injEq] at h
    obtain ⟨h1, h2, h3⟩ := h
    subst h1 h2 h3
    obtain ⟨f1, f2, _⟩ := control_connect_server_frame info sock off len err
    exact ledger_inv_of_eq info _ _ _ hb f2 f1 hinv
  | identify_ok k =>
    simp only [lstep, Option.some.injEq, Prod.mk.injEq] at h
    obtain ⟨h1, h2, h3⟩ := h
    subst h1 h2 h3
    exact ledger_inv_of_eq info _ _ _ hb rfl rfl hinv
  | report_error =>
    cases hre : report_error info with
    | ok x =>
      simp only [lstep, hre, Option.some.injEq, Prod.mk.injEq] at h
      obtain ⟨h1, h2, h3⟩ := h
      subst h1 h2 h3
      obtain ⟨f1, f2, _⟩ := report_error_frame info x hre
      exact ledger_inv_of_eq info _ _ _ hb f2 f1 hinv
    | _ => simp [lstep, hre] at h
  | map b =>
    cases hm : ddsnap_map ID_BITS info b with
    | ok x =>
      obtain ⟨ret, info1, b1⟩ := x
      simp only [lstep, hm, Option.some.injEq, Prod.mk.injEq] at h
      obtain ⟨h1, h2, h3⟩ := h
      subst h1 h3
      rcases ddsnap_map_cases ID_BITS info b ret info1 b1 hid hm with ⟨hne, heq⟩ | ⟨h0, _, heq⟩
      · rw [if_neg hne] at h2
        subst h2
        exact ledger_inv_of_eq info _ _ _ hb (by rw [heq]) (by rw [heq]) hinv
      · rw [if_pos h0] at h2
        subst h2
        refine ⟨hb, ?_, gone, hgl, ?_⟩
        · intro q hq
          rw [heq] at hq
          simp only [List.take_succ_cons, List.take_zero, List.singleton_append,
            List.mem_cons] at hq
          rcases hq with rfl | hq
          · rfl
          · exact hch q hq
        · rw [heq]
          simp only [List.take_succ_cons, List.take_zero, List.singleton_append,
            List.cons_append]
          exact List.Perm.cons _ hperm
    | _ => simp [lstep, hm] at h
  | send err =>
    cases hw : worker_query_iter info err with
    | ok x =>
      obtain ⟨nx, info1, ev⟩ := x
      simp only [lstep, hw, Option.some.injEq, Prod.mk.injEq] at h
      obtain ⟨h1, h2, h3⟩ := h
      subst h1 h2 h3
      have hins : ∀ p : pending,
          (info.pending.set (hash_pending p.id)
            (p :: info.pending.getD (hash_pending p.id) [])).flatten.Perm
            (p :: info.pending.flatten) := fun p =>
        flatten_insert_perm _ _ p (by rw [hlen]; exact hash_pending_lt p.id)
      have moved : ∀ (qs : List pending) (p : pending) (info2 : devinfo),
          info.queries = qs ++ [p] → info2.queries = qs →
          info2.pending = info.pending.set (hash_pending p.id)
            (p :: info.pending.getD (hash_pending p.id) []) →
          (info2.queries ++ info2.pending.flatten ++ gone).Perm created := by
        intro qs p info2 hq hq2 hp2
        rw [hq2, hp2]
        rw [hq] at hperm
        refine List.Perm.trans ?_ hperm
        apply List.Perm.append_right
        rw [List.append_assoc, List.singleton_append]
        exact List.Perm.append_left qs (hins p)
      rcases worker_query_iter_cases info err nx info1 ev hw with
        ⟨_, heq, _, _⟩ | ⟨qs, p, hq, _, _, _, ⟨_, _, heq⟩ | ⟨_, _, heq⟩⟩
      · exact ledger_inv_of_eq info _ _ _ hb (by rw [heq]) (by rw [heq]) hinv
      · exact ⟨hb, hch, gone, hgl, moved qs p info1 hq (by rw [heq]) (by rw [heq])⟩
      · exact ⟨hb, hch, gone, hgl, moved qs p info1 hq (by rw [heq]) (by rw [heq])⟩
    | _ => simp [lstep, hw] at h
  | reply body rw snap failed_io alloc =>
    cases hr : replied_rw info body rw snap failed_io alloc with
    | ok x =>
      obtain ⟨ret, info1, ev⟩ := x
      simp only [lstep, hr, Option.some.injEq, Prod.mk.injEq] at h
      obtain ⟨h1, h2, h3⟩ := h
      subst h1 h2 h3
      obtain ⟨_, fq, _⟩ := replied_rw_frame info body rw snap failed_io alloc _ hr
      obtain ⟨gone1, hg1, hc1⟩ :=
        replied_rw_loop_ledger _ _ _ _ _ _ _ _ _ _ _ _ _ _ hr
          (by rw [hlen]; exact hash_pending_lt body.id)
      simp only at fq hg1 hc1
      refine ⟨hb, hch, gone1 ++ gone, ?_, ?_⟩
      · rw [List.length_append, hc1, hgl]
        simp [completions]
        omega
      · rw [fq]
        refine List.Perm.trans ?_ hperm
        rw [← List.append_assoc]
        apply List.Perm.append_right
        rw [List.append_assoc]
        exact List.Perm.append_left _ hg1
    | _ => simp [lstep, hr] at h
  | requeue =>
    simp only [lstep, Option.some.injEq, Prod.mk.injEq] at h
    obtain ⟨h1, h2, h3⟩ := h
    subst h1 h2 h3
    refine ⟨hb, hch, gone, hgl, ?_⟩
    rw [requeue_queries_eq info hlen]
    have hnil : (List.replicate NUM_BUCKETS ([] : List pending)).flatten = [] := by decide
    simp only [hnil, List.append_nil]
    refine List.Perm.trans ?_ hperm
    apply List.Perm.append_right
    exact (List.perm_append_comm).trans (List.Perm.append_left _ (List.reverse_perm _))
  | other info1 =>
    simp only [lstep] at h
    split_ifs at h with hc
    simp only [Option.some.injEq, Prod.mk.injEq] at h
    obtain ⟨h1, h2, h3⟩ := h
    subst h1 h2 h3
    exact ledger_inv_of_eq info _ _ _ hb hc.1 hc.2.1 hinv

theorem lrun_ledger (ID_BITS : Nat) (hid : ID_BITS ≤ 32) (acts : List Act) :
    ∀ (info : devinfo) (created : List pending) (freed : Nat) (info' : devinfo)
      (created' : List pending) (freed' : Nat),
      lrun ID_BITS acts info created freed = some (info', created', freed') →
      ledger_inv info created freed → ledger_inv info' created' freed' := by
  induction acts with
  | nil =>
    intro info created freed info' created' freed' h hinv
    simp only [lrun, Option.some.injEq, Prod.mk.injEq] at h
    obtain ⟨h1, h2, h3⟩ := h
    subst h1 h2 h3
    exact hinv
  | cons a acts ih =>
    intro info created freed info' created' freed' h hinv
    simp only [lrun] at h
    cases hs : lstep ID_BITS info created freed a with
    | none => rw [hs] at h; cases h
    | some r =>
      obtain ⟨info1, created1, freed1⟩ := r
      rw [hs] at h
      exact ih info1 created1 freed1 info' created' freed' h
        (lstep_ledger ID_BITS hid info created freed a info1 created1 freed1 hs hinv)

theorem lrun_run (ID_BITS : Nat) (hid : ID_BITS ≤ 32) (acts : List Act) :
    ∀ (info : devinfo) (created : List pending) (freed : Nat) (info' : devinfo)
      (created' : List pending) (freed' : Nat),
      lrun ID_BITS acts info created freed = some (info', created', freed') →
      run ID_BITS acts info created.length = some (info', created'.length) := by
  induction acts with
  | nil =>
    intro info created freed info' created' freed' h
    simp only [lrun, Option.some.injEq, Prod.mk.injEq] at h
    obtain ⟨h1, h2, _⟩ := h
    subst h1 h2
    rfl
  | cons a acts ih =>
    intro info created freed info' created' freed' h
    simp only [lrun] at h
    cases hs : lstep ID_BITS info created freed a with
    | none => rw [hs] at h; cases h
    | some r =>
      obtain ⟨info1, created1, freed1⟩ := r
      rw [hs] at h
      simp only [run]
      rw [lstep_step ID_BITS hid info created freed a info1 created1 freed1 hs]
      exact ih info1 created1 freed1 info' created' freed' h

theorem ledger_inv_create (snap : Int) (snapdev orgdev control_socket : Nat) :
    ledger_inv (ddsnap_create snap snapdev orgdev control_socket) [] 0 := by
  refine ⟨bucket_inv_create snap snapdev orgdev control_socket, by simp, [], rfl, ?_⟩
  have hnil : (List.replicate NUM_BUCKETS ([] : List pending)).flatten = [] := by decide
  simp [ddsnap_create, hnil]

/-- C14. Along every trace of `ddsnap_map`, worker query passes, replies
handed to `replied_rw`, `requeue_queries` and the connection steps from a
freshly created device, with `created` the records that `ddsnap_map` has
queued and `freed` the number of records that `replied_rw` has freed: the
records of the query queue and the 64 buckets together with the freed
ones are exactly the created records, each as often as it was created, so
a record that is not freed is on the lists once and none is lost or
doubled; every record has `chunks = 1`; a record in a bucket is in bucket
`id mod 64`; and while the id counter has not wrapped the records on the
lists are pairwise different. -/
theorem pending_exclusive (ID_BITS : Nat) (hid : ID_BITS ≤ 32) (snap : Int)
    (snapdev orgdev control_socket : Nat) (acts : List Act) (info : devinfo)
    (created : List pending) (freed : Nat)
    (h : lrun ID_BITS acts (ddsnap_create snap snapdev orgdev control_socket) [] 0 =
      some (info, created, freed)) :
    (∃ gone : List pending, gone.length = freed ∧
      (info.queries ++ info.pending.flatten ++ gone).Perm created) ∧
    (info.queries ++ info.pending.flatten).length + freed = created.length ∧
    (∀ p ∈ info.queries ++ info.pending.flatten, p.chunks = 1) ∧
    (∀ p ∈ created, p.chunks = 1) ∧
    info.pending.length = NUM_BUCKETS ∧
    (∀ b p, p ∈ info.pending.getD b [] → b = p.id % 64) ∧
    (created.length ≤ 2 ^ ID_BITS → (info.queries ++ info.pending.flatten).Nodup) := by
  obtain ⟨hb, hch, gone, hgl, hperm⟩ :=
    lrun_ledger ID_BITS hid acts _ _ _ _ _ _ h
      (ledger_inv_create snap snapdev orgdev control_socket)
  refine ⟨⟨gone, hgl, hperm⟩, ?_, ?_, hch, hb.1, ?_, ?_⟩
  · have := hperm.length_eq
    rw [List.length_append, hgl] at this
    exact this
  · intro p hp
    exact hch p (hperm.subset (List.mem_append_left _ hp))
  · intro b p hp
    rw [← hash_pending_eq]
    exact (hb.2 b p hp).symm
  · intro hn
    have hrun := lrun_run ID_BITS hid acts _ _ _ _ _ _ h
    have hw := run_wrap_inv ID_BITS hid acts _ _ _ _ hrun
      (wrap_inv_create ID_BITS snap snapdev orgdev control_socket) hn
    have hall : (all_ids info).Nodup := by
      rw [List.nodup_iff_count_le_one]
      intro i
      rw [all_ids_count]
      have := hw.2.2 i
      split_ifs at this <;> omega
    exact List.Nodup.of_map _ hall

/-- Witness of C14: three records created, one of them freed by a reply,
one requeued from its bucket and one still unsent; the two that are left
are both on the query queue, once each. -/
theorem pending_exclusive_witness :
    lrun 16 ledger_trace (ddsnap_create 0 2 1 3) [] 0 = some ledger_result ∧
    ledger_result.2.1.length = 3 ∧ ledger_result.2.2 = 1 ∧
    ledger_result.1.queries.length = 2 ∧ ledger_result.1.pending.flatten = [] ∧
    (ledger_result.1.queries ++ ledger_result.1.pending.flatten).Nodup ∧
    (∀ p ∈ ledger_result.1.queries ++ ledger_result.1.pending.flatten, p.chunks = 1) :=
  ⟨by decide, by decide, by decide, by decide, by decide,
    (pending_exclusive 16 (by decide) 0 2 1 3 ledger_trace ledger_result.1 ledger_result.2.1
      ledger_result.2.2 (by decide)).2.2.2.2.2.2 (by decide),
    (pending_exclusive 16 (by decide) 0 2 1 3 ledger_trace ledger_result.1 ledger_result.2.1
      ledger_result.2.2 (by decide)).2.2.1⟩

/-! ## The hook lists: claim C15 -/

theorem find_hook_some (addr : Nat) (l : List hook) (h : hook) (rest : List hook)
    (hf : find_hook addr l = some (h, rest)) :
    ∃ pre post, l = pre ++ h :: post ∧ rest = pre ++ post ∧ h.addr = addr := by
  induction l generalizing rest with
  | nil => simp [find_hook] at hf
  | cons a l ih =>
    unfold find_hook at hf
    by_cases ha : a.addr = addr
    · rw [if_pos ha] at hf
      simp only [Option.some.injEq, Prod.mk.injEq] at hf
      obtain ⟨rfl, rfl⟩ := hf
      exact ⟨[], l, rfl, rfl, ha⟩
    · rw [if_neg ha] at hf
      cases hrec : find_hook addr l with
      | none => rw [hrec] at hf; simp at hf
      | some r =>
        obtain ⟨q, rest'⟩ := r
        rw [hrec] at hf
        simp only [Option.some.injEq, Prod.mk.injEq] at hf
        obtain ⟨rfl, rfl⟩ := hf
        obtain ⟨pre, post, hl, hr, hid⟩ := ih rest' hrec
        exact ⟨a :: pre, post, by rw [hl]; rfl, by rw [hr]; rfl, hid⟩

theorem null_hook_map_addr (addr : Nat) (l : List hook) :
    (null_hook addr l).map hook.addr = l.map hook.addr := by
  induction l with
  | nil => rfl
  | cons a l ih =>
    unfold null_hook
    by_cases ha : a.addr = addr
    · rw [if_pos ha]; rfl
    · rw [if_neg ha, List.map_cons, List.map_cons, ih]

theorem null_hook_length (addr : Nat) (l : List hook) :
    (null_hook addr l).length = l.length := by
  have := congrArg List.length (null_hook_map_addr addr l)
  simpa using this

theorem sweep_locked_spec (l : List hook) :
    ∀ r : List hook,
      ((sweep_locked l r).1 ++ (sweep_locked l r).2).Perm (l ++ r) ∧
      (∀ h ∈ (sweep_locked l r).1, h.old_end_io ≠ bio_end_io_t.NULL) ∧
      (∀ h ∈ (sweep_locked l r).2, h ∈ r ∨ h.old_end_io = bio_end_io_t.NULL) := by
  induction l with
  | nil =>
    intro r
    refine ⟨by simp [sweep_locked], by simp [sweep_locked], ?_⟩
    intro h hh
    exact Or.inl (by simpa [sweep_locked] using hh)
  | cons a l ih =>
    intro r
    unfold sweep_locked
    by_cases ha : a.old_end_io = bio_end_io_t.NULL
    · rw [if_pos ha]
      obtain ⟨h1, h2, h3⟩ := ih (a :: r)
      refine ⟨h1.trans ?_, h2, ?_⟩
      · rw [List.cons_append]
        exact List.perm_middle
      · intro h hh
        rcases h3 h hh with hm | hn
        · rcases List.mem_cons.mp hm with rfl | hm
          · exact Or.inr ha
          · exact Or.inl hm
        · exact Or.inr hn
    · rw [if_neg ha]
      obtain ⟨h1, h2, h3⟩ := ih r
      refine ⟨?_, ?_, h3⟩
      · simp only [List.cons_append]
        exact List.Perm.cons a h1
      · intro h hh
        rcases List.mem_cons.mp hh with rfl | hm
        · exact ha
        · exact h2 h hm

theorem replied_rw_loop_hooks (id : Nat) (rw : Rw) (snap failed_io : Bool) (shift mask : Nat)
    (alloc : Nat → Nat) (n : Nat) :
    ∀ (i : Nat) (p : List range_entry) (info : devinfo) (ev : List Event) (sub : Nat)
      (r : Int × devinfo × List Event),
      replied_rw_loop id rw snap failed_io shift mask alloc n i p info ev sub = Outcome.ok r →
      (∀ q ∈ info.pending.getD (hash_pending id) [], q.bio.bi_end_io ≠ bio_end_io_t.NULL) →
      ∃ new : List hook,
        r.2.1.locked = new ++ info.locked ∧ r.2.1.releases = info.releases ∧
        r.2.1.dont_switch_lists = info.dont_switch_lists ∧
        (∀ h ∈ new, h.old_end_io ≠ bio_end_io_t.NULL ∧
          ∃ j, i ≤ j ∧ j < i + n ∧ h.addr = alloc j) ∧
        ((∀ a, i ≤ a → a < i + n → ∀ b, i ≤ b → b < i + n → alloc a = alloc b → a = b) →
          (new.map hook.addr).Nodup) := by
  induction n with
  | zero =>
    intro i p info ev sub r h _
    simp only [replied_rw_loop, Outcome.ok.injEq] at h
    subst h
    exact ⟨[], rfl, rfl, rfl, by simp, by simp⟩
  | succ n ih =>
    intro i p info ev sub r h henv
    cases p with
    | nil => simp [replied_rw_loop] at h
    | cons e p' =>
      cases hf : find_pending id (info.pending.getD (hash_pending id) []) with
      | none =>
        simp only [replied_rw_loop, hf] at h
        split_ifs at h
        simp only [Outcome.ok.injEq] at h
        subst h
        exact ⟨[], rfl, rfl, rfl, by simp, by simp⟩
      | some found =>
        obtain ⟨pend, rest⟩ := found
        obtain ⟨pre, post, hl, hr, _, _⟩ := find_pending_some id _ pend rest hf
        have hpend : pend.bio.bi_end_io ≠ bio_end_io_t.NULL := by
          apply henv
          rw [hl]
          simp
        have hsub : ∀ q ∈ (info.pending.set (hash_pending id) rest).getD (hash_pending id) [],
            q.bio.bi_end_io ≠ bio_end_io_t.NULL := by
          intro q hq
          rw [getD_set] at hq
          split_ifs at hq
          · apply henv
            rw [hl]
            rw [hr] at hq
            rcases List.mem_append.mp hq with hq | hq
            · exact List.mem_append_left _ hq
            · exact List.mem_append_right _ (List.mem_cons_of_mem _ hq)
          · exact henv q hq
        have keep :
            (∃ new : List hook,
              r.2.1.locked = new ++ info.locked ∧ r.2.1.releases = info.releases ∧
              r.2.1.dont_switch_lists = info.dont_switch_lists ∧
              (∀ h ∈ new, h.old_end_io ≠ bio_end_io_t.NULL ∧
                ∃ j, i + 1 ≤ j ∧ j < i + 1 + n ∧ h.addr = alloc j) ∧
              ((∀ a, i + 1 ≤ a → a < i + 1 + n → ∀ b, i + 1 ≤ b → b < i + 1 + n →
                  alloc a = alloc b → a = b) →
                (new.map hook.addr).Nodup)) →
            ∃ new : List hook,
              r.2.1.locked = new ++ info.locked ∧ r.2.1.releases = info.releases ∧
              r.2.1.dont_switch_lists = info.dont_switch_lists ∧
              (∀ h ∈ new, h.old_end_io ≠ bio_end_io_t.NULL ∧
                ∃ j, i ≤ j ∧ j < i + (n + 1) ∧ h.addr = alloc j) ∧
              ((∀ a, i ≤ a → a < i + (n + 1) → ∀ b, i ≤ b → b < i + (n + 1) →
                  alloc a = alloc b → a = b) →
                (new.map hook.addr).Nodup) := by
          rintro ⟨new, h1, h2, h3, h4, h5⟩
          refine ⟨new, h1, h2, h3, ?_, ?_⟩
          · intro h hh
            obtain ⟨hn, j, hj1, hj2, hj3⟩ := h4 h hh
            exact ⟨hn, j, by omega, by omega, hj3⟩
          · intro hinj
            apply h5
            intro a ha1 ha2 b hb1 hb2 hab
            exact hinj a (by omega) (by omega) b (by omega) (by omega) hab
        have add :
            (∃ new : List hook,
              r.2.1.locked = new ++
                ({ addr := alloc i, sector := pend.bio.bi_sector,
                   old_end_io := pend.bio.bi_end_io,
                   old_private := pend.bio.bi_private } :: info.locked) ∧
              r.2.1.releases = info.releases ∧
              r.2.1.dont_switch_lists = info.dont_switch_lists ∧
              (∀ h ∈ new, h.old_end_io ≠ bio_end_io_t.NULL ∧
                ∃ j, i + 1 ≤ j ∧ j < i + 1 + n ∧ h.addr = alloc j) ∧
              ((∀ a, i + 1 ≤ a → a < i + 1 + n → ∀ b, i + 1 ≤ b → b < i + 1 + n →
                  alloc a = alloc b → a = b) →
                (new.map hook.addr).Nodup)) →
            ∃ new : List hook,
              r.2.1.locked = new ++ info.locked ∧ r.2.1.releases = info.releases ∧
              r.2.1.dont_switch_lists = info.dont_switch_lists ∧
              (∀ h ∈ new, h.old_end_io ≠ bio_end_io_t.NULL ∧
                ∃ j, i ≤ j ∧ j < i + (n + 1) ∧ h.addr = alloc j) ∧
              ((∀ a, i ≤ a → a < i + (n + 1) → ∀ b, i ≤ b → b < i + (n + 1) →
                  alloc a = alloc b → a = b) →
                (new.map hook.addr).Nodup) := by
          rintro ⟨new, h1, h2, h3, h4, h5⟩
          refine ⟨new ++ [{ addr := alloc i, sector := pend.bio.bi_sector,
                            old_end_io := pend.bio.bi_end_io,
                            old_private := pend.bio.bi_private }], ?_, h2, h3, ?_, ?_⟩
          · rw [h1, List.append_assoc, List.singleton_append]
          · intro h hh
            rcases List.mem_append.mp hh with hh | hh
            · obtain ⟨hn, j, hj1, hj2, hj3⟩ := h4 h hh
              exact ⟨hn, j, by omega, by omega, hj3⟩
            · rw [List.mem_singleton] at hh
              subst hh
              exact ⟨hpend, i, Nat.le_refl _, by omega, rfl⟩
          · intro hinj
            rw [List.map_append, List.nodup_append]
            refine ⟨?_, by simp, ?_⟩
            · apply h5
              intro a ha1 ha2 b hb1 hb2 hab
              exact hinj a (by omega) (by omega) b (by omega) (by omega) hab
            · intro x hx1 hx2
              simp only [List.map_cons, List.map_nil, List.mem_singleton] at hx2
              obtain ⟨h, hh, hax⟩ := List.mem_map.mp hx1
              obtain ⟨_, j, hj1, hj2, hj3⟩ := h4 h hh
              have := hinj j (by omega) (by omega) i (Nat.le_refl _) (by omega)
                (by rw [← hj3, hax, hx2])
              omega
        cases hrm : remap_loop info.snapdev shift mask e.range.chunks e.physical pend.bio with
        | none =>
          simp only [replied_rw_loop, hf, hrm] at h
          split_ifs at h
          all_goals first
            | (simp only [Outcome.ok.injEq] at h
               subst h
               exact ⟨[], rfl, rfl, rfl, by simp, by simp⟩)
            | (have hrec := ih _ _ _ _ _ _ h hsub
               exact keep hrec)
            | (have hrec := ih _ _ _ _ _ _ h hsub
               exact add hrec)
        | some b' =>
          simp only [replied_rw_loop, hf, hrm] at h
          split_ifs at h
          all_goals first
            | (simp only [Outcome.ok.injEq] at h
               subst h
               exact ⟨[], rfl, rfl, rfl, by simp, by simp⟩)
            | (have hrec := ih _ _ _ _ _ _ h hsub
               exact keep hrec)
            | (have hrec := ih _ _ _ _ _ _ h hsub
               exact add hrec)

theorem hooks_nodup_of_sublist (L L' R R' : List hook) (hL : L'.Sublist L)
    (hR : R'.Sublist R) (h : ((L ++ R).map hook.addr).Nodup) :
    ((L' ++ R').map hook.addr).Nodup :=
  List.Nodup.sublist ((hL.append hR).map _) h

theorem snapshot_read_end_io_some (info : devinfo) (b : bio) (done : Nat) (error ret : Int)
    (r : Int) (info' : devinfo) (b' : bio) (ev : List Event)
    (he : snapshot_read_end_io info b done error ret = some (r, info', b', ev))
    (hrel : ∀ h ∈ info.releases, h.old_end_io = bio_end_io_t.NULL) :
    ∃ h pre post, info.locked = pre ++ h :: post ∧ h.old_end_io ≠ bio_end_io_t.NULL ∧
      info'.dont_switch_lists = info.dont_switch_lists ∧
      ((info.dont_switch_lists = 0 ∧ info'.locked = pre ++ post ∧
          info'.releases = { h with old_end_io := bio_end_io_t.NULL } :: info.releases) ∨
       (info.dont_switch_lists ≠ 0 ∧ info'.locked = null_hook h.addr info.locked ∧
          info'.releases = info.releases)) := by
  unfold snapshot_read_end_io at he
  cases hfl : find_hook b.bi_private info.locked with
  | some x =>
    obtain ⟨h, rest⟩ := x
    obtain ⟨pre, post, hl, hr, _⟩ := find_hook_some _ _ _ _ hfl
    simp only [hfl] at he
    cases hcb : h.old_end_io with
    | NULL => simp [end_io_hook, hcb] at he
    | snapshot_read_end_io => simp [end_io_hook, hcb] at he
    | fn a =>
      refine ⟨h, pre, post, hl, by simp [hcb], ?_⟩
      by_cases hz : info.dont_switch_lists = 0
      · simp only [end_io_hook, hcb, hz, if_true, Option.some.injEq, Prod.mk.injEq] at he
        obtain ⟨_, h2, _⟩ := he
        subst h2
        exact ⟨hz.symm, Or.inl ⟨hz, hr, rfl⟩⟩
      · simp only [end_io_hook, hcb, hz, if_false, if_true, Option.some.injEq,
          Prod.mk.injEq] at he
        obtain ⟨_, h2, _⟩ := he
        subst h2
        exact ⟨rfl, Or.inr ⟨hz, rfl, rfl⟩⟩
  | none =>
    simp only [hfl] at he
    cases hfr : find_hook b.bi_private info.releases with
    | none => simp [hfr] at he
    | some x =>
      obtain ⟨h, rest⟩ := x
      obtain ⟨pre, post, hl, _, _⟩ := find_hook_some _ _ _ _ hfr
      have hn : h.old_end_io = bio_end_io_t.NULL := hrel h (by rw [hl]; simp)
      simp [hfr, end_io_hook, hn] at he

theorem worker_release_iter_frame (info : devinfo) (err : Int) (nx : Next) (info' : devinfo)
    (ev : List Event) (h : worker_release_iter info err = Outcome.ok (nx, info', ev)) :
    info'.locked = info.locked ∧ info'.dont_switch_lists = info.dont_switch_lists ∧
      info'.releases.Sublist info.releases := by
  unfold worker_release_iter at h
  cases hq : info.releases.getLast? with
  | none =>
    simp only [hq, Outcome.ok.injEq, Prod.mk.injEq] at h
    obtain ⟨_, h2, _⟩ := h
    subst h2
    exact ⟨rfl, rfl, List.Sublist.refl _⟩
  | some g =>
    simp only [hq] at h
    split_ifs at h
    all_goals
      simp only [Outcome.ok.injEq, Prod.mk.injEq] at h
      obtain ⟨_, h2, _⟩ := h
      subst h2
    · exact ⟨rfl, rfl, List.Sublist.refl _⟩
    · exact ⟨rfl, rfl, List.dropLast_sublist _⟩
    · exact ⟨rfl, rfl, List.dropLast_sublist _⟩

theorem upload_visit_frame (info : devinfo) (todo : Nat) :
    (upload_visit info todo).1.releases = info.releases ∧
    (upload_visit info todo).1.dont_switch_lists = info.dont_switch_lists ∧
    (upload_visit info todo).1.locked.Sublist info.locked ∧
    (todo + 1 ≤ info.locked.length → todo ≤ (upload_visit info todo).1.locked.length) := by
  unfold upload_visit
  by_cases hlt : info.locked.length < todo + 1
  · rw [if_pos hlt]
    exact ⟨rfl, rfl, List.Sublist.refl _, fun h => by omega⟩
  · rw [if_neg hlt]
    simp only
    cases hg : info.locked.get? (info.locked.length - (todo + 1)) with
    | none =>
      refine ⟨rfl, rfl, List.Sublist.refl _, fun h => ?_⟩
      show todo ≤ info.locked.length
      omega
    | some g =>
      simp only
      by_cases hn : g.old_end_io = bio_end_io_t.NULL
      · rw [if_pos hn]
        refine ⟨rfl, rfl, List.eraseIdx_sublist _ _, ?_⟩
        intro h
        simp only [List.length_eraseIdx]
        split_ifs <;> omega
      · rw [if_neg hn]
        refine ⟨rfl, rfl, List.Sublist.refl _, fun h => ?_⟩
        show todo ≤ info.locked.length
        omega

theorem hstep_hook_inv (info : devinfo) (walk : Option Nat) (a : HAct) (info' : devinfo)
    (walk' : Option Nat) (h : hstep info walk a = some (info', walk'))
    (hinv : hook_inv info walk) : hook_inv info' walk' := by
  obtain ⟨hnd, hrel, hlock, hnone, hsome⟩ := hinv
  cases a with
  | reply body rw snap failed_io alloc =>
    simp only [hstep] at h
    split_ifs at h with henv
    cases hr : replied_rw info body rw snap failed_io alloc with
    | ok x =>
      obtain ⟨ret, info1, ev⟩ := x
      rw [hr] at h
      simp only [Option.some.injEq, Prod.mk.injEq] at h
      obtain ⟨h1, h2⟩ := h
      subst h1 h2
      obtain ⟨new, hl, hrl, hd, hnew, hnn⟩ :=
        replied_rw_loop_hooks _ _ _ _ _ _ _ _ _ _ _ _ _ _ hr henv.2.2
      simp only at hl hrl hd
      have hnn' := hnn (by
        intro a _ ha b _ hb hab
        exact henv.2.1 a (by omega) b (by omega) hab)
      refine ⟨?_, ?_, ?_, ?_, ?_⟩
      · rw [hl, hrl, List.append_assoc, List.map_append, List.nodup_append]
        refine ⟨hnn', hnd, ?_⟩
        intro x hx1 hx2
        obtain ⟨g, hg, hgx⟩ := List.mem_map.mp hx1
        obtain ⟨_, j, _, hj2, hj3⟩ := hnew g hg
        exact henv.1 j (by omega) (by rw [← hj3, hgx]; exact hx2)
      · rw [hrl]; exact hrel
      · intro hz g hg
        rw [hl] at hg
        rcases List.mem_append.mp hg with hg | hg
        · exact (hnew g hg).1
        · exact hlock (by rw [← hd]; exact hz) g hg
      · intro hw
        rw [hd]
        exact hnone hw
      · intro todo hw
        obtain ⟨h1, h2⟩ := hsome todo hw
        refine ⟨by rw [hd]; exact h1, ?_⟩
        rw [hl, List.length_append]
        omega
    | _ => rw [hr] at h; simp at h
  | end_io b done error ret =>
    simp only [hstep] at h
    cases he : snapshot_read_end_io info b done error ret with
    | none => rw [he] at h; simp at h
    | some x =>
      obtain ⟨r, info1, b1, ev⟩ := x
      rw [he] at h
      simp only [Option.some.injEq, Prod.mk.injEq] at h
      obtain ⟨h1, h2⟩ := h
      subst h1 h2
      obtain ⟨g, pre, post, hl, hg, hd, hcase⟩ :=
        snapshot_read_end_io_some info b done error ret r info1 b1 ev he hrel
      rcases hcase with ⟨hz, hl', hr'⟩ | ⟨hz, hl', hr'⟩
      · refine ⟨?_, ?_, ?_, ?_, ?_⟩
        · rw [hl', hr']
          rw [hl] at hnd
          rw [List.nodup_iff_count_le_one] at hnd ⊢
          intro x
          have := hnd x
          simp only [List.map_append, List.map_cons, List.count_append,
            List.count_cons] at this ⊢
          split_ifs at this ⊢ <;> omega
        · intro k hk
          rw [hr'] at hk
          rcases List.mem_cons.mp hk with rfl | hk
          · rfl
          · exact hrel k hk
        · intro _ k hk
          rw [hl'] at hk
          apply hlock hz k
          rw [hl]
          rcases List.mem_append.mp hk with hk | hk
          · exact List.mem_append_left _ hk
          · exact List.mem_append_right _ (List.mem_cons_of_mem _ hk)
        · intro _
          rw [hd]; exact hz
        · intro todo hw
          have := (hsome todo hw).1
          omega
      · refine ⟨?_, ?_, ?_, ?_, ?_⟩
        · rw [hl', hr', List.map_append, null_hook_map_addr, ← List.map_append]
          exact hnd
        · rw [hr']; exact hrel
        · intro hz'
          rw [hd] at hz'
          exact absurd hz' hz
        · intro hw
          rw [hd]; exact hnone hw
        · intro todo hw
          obtain ⟨h1, h2⟩ := hsome todo hw
          refine ⟨by rw [hd]; exact h1, ?_⟩
          rw [hl', null_hook_length]
          exact h2
  | release err =>
    cases walk with
    | some k => simp [hstep] at h
    | none =>
      simp only [hstep] at h
      cases hw : worker_release_iter info err with
      | ok x =>
        obtain ⟨nx, info1, ev⟩ := x
        rw [hw] at h
        simp only [Option.some.injEq, Prod.mk.injEq] at h
        obtain ⟨h1, h2⟩ := h
        subst h1 h2
        obtain ⟨fl, fd, fr⟩ := worker_release_iter_frame info err nx info1 ev hw
        refine ⟨?_, ?_, ?_, ?_, ?_⟩
        · rw [fl]
          exact hooks_nodup_of_sublist _ _ _ _ (List.Sublist.refl _) fr hnd
        · intro k hk
          exact hrel k (fr.subset hk)
        · intro hz k hk
          rw [fl] at hk
          exact hlock (by rw [← fd]; exact hz) k hk
        · intro _
          rw [fd]; exact hnone rfl
        · intro todo hw'
          cases hw'
      | _ => rw [hw] at h; simp at h
  | upload_begin =>
    cases walk with
    | some k => simp [hstep] at h
    | none =>
      simp only [hstep, Option.some.injEq, Prod.mk.injEq] at h
      obtain ⟨h1, h2⟩ := h
      subst h1 h2
      have hr : (upload_begin info).releases = [] := by
        simp only [upload_begin]
        exact free_releases_eq_nil _ _ (Nat.le_refl _)
      refine ⟨?_, ?_, ?_, ?_, ?_⟩
      · rw [hr]
        exact hooks_nodup_of_sublist _ _ _ _ (List.Sublist.refl _) (List.nil_sublist _) hnd
      · intro k hk
        rw [hr] at hk
        cases hk
      · intro hz
        simp [upload_begin] at hz
      · intro hw
        cases hw
      · intro todo hw
        simp only [Option.some.injEq] at hw
        subst hw
        exact ⟨rfl, Nat.le_refl _⟩
  | upload_visit =>
    cases walk with
    | none => simp [hstep] at h
    | some k =>
      cases k with
      | zero => simp [hstep] at h
      | succ todo =>
        simp only [hstep, Option.some.injEq, Prod.mk.injEq] at h
        obtain ⟨h1, h2⟩ := h
        subst h1 h2
        obtain ⟨fr, fd, fl, flen⟩ := upload_visit_frame info todo
        obtain ⟨hd1, hlen⟩ := hsome (todo + 1) rfl
        refine ⟨?_, ?_, ?_, ?_, ?_⟩
        · rw [fr]
          exact hooks_nodup_of_sublist _ _ _ _ fl (List.Sublist.refl _) hnd
        · rw [fr]; exact hrel
        · intro hz
          rw [fd, hd1] at hz
          cases hz
        · intro hw
          cases hw
        · intro t hw
          simp only [Option.some.injEq] at hw
          subst hw
          exact ⟨by rw [fd]; exact hd1, flen hlen⟩
  | upload_end =>
    cases walk with
    | none => simp [hstep] at h
    | some k =>
      cases k with
      | succ todo => simp [hstep] at h
      | zero =>
        simp only [hstep, Option.some.injEq, Prod.mk.injEq] at h
        obtain ⟨h1, h2⟩ := h
        subst h1 h2
        obtain ⟨s1, s2, s3⟩ := sweep_locked_spec info.locked info.releases
        refine ⟨?_, ?_, ?_, ?_, ?_⟩
        · simp only [upload_end]
          exact ((s1.map hook.addr).nodup_iff).mpr hnd
        · intro k hk
          simp only [upload_end] at hk
          rcases s3 k hk with hk | hk
          · exact hrel k hk
          · exact hk
        · intro _ k hk
          simp only [upload_end] at hk
          exact s2 k hk
        · intro _
          rfl
        · intro todo hw
          cases hw
  | other info1 =>
    simp only [hstep] at h
    split_ifs at h with hc
    simp only [Option.some.injEq, Prod.mk.injEq] at h
    obtain ⟨h1, h2⟩ := h
    subst h1 h2
    obtain ⟨c1, c2, c3⟩ := hc
    refine ⟨by rw [c1, c2]; exact hnd, by rw [c2]; exact hrel, ?_, ?_, ?_⟩
    · intro hz
      rw [c1]
      exact hlock (by rw [← c3]; exact hz)
    · intro hw
      rw [c3]; exact hnone hw
    · intro todo hw
      rw [c1, c3]
      exact hsome todo hw

theorem hrun_hook_inv (acts : List HAct) :
    ∀ (info : devinfo) (walk : Option Nat) (info' : devinfo) (walk' : Option Nat),
      hrun acts info walk = some (info', walk') → hook_inv info walk →
      hook_inv info' walk' := by
  induction acts with
  | nil =>
    intro info walk info' walk' h hinv
    simp only [hrun, Option.some.injEq, Prod.mk.injEq] at h
    obtain ⟨h1, h2⟩ := h
    subst h1 h2
    exact hinv
  | cons a acts ih =>
    intro info walk info' walk' h hinv
    simp only [hrun] at h
    cases hs : hstep info walk a with
    | none => rw [hs] at h; cases h
    | some r =>
      obtain ⟨info1, walk1⟩ := r
      rw [hs] at h
      exact ih info1 walk1 info' walk' h (hstep_hook_inv info walk a info1 walk1 hs hinv)

theorem hook_inv_create (snap : Int) (snapdev orgdev control_socket : Nat) :
    hook_inv (ddsnap_create snap snapdev orgdev control_socket) none := by
  refine ⟨by simp [ddsnap_create], by simp [ddsnap_create], by simp [ddsnap_create],
    fun _ => rfl, ?_⟩
  intro todo hw
  cases hw

/-- The steps of the rest of the client (connection, identification,
`report_error`, `ddsnap_map`, a worker query pass, `requeue_queries`) leave
the hook lists and `dont_switch_lists` alone: for the hook lists each of
them is a step `HAct.other`. -/
theorem step_leaves_hooks (ID_BITS : Nat) (hid : ID_BITS ≤ 32) (info : devinfo) (n : Nat)
    (a : Act) (info' : devinfo) (n' : Nat)
    (hlen : info.pending.length = NUM_BUCKETS)
    (ha : match a with
      | Act.reply _ _ _ _ _ => False
      | Act.other _ => False
      | _ => True)
    (h : step ID_BITS info n a = some (info', n')) :
    hstep info none (HAct.other info') = some (info', none) := by
  have key : info'.locked = info.locked ∧ info'.releases = info.releases ∧
      info'.dont_switch_lists = info.dont_switch_lists := by
    cases a with
    | connect_server sock off len err =>
      simp only [step, Option.some.injEq, Prod.mk.injEq] at h
      obtain ⟨h1, _⟩ := h
      subst h1
      unfold control_connect_server
      split_ifs <;> exact ⟨rfl, rfl, rfl⟩
    | identify_ok k =>
      simp only [step, Option.some.injEq, Prod.mk.injEq] at h
      obtain ⟨h1, _⟩ := h
      subst h1
      exact ⟨rfl, rfl, rfl⟩
    | report_error =>
      cases hre : report_error info with
      | ok x =>
        simp only [step, hre, Option.some.injEq, Prod.mk.injEq] at h
        obtain ⟨h1, _⟩ := h
        subst h1
        unfold report_error at hre
        by_cases h1 : info.flags &&& (1 <<< REPORT_BIT) ≠ 0
        · rw [if_pos h1] at hre
          simp only [Outcome.ok.injEq] at hre
          subst hre
          exact ⟨rfl, rfl, rfl⟩
        · rw [if_neg h1] at hre
          simp only at hre
          by_cases h2 : info.recover_sem = 0
          · rw [if_pos h2] at hre; cases hre
          · rw [if_neg h2] at hre
            simp only [Outcome.ok.injEq] at hre
            subst hre
            exact ⟨rfl, rfl, rfl⟩
      | _ => simp [step, hre] at h
    | map b =>
      cases hm : ddsnap_map ID_BITS info b with
      | ok x =>
        obtain ⟨ret, info1, b1⟩ := x
        simp only [step, hm, Option.some.injEq, Prod.mk.injEq] at h
        obtain ⟨h1, _⟩ := h
        subst h1
        rcases ddsnap_map_cases ID_BITS info b ret info1 b1 hid hm with ⟨_, heq⟩ | ⟨_, _, heq⟩
        · rw [heq]; exact ⟨rfl, rfl, rfl⟩
        · rw [heq]; exact ⟨rfl, rfl, rfl⟩
      | _ => simp [step, hm] at h
    | send err =>
      cases hw : worker_query_iter info err with
      | ok x =>
        obtain ⟨nx, info1, ev⟩ := x
        simp only [step, hw, Option.some.injEq, Prod.mk.injEq] at h
        obtain ⟨h1, _⟩ := h
        subst h1
        rcases worker_query_iter_cases info err nx info1 ev hw with
          ⟨_, heq, _, _⟩ | ⟨qs, p, _, _, _, _, ⟨_, _, heq⟩ | ⟨_, _, heq⟩⟩
        · rw [heq]; exact ⟨rfl, rfl, rfl⟩
        · rw [heq]; exact ⟨rfl, rfl, rfl⟩
        · rw [heq]; exact ⟨rfl, rfl, rfl⟩
      | _ => simp [step, hw] at h
    | reply body rw snap failed_io alloc => exact absurd ha (by simp)
    | requeue =>
      simp only [step, Option.some.injEq, Prod.mk.injEq] at h
      obtain ⟨h1, _⟩ := h
      subst h1
      rw [requeue_queries_eq info hlen]
      exact ⟨rfl, rfl, rfl⟩
    | other info1 => exact absurd ha (by simp)
  simp only [hstep, if_pos key]

/-- The walk of `upload_locks` taken visit by visit is the walk taken in
one go. -/
theorem upload_visits_eq (suf : List hook) :
    ∀ (pre : List hook) (info : devinfo) (ev : List Event), info.locked = pre ++ suf →
      upload_visits suf.length info ev =
        ({ info with locked := pre ++ (upload_walk info.chunkshift suf).1 },
         ev ++ (upload_walk info.chunkshift suf).2) := by
  induction suf with
  | nil =>
    intro pre info ev hl
    rw [List.append_nil] at hl
    simp only [List.length_nil, upload_visits, upload_walk, List.append_nil]
    rw [← hl]
  | cons h suf ih =>
    intro pre info ev hl
    have hlen : ¬ info.locked.length < suf.length + 1 := by
      rw [hl]; simp
    have hidx : info.locked.length - (suf.length + 1) = pre.length := by
      rw [hl]; simp
    have hget : info.locked.get? pre.length = some h := by
      rw [hl, List.get?_eq_getElem?, List.getElem?_append_right (Nat.le_refl _)]
      simp
    simp only [List.length_cons, upload_visits, upload_visit, if_neg hlen, hidx, hget]
    by_cases hn : h.old_end_io = bio_end_io_t.NULL
    · simp only [if_pos hn]
      have he : info.locked.eraseIdx pre.length = pre ++ suf := by
        rw [hl, List.eraseIdx_append_of_length_le (Nat.le_refl _)]
        simp
      rw [ih pre { info with locked := info.locked.eraseIdx pre.length } (ev ++ []) he]
      simp [upload_walk, hn]
    · simp only [if_neg hn]
      rw [ih (pre ++ [h]) info (ev ++ [upload_lock_message info.chunkshift h])
        (by rw [hl]; simp)]
      simp [upload_walk, hn]

/-- The three stages of `upload_locks`, run with nothing in between, are
`upload_locks`. -/
theorem upload_locks_stages (info : devinfo) :
    upload_locks info =
      ((upload_end
          (upload_visits (upload_begin info).locked.length (upload_begin info) []).1).1,
       (upload_visits (upload_begin info).locked.length (upload_begin info) []).2 ++
         (upload_end
          (upload_visits (upload_begin info).locked.length (upload_begin info) []).1).2) := by
  rw [upload_visits_eq (upload_begin info).locked [] (upload_begin info) [] rfl]
  simp [upload_locks, upload_end, upload_begin]

/-- C15. Along every trace of replies handed to `replied_rw` (with fresh
hook addresses and I/Os that have a completion callback), completions in
`snapshot_read_end_io`, passes of the worker's release drain, the stages of
`upload_locks` and steps that leave the hook lists alone, from a freshly
created device: no hook is on both the locked list and the release list
or twice on one of them; every hook on the release list has a null
captured callback; while `dont_switch_lists` is 0 every hook on the locked
list has a non-null captured callback, so a hook with a null captured
callback is on the locked list only while `upload_locks` is under way with
`dont_switch_lists` set; and `dont_switch_lists` is 0 exactly while the
worker is outside `upload_locks`. -/
theorem hook_lists_exclusive (snap : Int) (snapdev orgdev control_socket : Nat)
    (acts : List HAct) (info : devinfo) (walk : Option Nat)
    (h : hrun acts (ddsnap_create snap snapdev orgdev control_socket) none =
      some (info, walk)) :
    ((info.locked ++ info.releases).map hook.addr).Nodup ∧
    (∀ k ∈ info.releases, k.old_end_io = bio_end_io_t.NULL) ∧
    (info.dont_switch_lists = 0 → ∀ k ∈ info.locked, k.old_end_io ≠ bio_end_io_t.NULL) ∧
    (∀ k ∈ info.locked, k.old_end_io = bio_end_io_t.NULL →
      info.dont_switch_lists = 1 ∧ walk ≠ none) ∧
    (walk = none ↔ info.dont_switch_lists = 0) := by
  obtain ⟨hnd, hrel, hlock, hnone, hsome⟩ :=
    hrun_hook_inv acts _ _ _ _ h (hook_inv_create snap snapdev orgdev control_socket)
  have hiff : walk = none ↔ info.dont_switch_lists = 0 := by
    constructor
    · exact hnone
    · intro hz
      cases hw : walk with
      | none => rfl
      | some todo =>
        have := (hsome todo hw).1
        omega
  refine ⟨hnd, hrel, hlock, ?_, hiff⟩
  intro k hk hnull
  cases hw : walk with
  | none => exact absurd hnull (hlock (hnone hw) k hk)
  | some todo => exact ⟨(hsome todo hw).1, by simp⟩

/-- Witness of C15: two reads are hooked (addresses 100 and 200), an
upload cycle begins and visits the hook at 200, then that read completes:
the hook stays on the locked list with a null captured callback while
`dont_switch_lists` is 1; when the cycle has ended it is on the release
list and the flag is 0. -/
theorem hook_lists_exclusive_witness :
    hrun upload_trace (ddsnap_create 0 2 1 3) none = some upload_middle ∧
    upload_middle.1.locked =
      [{ addr := 200, sector := 48, old_end_io := bio_end_io_t.NULL, old_private := 0 },
       { addr := 100, sector := 40, old_end_io := bio_end_io_t.fn 1, old_private := 0 }] ∧
    upload_middle.1.releases = [] ∧
    (upload_middle.1.dont_switch_lists = 1 ∧ upload_middle.2 ≠ none) ∧
    upload_done.1.locked =
      [{ addr := 100, sector := 40, old_end_io := bio_end_io_t.fn 1, old_private := 0 }] ∧
    upload_done.1.releases =
      [{ addr := 200, sector := 48, old_end_io := bio_end_io_t.NULL, old_private := 0 }] ∧
    upload_done.1.dont_switch_lists = 0 :=
  ⟨by decide, by decide, by decide,
    (hook_lists_exclusive 0 2 1 3 upload_trace upload_middle.1 upload_middle.2
      (by decide)).2.2.2.1
      { addr := 200, sector := 48, old_end_io := bio_end_io_t.NULL, old_private := 0 }
      (by decide) rfl,
    by decide, by decide, by decide⟩

/-! ## The id counter: claim C21 -/

theorem mod_add_inj (P s a b : Nat) (hab : a < b) (hb : b < a + P)
    (h : (s + a) % P = (s + b) % P) : False := by
  have h1 : ((s + b) - (s + a)) % P = 0 := Nat.sub_mod_eq_zero_of_mod_eq h.symm
  have h2 : (s + b) - (s + a) = b - a := by omega
  rw [h2] at h1
  have h3 : P ∣ b - a := Nat.dvd_of_mod_eq_zero h1
  have h4 : P ≤ b - a := Nat.le_of_dvd (by omega) h3
  omega

theorem irun_ids (ID_BITS : Nat) (hid : ID_BITS ≤ 32) (acts : List IAct) :
    ∀ (info : devinfo) (ids0 : List Nat) (info' : devinfo) (ids : List Nat),
      irun ID_BITS acts info ids0 = some (info', ids) → info.nextid < 2 ^ ID_BITS →
      ∃ m, ids = ids0 ++ (List.range m).map (fun k => (info.nextid + k) % 2 ^ ID_BITS) ∧
        info'.nextid = (info.nextid + m) % 2 ^ ID_BITS := by
  induction acts with
  | nil =>
    intro info ids0 info' ids h hlt
    simp only [irun, Option.some.injEq, Prod.mk.injEq] at h
    obtain ⟨h1, h2⟩ := h
    subst h1 h2
    exact ⟨0, by simp, by simp [Nat.mod_eq_of_lt hlt]⟩
  | cons a acts ih =>
    intro info ids0 info' ids h hlt
    simp only [irun] at h
    cases hs : istep ID_BITS info ids0 a with
    | none => rw [hs] at h; cases h
    | some r =>
      obtain ⟨info1, ids1⟩ := r
      rw [hs] at h
      cases a with
      | other info2 =>
        simp only [istep] at hs
        split_ifs at hs with hc
        simp only [Option.some.injEq, Prod.mk.injEq] at hs
        obtain ⟨h1, h2⟩ := hs
        subst h1 h2
        obtain ⟨m, hm1, hm2⟩ := ih _ _ _ _ h (by rw [hc]; exact hlt)
        rw [hc] at hm1 hm2
        exact ⟨m, hm1, hm2⟩
      | map b =>
        cases hm : ddsnap_map ID_BITS info b with
        | ok x =>
          obtain ⟨ret, info2, b2⟩ := x
          simp only [istep, hm, Option.some.injEq, Prod.mk.injEq] at hs
          obtain ⟨h1, h2⟩ := hs
          subst h1
          rcases ddsnap_map_cases ID_BITS info b ret info2 b2 hid hm with
            ⟨hne, heq⟩ | ⟨h0, _, heq⟩
          · rw [if_neg hne] at h2
            subst h2
            obtain ⟨m, hm1, hm2⟩ := ih _ _ _ _ h (by rw [heq]; exact hlt)
            rw [heq] at hm1 hm2
            exact ⟨m, hm1, hm2⟩
          · rw [if_pos h0] at h2
            subst h2
            have hn : info2.nextid = (info.nextid + 1) % 2 ^ ID_BITS := by rw [heq]
            have hq : (info2.queries.take 1).map pending.id = [info.nextid] := by
              rw [heq]; rfl
            obtain ⟨m, hm1, hm2⟩ := ih _ _ _ _ h
              (by rw [hn]; exact Nat.mod_lt _ (Nat.two_pow_pos _))
            refine ⟨m + 1, ?_, ?_⟩
            · rw [hm1, hq, hn, List.append_assoc, List.range_succ_eq_map, List.map_cons,
                List.map_map]
              congr 1
              have e0 : (info.nextid + 0) % 2 ^ ID_BITS = info.nextid :=
                Nat.mod_eq_of_lt hlt
              rw [List.singleton_append, e0]
              congr 1
              apply List.map_congr_left
              intro k _
              simp only [Function.comp]
              rw [Nat.mod_add_mod]
              congr 1
              omega
            · rw [hm2, hn, Nat.mod_add_mod]
              congr 1
              omega
        | _ => simp [istep, hm] at hs

/-- C21. For every width `ID_BITS < 32` of the id counter and every start
value below `2^ID_BITS`: along every sequence of calls of `ddsnap_map` and
steps of other parts of the client, the counter stays below `2^ID_BITS`;
the `k`-th query-generating call is assigned the id
`(start + k) mod 2^ID_BITS`; so the ids of any `2^ID_BITS` consecutive
query-generating calls are pairwise different and the call after them is
assigned the id of the first of them again.  Nothing detects the wrap:
`2^ID_BITS + 1` records mapped and queried on a fresh device with no reply
arrived leave two records with the same id in the pending table. -/
theorem id_counter_cycle (ID_BITS : Nat) (hid : ID_BITS < 32) (info : devinfo)
    (hstart : info.nextid < 2 ^ ID_BITS) (acts : List IAct) (info' : devinfo)
    (ids : List Nat) (h : irun ID_BITS acts info [] = some (info', ids)) :
    info'.nextid < 2 ^ ID_BITS ∧
    info'.nextid = (info.nextid + ids.length) % 2 ^ ID_BITS ∧
    ids = (List.range ids.length).map (fun k => (info.nextid + k) % 2 ^ ID_BITS) ∧
    (∀ i, i + 2 ^ ID_BITS ≤ ids.length → ((ids.drop i).take (2 ^ ID_BITS)).Nodup) ∧
    (∀ i, i + 2 ^ ID_BITS < ids.length → ids[i + 2 ^ ID_BITS]? = ids[i]?) ∧
    (∃ st, Reachable ID_BITS (2 ^ ID_BITS + 1) st ∧
      ¬ (st.pending.flatten.map pending.id).Nodup) := by
  obtain ⟨m, hm1, hm2⟩ := irun_ids ID_BITS (Nat.le_of_lt hid) acts info [] info' ids h hstart
  rw [List.nil_append] at hm1
  have hlen : ids.length = m := by rw [hm1]; simp
  have hget : ∀ k, k < ids.length → ids[k]? = some ((info.nextid + k) % 2 ^ ID_BITS) := by
    intro k hk
    rw [hlen] at hk
    rw [hm1, List.getElem?_map, List.getElem?_range hk]
    rfl
  refine ⟨?_, ?_, ?_, ?_, ?_, id_wrap_collision ID_BITS (Nat.le_of_lt hid)⟩
  · rw [hm2]
    exact Nat.mod_lt _ (Nat.two_pow_pos _)
  · rw [hlen]; exact hm2
  · rw [hlen]; exact hm1
  · intro i hi
    rw [List.nodup_iff_getElem?_ne_getElem?]
    intro a b hab hb
    have hb' : b < 2 ^ ID_BITS := by
      simp only [List.length_take, List.length_drop] at hb
      omega
    rw [List.getElem?_take_of_lt (by omega), List.getElem?_take_of_lt hb',
      List.getElem?_drop, List.getElem?_drop, hget _ (by omega), hget _ (by omega)]
    intro heq
    simp only [Option.some.injEq] at heq
    exact mod_add_inj (2 ^ ID_BITS) info.nextid (i + a) (i + b) (by omega) (by omega) heq
  · intro i hi
    rw [hget _ hi, hget _ (by omega)]
    congr 1
    rw [← Nat.add_assoc, Nat.add_mod_right]

/-- Witness of C21: with `ID_BITS = 2` and the counter at 3, five mapped
writes get the ids 3, 0, 1, 2, 3; the counter ends at 0. -/
theorem id_counter_cycle_witness :
    irun 2 counter_trace counter_start [] = some counter_result ∧
    counter_result.2 = [3, 0, 1, 2, 3] ∧
    counter_result.1.nextid = 0 ∧
    ((counter_result.2.drop 0).take (2 ^ 2)).Nodup ∧
    counter_result.2[0 + 2 ^ 2]? = counter_result.2[0]? :=
  ⟨by decide, by decide, by decide,
    (id_counter_cycle 2 (by decide) counter_start (by decide) counter_trace
      counter_result.1 counter_result.2 (by decide)).2.2.2.1 0 (by decide),
    (id_counter_cycle 2 (by decide) counter_start (by decide) counter_trace
      counter_result.1 counter_result.2 (by decide)).2.2.2.2.1 0 (by decide)⟩

/-! ## Release of a locked read: claim C11 -/

theorem worker_release_iter_again (info : devinfo) (rs : List hook) (h : hook)
    (hr : info.releases = rs ++ [h]) (hrun : worker_running info = true)
    (hsem : 0 < info.server_out_sem) :
    worker_release_iter info 0 =
      Outcome.ok (Next.again, { info with releases := rs },
        [finish_message info.chunkshift h]) := by
  have hlast : info.releases.getLast? = some h := by rw [hr]; simp
  have hdrop : info.releases.dropLast = rs := by rw [hr]; simp
  have hne : info.server_out_sem ≠ 0 := Nat.pos_iff_ne_zero.mp hsem
  have hsem' : info.server_out_sem - 1 + 1 = info.server_out_sem := by omega
  simp only [worker_release_iter, hlast, hrun, hdrop]
  simp [hne, hsem']

/-- The worker's release drain, when every send succeeds, the egress
permit is there and the worker is running, sends one release for each hook
of the release list, from the tail to the head, and ends with the list
empty. -/
theorem worker_release_loop_drains (fuel : Nat) :
    ∀ (k : Nat) (info : devinfo) (ev : List Event),
      info.releases.length < fuel → worker_running info = true → 0 < info.server_out_sem →
      ∃ info', worker_release_loop (fun _ => 0) fuel k info ev =
          Outcome.ok (Next.done, info',
            ev ++ info.releases.reverse.map (finish_message info.chunkshift)) ∧
        info'.releases = [] := by
  induction fuel with
  | zero => intro k info ev h; exact absurd h (Nat.not_lt_zero _)
  | succ fuel ih =>
    intro k info ev hlen hrun hsem
    rcases List.eq_nil_or_concat info.releases with hq | ⟨rs, h, hq⟩
    · refine ⟨info, ?_, hq⟩
      simp [worker_release_loop, worker_release_iter, hq]
    · rw [List.concat_eq_append] at hq
      have hiter := worker_release_iter_again info rs h hq hrun hsem
      obtain ⟨info', hloop, hq'⟩ := ih (k + 1) { info with releases := rs }
        (ev ++ [finish_message info.chunkshift h])
        (by
          have : info.releases.length = rs.length + 1 := by rw [hq]; simp
          simp only; omega)
        (by simpa [worker_running] using hrun) hsem
      refine ⟨info', ?_, hq'⟩
      rw [worker_release_loop, hiter]
      simp only
      rw [hloop, hq]
      simp

/-- C11. A snapshot read mapped at sector `s` (with `chunksize_bits < 31`)
is queried with the chunk `s >> chunkshift`; when it is answered by
`REPLY_SNAPSHOT_READ_ORIGIN` the hook keeps the sector `s`.  The completion
leaves the sector of the hook alone on both of its paths: outside an
upload cycle it moves the hook to the release list; during an upload cycle
(`dont_switch_lists` set) the hook stays on the locked list with a null
captured callback, and the end of `upload_locks` moves every such hook, as
it is, to the release list.  When the worker takes the hook off the release
list, with `chunkshift` the same as at map time, it sends one
`FINISH_SNAPSHOT_READ` with `count = 1` and the range
`{chunk = s >> chunkshift, chunks = 1}`, the chunk of the query.  A release
drain sends exactly one such message for each hook it takes off the
list. -/
theorem finish_carries_query_chunk (ID_BITS : Nat) (info0 : devinfo) (b : bio)
    (hid : ID_BITS ≤ 32)
    (hready : info0.flags &&& READY_FLAG ≠ 0)
    (hsnap : info0.flags &&& IS_SNAP_FLAG ≠ 0)
    (hread : b.dir = Rw.READ)
    (hbits : info0.chunksize_bits < 31)
    (hsize : b.bi_size ≤ 1 <<< info0.chunksize_bits) :
    ∃ p : pending,
      p.id = info0.nextid ∧ p.chunk = b.bi_sector >>> info0.chunkshift ∧ p.chunks = 1 ∧
      (∃ info1 b1, ddsnap_map ID_BITS info0 b = Outcome.ok (0, info1, b1) ∧
        info1.queries = p :: info0.queries) ∧
      query_message p =
        Event.outbead Opcode.QUERY_SNAPSHOT_READ
          { id := info0.nextid, count := 1, chunk := b.bi_sector >>> info0.chunkshift,
            chunks := 1 } ∧
      (∀ (info2 : devinfo) (alloc : Nat → Nat) (pre post : List pending) (chunk : Nat)
          (physical : List Nat),
        info2.pending.getD (hash_pending p.id) [] = pre ++ p :: post →
        (∀ q ∈ pre, q.id ≠ p.id) →
        ∃ info3 ev hk,
          replied_rw info2
              { id := p.id, count := 1,
                ranges := [{ range := { chunk := chunk, chunks := 1 },
                             physical := physical }] }
              Rw.READ false false alloc = Outcome.ok (0, info3, ev) ∧
          info3.locked = hk :: info2.locked ∧ hk.addr = alloc 0 ∧
          hk.sector = b.bi_sector ∧ hk.old_end_io = b.bi_end_io) ∧
      (∀ (info3 : devinfo) (io : bio) (done : Nat) (error ret : Int) (hk : hook)
          (pre post : List hook) (a : Nat),
        info3.locked = pre ++ hk :: post → (∀ g ∈ pre, g.addr ≠ hk.addr) →
        io.bi_private = hk.addr → hk.old_end_io = bio_end_io_t.fn a →
        hk.sector = b.bi_sector → info3.dont_switch_lists = 0 →
        ∃ info4 io' ev hk',
          snapshot_read_end_io info3 io done error ret = some (ret, info4, io', ev) ∧
          info4.releases = hk' :: info3.releases ∧ hk'.sector = b.bi_sector) ∧
      (∀ (info3 : devinfo) (io : bio) (done : Nat) (error ret : Int) (hk : hook)
          (pre post : List hook) (a : Nat),
        info3.locked = pre ++ hk :: post → (∀ g ∈ pre, g.addr ≠ hk.addr) →
        io.bi_private = hk.addr → hk.old_end_io = bio_end_io_t.fn a →
        hk.sector = b.bi_sector → info3.dont_switch_lists ≠ 0 →
        ∃ info4 io' ev hk',
          snapshot_read_end_io info3 io done error ret = some (ret, info4, io', ev) ∧
          info4.locked = pre ++ hk' :: post ∧ info4.releases = info3.releases ∧
          hk'.old_end_io = bio_end_io_t.NULL ∧ hk'.addr = hk.addr ∧
          hk'.sector = b.bi_sector) ∧
      (∀ (info4 : devinfo) (hk : hook),
        hk ∈ info4.locked → hk.old_end_io = bio_end_io_t.NULL →
        hk ∈ (upload_end info4).1.releases ∧ hk ∉ (upload_end info4).1.locked) ∧
      (∀ (info4 : devinfo) (rs : List hook) (hk : hook),
        info4.releases = rs ++ [hk] → hk.sector = b.bi_sector →
        info4.chunkshift = info0.chunkshift →
        worker_running info4 = true → 0 < info4.server_out_sem →
        worker_release_iter info4 0 =
          Outcome.ok (Next.again, { info4 with releases := rs },
            [Event.outbead Opcode.FINISH_SNAPSHOT_READ
              { id := 0, count := 1, chunk := b.bi_sector >>> info0.chunkshift,
                chunks := 1 }])) ∧
      (∀ (info4 : devinfo),
        worker_running info4 = true → 0 < info4.server_out_sem →
        ∃ info5, worker_release_drain info4 (fun _ => 0) =
            Outcome.ok (Next.done, info5,
              info4.releases.reverse.map (fun hk =>
                Event.outbead Opcode.FINISH_SNAPSHOT_READ
                  { id := 0, count := 1, chunk := hk.sector >>> info4.chunkshift,
                    chunks := 1 })) ∧
          info5.releases = []) := by
  refine ⟨{ id := info0.nextid, chunk := b.bi_sector >>> info0.chunkshift, chunks := 1,
            bio := { b with bi_bdev := info0.orgdev } }, rfl, rfl, rfl, ?_, ?_, ?_, ?_, ?_, ?_,
            ?_, ?_⟩
  · exact ⟨_, _, ddsnap_map_query_eq ID_BITS info0 b hid hready (Or.inr hsnap)
      (size_assert_of_le _ _ hbits hsize), rfl⟩
  · simp [query_message, hread]
  · intro info2 alloc pre post chunk physical hbucket hfirst
    exact ⟨_, _, _, replied_rw_hook_eq info2 alloc _ pre post chunk physical hbucket hfirst rfl,
      rfl, rfl, rfl, rfl⟩
  · intro info3 io done error ret hk pre post a hlocked hfirst hpriv hcb hsec hflag
    refine ⟨_, _, _, { hk with old_end_io := bio_end_io_t.NULL },
      snapshot_read_end_io_eq info3 io done error ret hk pre post a hlocked hfirst hpriv hcb,
      ?_, hsec⟩
    rw [if_pos hflag]
  · intro info3 io done error ret hk pre post a hlocked hfirst hpriv hcb hsec hflag
    refine ⟨_, _, _, { hk with old_end_io := bio_end_io_t.NULL },
      snapshot_read_end_io_eq info3 io done error ret hk pre post a hlocked hfirst hpriv hcb,
      ?_, ?_, rfl, rfl, hsec⟩
    · rw [if_neg hflag]
    · rw [if_neg hflag]
  · intro info4 hk hmem hnull
    obtain ⟨s1, s2, _⟩ := sweep_locked_spec info4.locked info4.releases
    have hnot : hk ∉ (sweep_locked info4.locked info4.releases).1 :=
      fun hin => s2 hk hin hnull
    refine ⟨?_, hnot⟩
    have hin : hk ∈ (sweep_locked info4.locked info4.releases).1 ++
        (sweep_locked info4.locked info4.releases).2 :=
      s1.symm.subset (List.mem_append_left _ hmem)
    rcases List.mem_append.mp hin with h | h
    · exact absurd h hnot
    · exact h
  · intro info4 rs hk hr hsec hcs hrun hsem
    rw [worker_release_iter_again info4 rs hk hr hrun hsem, finish_message, hsec, hcs]
  · intro info4 hrun hsem
    obtain ⟨info5, h1, h2⟩ :=
      worker_release_loop_drains (info4.releases.length + 1) 0 info4 []
        (Nat.lt_succ_self _) hrun hsem
    exact ⟨info5, by simpa [worker_release_drain, finish_message] using h1, h2⟩

/-- Witness of C11: the read of chunk 5 (sector 40) on the ready snapshot
device is queried with chunk 5 and, once answered from the origin and
completed, released with `FINISH_SNAPSHOT_READ {chunk = 5, 1}`; the read
of chunk 6 that completed during an upload cycle is moved to the release
list by the end of `upload_locks` and released with chunk 6. -/
theorem finish_carries_query_chunk_witness :
    ∃ p : pending, p.id = 0 ∧ p.chunk = 5 ∧
      query_message p =
        Event.outbead Opcode.QUERY_SNAPSHOT_READ
          { id := 0, count := 1, chunk := 5, chunks := 1 } ∧
      read_completed.releases =
        [{ addr := 100, sector := 40, old_end_io := bio_end_io_t.NULL, old_private := 0 }] ∧
      worker_release_iter read_completed 0 =
        Outcome.ok (Next.again, { read_completed with releases := [] },
          [Event.outbead Opcode.FINISH_SNAPSHOT_READ
            { id := 0, count := 1, chunk := 5, chunks := 1 }]) ∧
      ({ addr := 200, sector := 48, old_end_io := bio_end_io_t.NULL, old_private := 0 } ∈
          (upload_end upload_middle.1).1.releases ∧
        { addr := 200, sector := 48, old_end_io := bio_end_io_t.NULL, old_private := 0 } ∉
          (upload_end upload_middle.1).1.locked) ∧
      worker_release_iter upload_done.1 0 =
        Outcome.ok (Next.again, { upload_done.1 with releases := [] },
          [Event.outbead Opcode.FINISH_SNAPSHOT_READ
            { id := 0, count := 1, chunk := 6, chunks := 1 }]) :=
  match finish_carries_query_chunk 16 snap_ready (read_at 40) (by decide) (by decide)
      (by decide) rfl (by decide) (by decide) with
  | ⟨p, hid, hchunk, _, _, hq, _, _, _, hsweep, hrel, _⟩ =>
    ⟨p, hid, hchunk, hq, by decide,
      hrel read_completed []
        { addr := 100, sector := 40, old_end_io := bio_end_io_t.NULL, old_private := 0 }
        (by decide) rfl (by decide) (by decide) (by decide),
      hsweep upload_middle.1
        { addr := 200, sector := 48, old_end_io := bio_end_io_t.NULL, old_private := 0 }
        (by decide) rfl,
      by decide⟩

end Ddsnap
